import Mathlib

/-!
# ArduPilot log parser (`ardupilot_parse_log.c`)

A shallow embedding of the scan-and-extract core of the MEX function:
`findFmtLength`, `parseFmtMessages`, `validateMessageFilter`,
`isValidMessage`, `addMessageData` and `parseAllMessages`.

Conventions of the embedding.

* Bytes (`unsigned char`) and `size_t` values are natural numbers.  The log is a
  `List Nat`; `log_size` is its length.
* The subtractions the source performs in `size_t` (`log_size - 5`,
  `log_size - fmt_length`, `log_size - 2`) and the conversions of the `int`
  values `length - 3` and `length - 1` to `size_t` wrap modulo `2 ^ 64`
  (`wrapSub`), as do the two updates of `pos` that follow an accepted record.
  Sums of a position inside the log and a small constant or a record length are
  plain sums: a buffer of `log_size` bytes leaves them below `2 ^ 64`.
* Reading a byte at an index that is not inside the log is a `Fault`: every read
  goes through `readByte`, `memcmp3` or `copyBytes`, which check the range.
* A `for` loop whose counter is only incremented is a recursion on the number of
  iterations left; the main pass of `parseAllMessages`, which changes `pos` in
  its body, is run with fuel (`scanLoop`).
-/

namespace Ardupilog

/-- Line 9: `#define MAX_MSG_TYPES 256`. -/
def MAX_MSG_TYPES : Nat := 256

/-- Line 11: `#define FMT_ID 128`. -/
def FMT_ID : Nat := 128

/-- The number of values of a 64-bit `size_t`. -/
def SIZE_MOD : Nat := 18446744073709551616

/-- The difference `a - b` of two `size_t` values (or of two bytes, taken in
`int` and converted to `size_t`): it wraps to `a + 2 ^ 64 - b` when `a < b`. -/
def wrapSub (a b : Nat) : Nat := if b ≤ a then a - b else a + SIZE_MOD - b

/-- The sum `a + b` computed in `size_t`. -/
def wrapAdd (a b : Nat) : Nat := (a + b) % SIZE_MOD

/-- What stops a run before it returns. -/
inductive Fault where
  /-- A read or a copy that leaves the log buffer. -/
  | outOfRange
  /-- A write past the end of the 256-entry `validIds` array. -/
  | validIdsOverflow
  deriving DecidableEq, Repr

/-- The outcome of a loop that is run with fuel. -/
inductive Run (α : Type) where
  /-- The loop ran to its end. -/
  | done (a : α)
  /-- The loop stopped on a fault. -/
  | fault (f : Fault)
  /-- The fuel was used up before the loop ended. -/
  | outOfFuel
  deriving DecidableEq, Repr

/-- Lines 13-19: `FmtMessage`.  The three character arrays hold the bytes that
`memcpy` put there; their terminating NUL (`name[4]`, `format[16]`,
`labels[64]`) is left implicit and `cstr` gives the C string they hold. -/
structure FmtMessage where
  type : Nat
  length : Nat
  name : List Nat
  format : List Nat
  labels : List Nat
  deriving DecidableEq, Repr

/-- Lines 21-28: `MessageData`.  `indices` and `data` list the first `count`
cells of the two arrays; `allocated` says that `indices` is not `NULL`. -/
structure MessageData where
  msg_id : Nat
  indices : List Nat
  data : List (List Nat)
  count : Nat
  capacity : Nat
  msg_length : Nat
  allocated : Bool
  deriving DecidableEq, Repr

/-- Lines 30-39: `LogParser`.  `fmt_messages` and `messages` list the first
`fmt_count` cells of the two arrays, so `fmt_count` is
`fmt_messages.length`. -/
structure LogParser where
  log_data : List Nat
  header0 : Nat
  header1 : Nat
  fmt_messages : List FmtMessage
  messages : List MessageData
  fmt_length : Nat
  total_msg_count : Nat
  deriving DecidableEq, Repr

/-- The optional third argument of the MEX function, as `validateMessageFilter`
tells its shapes apart: no argument (`NULL`), a cell array whose cells are
character arrays (`some name`) or something else (`none`), a numeric array
(each element already cast to `unsigned char`), or any other array, of which
only emptiness matters. -/
inductive MsgFilter where
  | absent
  | cell (items : List (Option (List Nat)))
  | numeric (ids : List Nat)
  | other (isEmpty : Bool)
  deriving DecidableEq, Repr

/-- The field `log_size`. -/
def LogParser.log_size (p : LogParser) : Nat := p.log_data.length

/-- The field `fmt_count`. -/
def LogParser.fmt_count (p : LogParser) : Nat := p.fmt_messages.length

/-- A `MessageData` as `memset` leaves it (line 63). -/
def zeroMessageData : MessageData :=
  { msg_id := 0, indices := [], data := [], count := 0, capacity := 0,
    msg_length := 0, allocated := false }

/-- The parser as `mexFunction` sets it up (lines 62-69) once it holds the
format table `fmts` and the probed length `fmtLen`: everything else is zero. -/
def freshParser (log : List Nat) (h0 h1 : Nat) (fmts : List FmtMessage)
    (fmtLen : Nat) : LogParser :=
  { log_data := log, header0 := h0, header1 := h1, fmt_messages := fmts,
    messages := List.replicate fmts.length zeroMessageData,
    fmt_length := fmtLen, total_msg_count := 0 }

/-- The read `log_data[i]`. -/
def readByte (log : List Nat) (i : Nat) : Except Fault Nat :=
  match log[i]? with
  | some b => .ok b
  | none => .error .outOfRange

/-- The test `memcmp(&log_data[i], search_pattern, 3) == 0`: the three bytes
have to lie inside the log. -/
def memcmp3 (log : List Nat) (i a b c : Nat) : Except Fault Bool :=
  if i + 3 ≤ log.length then
    .ok (decide (log[i]? = some a ∧ log[i + 1]? = some b ∧ log[i + 2]? = some c))
  else .error .outOfRange

/-- The copy `memcpy(dst, &log_data[start], len)`: the `len` source bytes
have to lie inside the log (a request for more than the log holds, such as the
wrapped length of a record shorter than its frame, stops the MEX call). -/
def copyBytes (log : List Nat) (start len : Nat) : Except Fault (List Nat) :=
  if start + len ≤ log.length then .ok ((log.drop start).take len)
  else .error .outOfRange

/-- The C string held by a character array: the bytes before the first NUL. -/
def cstr (bytes : List Nat) : List Nat := bytes.takeWhile (fun b => b != 0)

/-- The test `strcmp(a, b) == 0`. -/
def strcmpEq (a b : List Nat) : Bool := cstr a == cstr b

/-- Lines 280-299: `isValidMessage` (`msg_id` is not used by the source). -/
def isValidMessage (pos _msg_id msg_len : Nat) (p : LogParser) : Except Fault Bool :=
  if pos + msg_len > p.log_size then .ok false
  else
    let next_pos := pos + msg_len
    if next_pos ≥ p.log_size then .ok true
    else if next_pos + 1 < p.log_size then
      match readByte p.log_data next_pos with
      | .error f => .error f
      | .ok b0 =>
        if b0 = p.header0 then
          match readByte p.log_data (next_pos + 1) with
          | .error f => .error f
          | .ok b1 => .ok (decide (b1 = p.header1))
        else .ok false
    else .ok true

/-- Lines 301-313: `addMessageData`.  The write to cell `count` of each array
appends to the list of the first `count` cells. -/
def addMessageData (msgData : MessageData) (index : Nat) (data : List Nat) : MessageData :=
  { msgData with
    capacity := if msgData.count ≥ msgData.capacity then msgData.capacity * 2
                else msgData.capacity
    indices := msgData.indices ++ [index]
    data := msgData.data ++ [data]
    count := msgData.count + 1 }

/-- Lines 93-100: the loop of `findFmtLength`, with `k` iterations left at
offset `i`; `none` when the loop ends without a match. -/
def findFmtLoop (log : List Nat) (h0 h1 : Nat) : Nat → Nat → Except Fault (Option Nat)
  | 0, _ => .ok none
  | k + 1, i =>
    match memcmp3 log i h0 h1 FMT_ID with
    | .error f => .error f
    | .ok false => findFmtLoop log h0 h1 k (i + 1)
    | .ok true =>
      match readByte log (i + 3) with
      | .error f => .error f
      | .ok b =>
        if b = FMT_ID then
          match readByte log (i + 4) with
          | .error f => .error f
          | .ok len => .ok (some len)
        else findFmtLoop log h0 h1 k (i + 1)

/-- Lines 89-104: `findFmtLength`; the result is the return value and the
parser with `fmt_length` set.  The loop runs for `i = 0 .. log_size - 5`. -/
def findFmtLength (p : LogParser) : Except Fault (Nat × LogParser) :=
  match findFmtLoop p.log_data p.header0 p.header1 (wrapSub p.log_size 5 + 1) 0 with
  | .error f => .error f
  | .ok (some len) => .ok (1, { p with fmt_length := len })
  | .ok none => .ok (1, { p with fmt_length := 89 })

/-- Lines 114-145: the fields of the FMT record whose payload starts at
`base` (`msg_data = &log_data[base]`). -/
def readFmtMessage (log : List Nat) (base : Nat) : Except Fault FmtMessage :=
  match readByte log base, readByte log (base + 1), copyBytes log (base + 2) 4,
      copyBytes log (base + 6) 16, copyBytes log (base + 22) 64 with
  | .ok t, .ok l, .ok n, .ok f, .ok lb =>
    .ok { type := t, length := l, name := n, format := f, labels := lb }
  | _, _, _, _, _ => .error .outOfRange

/-- Lines 111-154: the loop of `parseFmtMessages`, with `k` iterations left
at offset `i` and `acc` the table so far; the flag says that the warning of
line 149 was given. -/
def parseFmtLoop (p : LogParser) : Nat → Nat → List FmtMessage →
    Except Fault (List FmtMessage × Bool)
  | 0, _, acc => .ok (acc, false)
  | k + 1, i, acc =>
    match memcmp3 p.log_data i p.header0 p.header1 FMT_ID with
    | .error f => .error f
    | .ok false => parseFmtLoop p k (i + 1) acc
    | .ok true =>
      match isValidMessage i FMT_ID p.fmt_length p with
      | .error f => .error f
      | .ok false => parseFmtLoop p k (i + 1) acc
      | .ok true =>
        match readFmtMessage p.log_data (i + 3) with
        | .error f => .error f
        | .ok fmt =>
          let acc' := acc ++ [fmt]
          if acc'.length ≥ MAX_MSG_TYPES then .ok (acc', true)
          else parseFmtLoop p k (i + 1) acc'

/-- Lines 106-157: `parseFmtMessages`; the result is the return value
(`fmt_count > 0`), the warning flag and the parser holding the table. -/
def parseFmtMessages (p : LogParser) : Except Fault (Nat × Bool × LogParser) :=
  match parseFmtLoop p (wrapSub p.log_size p.fmt_length + 1) 0 [] with
  | .error f => .error f
  | .ok (fmts, warned) =>
    .ok (if fmts.length > 0 then 1 else 0, warned, { p with fmt_messages := fmts })

/-- Lines 248-254: the first format whose name is `filterName`, if any. -/
def findByName (filterName : List Nat) : List FmtMessage → Option FmtMessage
  | [] => none
  | fmt :: rest => if strcmpEq fmt.name filterName then some fmt else findByName filterName rest

/-- Lines 267-273: whether some format has type `msgId`. -/
def existsType (msgId : Nat) : List FmtMessage → Bool
  | [] => false
  | fmt :: rest => if fmt.type = msgId then true else existsType msgId rest

/-- The write `validIds[*validCount] = id; (*validCount)++` into the array
of `MAX_MSG_TYPES` cells. -/
def pushValidId (validIds : List Nat) (id : Nat) : Except Fault (List Nat) :=
  if validIds.length < MAX_MSG_TYPES then .ok (validIds ++ [id])
  else .error .validIdsOverflow

/-- Lines 243-257: the loop over the cells of a name filter. -/
def resolveNames (fmts : List FmtMessage) : List (Option (List Nat)) → List Nat →
    Except Fault (List Nat)
  | [], validIds => .ok validIds
  | none :: rest, validIds => resolveNames fmts rest validIds
  | some filterName :: rest, validIds =>
    match findByName filterName fmts with
    | none => resolveNames fmts rest validIds
    | some fmt =>
      match pushValidId validIds fmt.type with
      | .error f => .error f
      | .ok validIds' => resolveNames fmts rest validIds'

/-- Lines 263-274: the loop over the elements of a numeric filter. -/
def resolveIds (fmts : List FmtMessage) : List Nat → List Nat → Except Fault (List Nat)
  | [], validIds => .ok validIds
  | msgId :: rest, validIds =>
    if existsType msgId fmts then
      match pushValidId validIds msgId with
      | .error f => .error f
      | .ok validIds' => resolveIds fmts rest validIds'
    else resolveIds fmts rest validIds

/-- Lines 232-278: `validateMessageFilter`; the result is the return value
and the first `validCount` cells of `validIds`. -/
def validateMessageFilter (msgFilter : MsgFilter) (p : LogParser) :
    Except Fault (Nat × List Nat) :=
  match msgFilter with
  | .absent => .ok (1, [])
  | .cell [] => .ok (1, [])
  | .numeric [] => .ok (1, [])
  | .other _ => .ok (1, [])
  | .cell items =>
    match resolveNames p.fmt_messages items [] with
    | .error f => .error f
    | .ok validIds => .ok (1, validIds)
  | .numeric ids =>
    match resolveIds p.fmt_messages ids [] with
    | .error f => .error f
    | .ok validIds => .ok (1, validIds)

/-- Lines 177-185: `shouldParse` for one format. -/
def shouldParse (validIds : List Nat) (fmt : FmtMessage) : Bool :=
  if validIds.length = 0 then true else validIds.any (fun id => id == fmt.type)

/-- Lines 189-194: the fields of a selected `MessageData`. -/
def initMessageData (fmt : FmtMessage) : MessageData :=
  { msg_id := fmt.type, msg_length := fmt.length, capacity := 1000,
    indices := [], data := [], count := 0, allocated := true }

/-- Lines 172-198: the set-up loop over the formats from index `i` on;
`tbl` is `msgIdToIndex`, with `none` for the `-1` of an unused id. -/
def setupLoop (validIds : List Nat) : List FmtMessage → Nat → List MessageData →
    (Nat → Option Nat) → List MessageData × (Nat → Option Nat)
  | [], _, msgs, tbl => (msgs, tbl)
  | fmt :: rest, i, msgs, tbl =>
    if shouldParse validIds fmt then
      setupLoop validIds rest (i + 1) (msgs.set i (initMessageData fmt))
        (fun id => if id = fmt.type then some i else tbl id)
    else setupLoop validIds rest (i + 1) msgs tbl

/-- Lines 215-223 and the `pos++` of line 200: the record at `pos` is taken
for format `fmt_index`. -/
def takeRecord (p : LogParser) (pos fmt_index : Nat) (fmt : FmtMessage)
    (msgData : MessageData) : Except Fault (LogParser × Nat) :=
  let data_len := wrapSub fmt.length 3
  match copyBytes p.log_data (pos + 3) data_len with
  | .error f => .error f
  | .ok msg_data =>
    .ok ({ p with
            messages := p.messages.set fmt_index (addMessageData msgData (pos + 1) msg_data)
            total_msg_count := p.total_msg_count + 1 },
         wrapAdd (wrapAdd pos (wrapSub fmt.length 1)) 1)

/-- Lines 207-225 and the `pos++` of line 200: the header matched at `pos`
and the id `msg_id` is mapped to `fmt_index`. -/
def tryRecord (p : LogParser) (pos msg_id fmt_index : Nat) : Except Fault (LogParser × Nat) :=
  match p.fmt_messages[fmt_index]?, p.messages[fmt_index]? with
  | some fmt, some msgData =>
    if pos + fmt.length ≤ p.log_size ∧ msgData.allocated = true then
      match isValidMessage pos msg_id fmt.length p with
      | .error f => .error f
      | .ok false => .ok (p, wrapAdd pos 1)
      | .ok true => takeRecord p pos fmt_index fmt msgData
    else .ok (p, wrapAdd pos 1)
  | _, _ => .error .outOfRange

/-- Lines 204-226 and the `pos++` of line 200: the header matched at `pos`. -/
def dispatch (p : LogParser) (tbl : Nat → Option Nat) (pos : Nat) :
    Except Fault (LogParser × Nat) :=
  match readByte p.log_data (pos + 2) with
  | .error f => .error f
  | .ok msg_id =>
    match tbl msg_id with
    | none => .ok (p, wrapAdd pos 1)
    | some fmt_index => tryRecord p pos msg_id fmt_index

/-- Lines 201-226 and the `pos++` of line 200: one iteration of the main
pass at `pos`; the result is the parser and the next `pos`. -/
def scanStep (p : LogParser) (tbl : Nat → Option Nat) (pos : Nat) :
    Except Fault (LogParser × Nat) :=
  match readByte p.log_data pos with
  | .error f => .error f
  | .ok b0 =>
    if b0 = p.header0 then
      match readByte p.log_data (pos + 1) with
      | .error f => .error f
      | .ok b1 =>
        if b1 = p.header1 then dispatch p tbl pos
        else .ok (p, wrapAdd pos 1)
    else .ok (p, wrapAdd pos 1)

/-- Lines 200-227: the main pass from `pos`, for at most `fuel` iterations. -/
def scanLoop (tbl : Nat → Option Nat) : Nat → LogParser → Nat → Run LogParser
  | 0, _, _ => .outOfFuel
  | fuel + 1, p, pos =>
    if pos < wrapSub p.log_size 2 then
      match scanStep p tbl pos with
      | .error f => .fault f
      | .ok (p', pos') => scanLoop tbl fuel p' pos'
    else .done p

/-- Lines 159-230: `parseAllMessages`, its main pass run with `fuel`; the
result is the return value and the parser. -/
def parseAllMessages (fuel : Nat) (p : LogParser) (msgFilter : MsgFilter) :
    Run (Nat × LogParser) :=
  match validateMessageFilter msgFilter p with
  | .error f => .fault f
  | .ok (ret, validIds) =>
    if ret = 0 then .done (0, p)
    else
      let st := setupLoop validIds p.fmt_messages 0 p.messages (fun _ => none)
      match scanLoop st.2 fuel { p with messages := st.1 } 0 with
      | .done p' => .done (1, p')
      | .fault f => .fault f
      | .outOfFuel => .outOfFuel

/-- The parser as `mexFunction` first sets it up (lines 62-69): `fmt_count`
is 0, so neither array lists a cell yet. -/
def initParser (log : List Nat) (h0 h1 : Nat) : LogParser :=
  { log_data := log, header0 := h0, header1 := h1, fmt_messages := [],
    messages := [], fmt_length := 0, total_msg_count := 0 }

/-- Lines 73-79: the probe followed by the table builder; `none` stands for
the error exit of `mexErrMsgTxt`.  On success `messages` lists the first
`fmt_count` cells of its array, which are still as the `memset` of line 63
left them. -/
def buildFormatTable (log : List Nat) (h0 h1 : Nat) :
    Except Fault (Option (Bool × LogParser)) :=
  match findFmtLength (initParser log h0 h1) with
  | .error f => .error f
  | .ok (r1, p1) =>
    if r1 = 0 then .ok none
    else
      match parseFmtMessages p1 with
      | .error f => .error f
      | .ok (r2, warned, p2) =>
        if r2 = 0 then .ok none
        else .ok (some (warned,
          { p2 with messages := List.replicate p2.fmt_messages.length zeroMessageData }))

/-- Lines 62-83: the core of `mexFunction`; `done none` stands for an error
exit through `mexErrMsgTxt`. -/
def parse (fuel : Nat) (log : List Nat) (h0 h1 : Nat) (msgFilter : MsgFilter) :
    Run (Option LogParser) :=
  match buildFormatTable log h0 h1 with
  | .error f => .fault f
  | .ok none => .done none
  | .ok (some (_, p)) =>
    match parseAllMessages fuel p msgFilter with
    | .done (r, p') => if r = 0 then .done none else .done (some p')
    | .fault f => .fault f
    | .outOfFuel => .outOfFuel

/-! ## Notions used to state the properties -/

/-- The instances of one format, in the order they were appended: the
recorded offset paired with the payload. -/
def MessageData.instances (md : MessageData) : List (Nat × List Nat) :=
  md.indices.zip md.data

/-- The entry that the set-up loop leaves at a format's index in a parser
whose `messages` were all zero. -/
def selectInit (validIds : List Nat) (fmt : FmtMessage) : MessageData :=
  if shouldParse validIds fmt then initMessageData fmt else zeroMessageData

/-- The value that the set-up loop leaves in `msgIdToIndex[id]` when it runs
over `fmts` from index `i`: the index of the last selected format of type `id`
(`none` when the loop does not write the cell). -/
def lookupLast (validIds : List Nat) : List FmtMessage → Nat → Nat → Option Nat
  | [], _, _ => none
  | fmt :: rest, i, id =>
    match lookupLast validIds rest (i + 1) id with
    | some k => some k
    | none => if shouldParse validIds fmt = true ∧ fmt.type = id then some i else none

/-- An instance `(off, payload)` in the list of format `k` is framed when it
was taken at a position `pos` with `off = pos + 1` where the two header bytes
and an id mapped to `k` stand, the record of the declared length fits in the
log and the payload is the bytes after the 3-byte frame. -/
def Framed (log : List Nat) (h0 h1 : Nat) (fmts : List FmtMessage)
    (tbl : Nat → Option Nat) (k off : Nat) (payload : List Nat) : Prop :=
  ∃ pos fmt id, off = pos + 1 ∧ fmts[k]? = some fmt ∧ log[pos]? = some h0 ∧
    log[pos + 1]? = some h1 ∧ log[pos + 2]? = some id ∧ tbl id = some k ∧
    3 ≤ fmt.length ∧ pos + fmt.length ≤ log.length ∧
    payload = (log.drop (pos + 3)).take (fmt.length - 3)

/-- The invariant of the main pass at `pos`: the parser still holds the log,
the header and the format table it started with, and in every list the two
arrays run in parallel, every instance is framed, and the offsets increase
strictly and stay at or below `pos`. -/
structure ScanInv (log : List Nat) (h0 h1 : Nat) (fmts : List FmtMessage)
    (tbl : Nat → Option Nat) (p : LogParser) (pos : Nat) : Prop where
  log_eq : p.log_data = log
  h0_eq : p.header0 = h0
  h1_eq : p.header1 = h1
  fmts_eq : p.fmt_messages = fmts
  entries : ∀ k md, p.messages[k]? = some md →
    md.indices.length = md.data.length ∧ md.count = md.indices.length ∧
    (∀ x ∈ md.instances, Framed log h0 h1 fmts tbl k x.1 x.2) ∧
    md.indices.Pairwise (fun a b => a < b) ∧ (∀ off ∈ md.indices, off ≤ pos)

/-! ## Example inputs -/

/-- A 101-byte log: one FMT record of 89 bytes that declares type 5, named
`TEST`, with records of 12 bytes, followed by one record of type 5. -/
def exampleLog : List Nat :=
  [163, 149, 128, 5, 12, 84, 69, 83, 84] ++ List.replicate 80 0 ++
    [163, 149, 5, 1, 2, 3, 4, 5, 6, 7, 8, 9]

/-- The format table that `parseFmtMessages` builds from `exampleLog`. -/
def exampleFmts : List FmtMessage :=
  [{ type := 5, length := 12, name := [84, 69, 83, 84], format := List.replicate 16 0,
     labels := List.replicate 64 0 }]

/-- The parser that `parse` returns for `exampleLog` and no filter. -/
def exampleResult : LogParser :=
  { log_data := exampleLog, header0 := 163, header1 := 149, fmt_messages := exampleFmts,
    messages := [{ msg_id := 5, indices := [90], data := [[1, 2, 3, 4, 5, 6, 7, 8, 9]],
                   count := 1, capacity := 1000, msg_length := 12, allocated := true }],
    fmt_length := 89, total_msg_count := 1 }

/-- A 24-byte log of two records of type 5, each of 12 bytes. -/
def twoRecordLog : List Nat :=
  [163, 149, 5, 1, 2, 3, 4, 5, 6, 7, 8, 9, 163, 149, 5, 11, 12, 13, 14, 15, 16, 17, 18, 19]

/-- The parser that the main pass returns for `twoRecordLog`, the table
`exampleFmts` and no filter. -/
def twoRecordResult : LogParser :=
  { log_data := twoRecordLog, header0 := 163, header1 := 149, fmt_messages := exampleFmts,
    messages := [{ msg_id := 5, indices := [1, 13],
                   data := [[1, 2, 3, 4, 5, 6, 7, 8, 9], [11, 12, 13, 14, 15, 16, 17, 18, 19]],
                   count := 2, capacity := 1000, msg_length := 12, allocated := true }],
    fmt_length := 89, total_msg_count := 2 }

/-! ## The filter rules as the specification words them -/

/-- Whether some declared format has type `t`. -/
def declaredType (fmts : List FmtMessage) (t : Nat) : Bool :=
  fmts.any (fun fmt => fmt.type == t)

/-- The accepted-type set in the words of the specification: an absent or
empty filter accepts every declared type id; a name list accepts the type ids
of the declared formats whose name equals some listed name; an id list accepts
the listed ids that occur among the declared formats; any other filter accepts
every declared type id. -/
def specAccepts (fmts : List FmtMessage) (msgFilter : MsgFilter) (t : Nat) : Bool :=
  match msgFilter with
  | .absent => declaredType fmts t
  | .other _ => declaredType fmts t
  | .cell items =>
    if items.isEmpty then declaredType fmts t
    else fmts.any (fun fmt => fmt.type == t && items.any (fun item =>
      match item with
      | some name => strcmpEq fmt.name name
      | none => false))
  | .numeric ids =>
    if ids.isEmpty then declaredType fmts t
    else ids.any (fun id => id == t) && declaredType fmts t

/-- The format `fmt` is the first one of the table whose name is `name`. -/
def IsFirstNamed (fmts : List FmtMessage) (name : List Nat) (fmt : FmtMessage) : Prop :=
  ∃ j, fmts[j]? = some fmt ∧ strcmpEq fmt.name name = true ∧
    ∀ (j' : Nat) (fmt' : FmtMessage), j' < j → fmts[j']? = some fmt' →
      strcmpEq fmt'.name name = false

/-- Two formats named `A`, of types 1 and 2. -/
def sameNameFmts : List FmtMessage :=
  [{ type := 1, length := 3, name := [65, 0, 0, 0], format := List.replicate 16 0,
     labels := List.replicate 64 0 },
   { type := 2, length := 6, name := [65, 0, 0, 0], format := List.replicate 16 0,
     labels := List.replicate 64 0 }]

/-! ## Well-formed logs -/

/-- The log made of the records `(t, payload)`, each written as the two
header bytes, the type id `t` and the payload. -/
def encodeRecords (h0 h1 : Nat) : List (Nat × List Nat) → List Nat
  | [] => []
  | r :: rest => h0 :: h1 :: r.1 :: (r.2 ++ encodeRecords h0 h1 rest)

/-- The instances of type `t` among records that start at position `s`, in
the order of the log: the position of the record plus one, and its payload. -/
def expectedInstances (t : Nat) : List (Nat × List Nat) → Nat → List (Nat × List Nat)
  | [], _ => []
  | r :: rest, s =>
    if r.1 = t then (s + 1, r.2) :: expectedInstances t rest (s + 3 + r.2.length)
    else expectedInstances t rest (s + 3 + r.2.length)

/-! ## Comparing a filtered with an unfiltered pass -/

/-- The relation that a filtered pass `q` keeps with the unfiltered pass `p`:
the same log, header and table, the same list for every selected entry, and
the zero entry of `memset` for every entry that the filter leaves out, whatever
the unfiltered pass holds there. -/
structure FilterRel (validIds : List Nat) (p q : LogParser) : Prop where
  log_eq : q.log_data = p.log_data
  h0_eq : q.header0 = p.header0
  h1_eq : q.header1 = p.header1
  fmts_eq : q.fmt_messages = p.fmt_messages
  fmt_length_eq : q.fmt_length = p.fmt_length
  len_eq : q.messages.length = q.fmt_messages.length
  sel : ∀ (k : Nat) (fmt : FmtMessage), p.fmt_messages[k]? = some fmt →
    shouldParse validIds fmt = true → q.messages[k]? = p.messages[k]?
  unsel : ∀ (k : Nat) (fmt : FmtMessage), p.fmt_messages[k]? = some fmt →
    shouldParse validIds fmt = false → q.messages[k]? = some zeroMessageData

/-- Two FMT records of 89 bytes, declaring type 1 (`A`, 3 bytes) and type 2
(`B`, 6 bytes), followed by one record of type 2 whose payload is the three
bytes of a record of type 1. -/
def shadowLog : List Nat :=
  [163, 149, 128, 1, 3, 65] ++ List.replicate 83 0 ++
    ([163, 149, 128, 2, 6, 66] ++ List.replicate 83 0) ++ [163, 149, 2, 163, 149, 1]

/-- The format table that `parseFmtMessages` builds from `shadowLog`. -/
def shadowFmts : List FmtMessage :=
  [{ type := 1, length := 3, name := [65, 0, 0, 0], format := List.replicate 16 0,
     labels := List.replicate 64 0 },
   { type := 2, length := 6, name := [66, 0, 0, 0], format := List.replicate 16 0,
     labels := List.replicate 64 0 }]

/-- The parser that `parse` returns for `shadowLog` and no filter. -/
def shadowUnfiltered : LogParser :=
  { log_data := shadowLog, header0 := 163, header1 := 149, fmt_messages := shadowFmts,
    messages := [{ msg_id := 1, indices := [], data := [], count := 0, capacity := 1000,
                   msg_length := 3, allocated := true },
                 { msg_id := 2, indices := [179], data := [[163, 149, 1]], count := 1,
                   capacity := 1000, msg_length := 6, allocated := true }],
    fmt_length := 89, total_msg_count := 1 }

/-- The parser that `parse` returns for `shadowLog` and the name filter `A`. -/
def shadowFiltered : LogParser :=
  { log_data := shadowLog, header0 := 163, header1 := 149, fmt_messages := shadowFmts,
    messages := [{ msg_id := 1, indices := [182], data := [[]], count := 1, capacity := 1000,
                   msg_length := 3, allocated := true },
                 zeroMessageData],
    fmt_length := 89, total_msg_count := 1 }

/-! ## The frame-validity check -/

/-- The frame-validity check in the words of the specification: the log ends
right after the candidate, or the two bytes after it exist and are the
header. -/
def specFrameValid (p : LogParser) (pos len : Nat) : Prop :=
  pos + len = p.log_size ∨
    (p.log_data[pos + len]? = some p.header0 ∧ p.log_data[pos + len + 1]? = some p.header1)

/-! ## The format table as the specification words it -/

/-- Whether the frame-validity check of a candidate FMT record passes. -/
def passesFrameCheck (p : LogParser) (pos len : Nat) : Bool :=
  match isValidMessage pos FMT_ID len p with
  | .ok true => true
  | _ => false

/-- Whether offset `i` is a valid FMT occurrence: the bytes there are the
header and `FMT_ID`, and a candidate of length `fmt_length` passes the
frame-validity check. -/
def isFmtOccurrence (p : LogParser) (i : Nat) : Bool :=
  decide (p.log_data[i]? = some p.header0 ∧ p.log_data[i + 1]? = some p.header1 ∧
    p.log_data[i + 2]? = some FMT_ID) && passesFrameCheck p i p.fmt_length

/-- The valid FMT occurrences among the offsets `0 .. log_size - fmt_length`,
in increasing order. -/
def fmtOccurrences (p : LogParser) : List Nat :=
  (List.range (p.log_size - p.fmt_length + 1)).filter (isFmtOccurrence p)

/-- The `FmtMessage` that lines 114-145 fill from a payload that starts at
`base`, when all of it lies in the log. -/
def rawFmtRecord (log : List Nat) (base : Nat) : FmtMessage :=
  { type := log.getD base 0, length := log.getD (base + 1) 0,
    name := (log.drop (base + 2)).take 4, format := (log.drop (base + 6)).take 16,
    labels := (log.drop (base + 22)).take 64 }

/-- A table entry with each character array replaced by the C string it
holds. -/
def FmtMessage.trimmed (fmt : FmtMessage) : FmtMessage :=
  { fmt with name := cstr fmt.name, format := cstr fmt.format, labels := cstr fmt.labels }

/-- The FormatRecord of the FMT occurrence at offset `i` in the words of the
specification: type id at `i + 3`, record length at `i + 4`, and the 4, 16 and
64 bytes at `i + 5`, `i + 9` and `i + 25`, each cut at its first zero byte. -/
def specFmtRecord (log : List Nat) (i : Nat) : FmtMessage :=
  { type := log.getD (i + 3) 0, length := log.getD (i + 4) 0,
    name := ((log.drop (i + 5)).take 4).takeWhile (fun b => b != 0),
    format := ((log.drop (i + 9)).take 16).takeWhile (fun b => b != 0),
    labels := ((log.drop (i + 25)).take 64).takeWhile (fun b => b != 0) }

/-- The format table in the words of the specification: one FormatRecord for
each of the first 256 valid FMT occurrences, in increasing order of offset. -/
def specFmtTable (p : LogParser) : List FmtMessage :=
  ((fmtOccurrences p).take MAX_MSG_TYPES).map (specFmtRecord p.log_data)

/-- A log of 383 bytes, all 128, read with header `(128, 128)`: the probe finds
`fmt_length = 128`, and each of the offsets `0 .. 255` is a valid FMT
occurrence (256 of them, no more). -/
def fullTableLog : List Nat := List.replicate 383 128

/-- The parser state the probe leaves on `fullTableLog`. -/
def fullTableParser : LogParser :=
  { initParser fullTableLog 128 128 with fmt_length := 128 }

/-- The counting invariant of the main pass: `total_msg_count` is the number of
instances in all the lists together, and in every list the two arrays run in
parallel with `count` cells each. -/
def CountInv (p : LogParser) : Prop :=
  p.total_msg_count = (p.messages.map (fun md => md.instances.length)).sum ∧
  ∀ md ∈ p.messages, md.indices.length = md.data.length ∧ md.count = md.instances.length

/-- Every recorded offset is `pos + 1` for a position `pos` at which the
frame-validity check passes with the record length of the format entry that
owns the list. -/
def ValidatedInv (log : List Nat) (h0 h1 : Nat) (fmts : List FmtMessage)
    (p : LogParser) : Prop :=
  ∀ (k : Nat) (md : MessageData) (fmt : FmtMessage), p.messages[k]? = some md →
    fmts[k]? = some fmt → ∀ off ∈ md.indices, ∃ pos, off = pos + 1 ∧
      isValidMessage pos fmt.type fmt.length (initParser log h0 h1) = .ok true

/-- A format table with two entries of type 5: the first declares records of
3 bytes, the second records of 12 bytes. -/
def dupFmts : List FmtMessage :=
  [{ type := 5, length := 3, name := [79, 76, 68, 0], format := List.replicate 16 0,
     labels := List.replicate 64 0 },
   { type := 5, length := 12, name := [78, 69, 87, 0], format := List.replicate 16 0,
     labels := List.replicate 64 0 }]

/-- The parser that the main pass returns for `twoRecordLog`, the table
`dupFmts` and no filter. -/
def dupResult : LogParser :=
  { log_data := twoRecordLog, header0 := 163, header1 := 149, fmt_messages := dupFmts,
    messages := [{ msg_id := 5, indices := [], data := [], count := 0, capacity := 1000,
                   msg_length := 3, allocated := true },
                 { msg_id := 5, indices := [1, 13],
                   data := [[1, 2, 3, 4, 5, 6, 7, 8, 9], [11, 12, 13, 14, 15, 16, 17, 18, 19]],
                   count := 2, capacity := 1000, msg_length := 12, allocated := true }],
    fmt_length := 89, total_msg_count := 2 }

/-- The invariant of the main pass at `pos` for the byte ranges of the
records: every record extracted so far ends at or before `pos`, within one
list each record ends before the next starts, and records of different lists
do not overlap.  An instance recorded at `off` is the record that starts at
`off - 1`. -/
def DisjointInv (fmts : List FmtMessage) (p : LogParser) (pos : Nat) : Prop :=
  (∀ (k : Nat) (md : MessageData) (fmt : FmtMessage), p.messages[k]? = some md →
    fmts[k]? = some fmt → ∀ off ∈ md.indices, 1 ≤ off ∧ off - 1 + fmt.length ≤ pos) ∧
  (∀ (k : Nat) (md : MessageData) (fmt : FmtMessage), p.messages[k]? = some md →
    fmts[k]? = some fmt → md.indices.Pairwise (fun a b => a + fmt.length ≤ b)) ∧
  (∀ (k1 k2 : Nat) (md1 md2 : MessageData) (fmt1 fmt2 : FmtMessage), k1 ≠ k2 →
    p.messages[k1]? = some md1 → p.messages[k2]? = some md2 →
    fmts[k1]? = some fmt1 → fmts[k2]? = some fmt2 →
    ∀ off1 ∈ md1.indices, ∀ off2 ∈ md2.indices,
      off1 + fmt1.length ≤ off2 ∨ off2 + fmt2.length ≤ off1)

/-- A format table with one entry, of type `t`, that declares records of
`len` bytes. -/
def shortLenFmts (t len : Nat) : List FmtMessage :=
  [{ type := t, length := len, name := [84, 69, 83, 84], format := List.replicate 16 0,
     labels := List.replicate 64 0 }]

/-- A 101-byte log: one FMT record of 89 bytes that declares type 5, named
`TEST`, with records of 0 bytes, followed by the 12 bytes of `exampleLog`. -/
def zeroLenLog : List Nat :=
  [163, 149, 128, 5, 0, 84, 69, 83, 84] ++ List.replicate 80 0 ++
    [163, 149, 5, 1, 2, 3, 4, 5, 6, 7, 8, 9]

/-- The round-trip log with an FMT record of the 89 bytes that the layout
needs: the frame, type 5, record length 12, the name `TEST`, 80 more bytes
`pad` (the rest of the name field being empty, these are the format and label
fields), followed by one record of type 5 with the payload `payload`. -/
def roundTripLog (pad payload : List Nat) : List Nat :=
  [163, 149, 128, 5, 12, 84, 69, 83, 84] ++ pad ++ [163, 149, 5] ++ payload

/-- The round-trip log as the specification writes it: an FMT record of 12
bytes `[0xA3, 0x95, 128, 12, 'T', 'E', 'S', 'T']` and `pad`, followed by one
record of type 5 with the payload `payload`. -/
def specRoundTripLog (pad payload : List Nat) : List Nat :=
  [163, 149, 128, 12, 84, 69, 83, 84] ++ pad ++ [163, 149, 5] ++ payload

/-- Whether the filter is absent or empty, the case in which the
specification accepts every declared type. -/
def MsgFilter.isAbsentOrEmpty : MsgFilter → Bool
  | .absent => true
  | .cell items => items.isEmpty
  | .numeric ids => ids.isEmpty
  | .other e => e

/-- Two FMT records of 89 bytes, declaring type 1 (`A`, 3 bytes) and type 2
(`B`, 6 bytes), followed by a record of type 1, a record of type 2 with the
payload `[7, 8, 9]`, and a second record of type 1. -/
def mixedLog : List Nat :=
  [163, 149, 128, 1, 3, 65] ++ List.replicate 83 0 ++
    ([163, 149, 128, 2, 6, 66] ++ List.replicate 83 0) ++
    [163, 149, 1, 163, 149, 2, 7, 8, 9, 163, 149, 1]

/-- The parser that `parse` returns for `mixedLog` and no filter. -/
def mixedUnfiltered : LogParser :=
  { log_data := mixedLog, header0 := 163, header1 := 149, fmt_messages := shadowFmts,
    messages := [{ msg_id := 1, indices := [179, 188], data := [[], []], count := 2,
                   capacity := 1000, msg_length := 3, allocated := true },
                 { msg_id := 2, indices := [182], data := [[7, 8, 9]], count := 1,
                   capacity := 1000, msg_length := 6, allocated := true }],
    fmt_length := 89, total_msg_count := 3 }

/-! ## Arithmetic and memory reads -/

theorem wrapSub_of_le {a b : Nat} (hb : b ≤ a) : wrapSub a b = a - b := by
  unfold wrapSub; rw [if_pos hb]

theorem wrapSub_of_lt {a b : Nat} (hb : a < b) : wrapSub a b = a + SIZE_MOD - b := by
  unfold wrapSub; rw [if_neg (by omega)]

theorem wrapAdd_of_lt {a b : Nat} (h : a + b < SIZE_MOD) : wrapAdd a b = a + b := by
  unfold wrapAdd; exact Nat.mod_eq_of_lt h

theorem readByte_ok {log : List Nat} {i b : Nat} (h : readByte log i = .ok b) :
    log[i]? = some b := by
  unfold readByte at h
  cases hb : log[i]? with
  | none => simp only [hb] at h; cases h
  | some c => simp only [hb, Except.ok.injEq] at h; rw [h]

theorem readByte_of_getElem? {log : List Nat} {i b : Nat} (h : log[i]? = some b) :
    readByte log i = .ok b := by
  unfold readByte; simp only [h]

theorem lt_of_getElem?_eq_some {α : Type} {l : List α} {i : Nat} {a : α}
    (h : l[i]? = some a) : i < l.length := by
  by_contra hc
  rw [List.getElem?_eq_none (by omega)] at h
  cases h

theorem copyBytes_ok {log payload : List Nat} {start len : Nat}
    (h : copyBytes log start len = .ok payload) :
    start + len ≤ log.length ∧ payload = (log.drop start).take len := by
  unfold copyBytes at h
  by_cases hc : start + len ≤ log.length
  · rw [if_pos hc] at h
    simp only [Except.ok.injEq] at h
    exact ⟨hc, h.symm⟩
  · rw [if_neg hc] at h; cases h

theorem isValidMessage_congr {p q : LogParser} (hl : q.log_data = p.log_data)
    (h0 : q.header0 = p.header0) (h1 : q.header1 = p.header1) (pos id len : Nat) :
    isValidMessage pos id len q = isValidMessage pos id len p := by
  unfold isValidMessage LogParser.log_size
  rw [hl, h0, h1]

/-! ## One iteration of the main pass -/

theorem takeRecord_ok {p p' : LogParser} {pos k pos' : Nat} {fmt : FmtMessage}
    {md : MessageData} (h : takeRecord p pos k fmt md = .ok (p', pos')) :
    ∃ payload, copyBytes p.log_data (pos + 3) (wrapSub fmt.length 3) = .ok payload ∧
      p' = { p with messages := p.messages.set k (addMessageData md (pos + 1) payload)
                    total_msg_count := p.total_msg_count + 1 } ∧
      pos' = wrapAdd (wrapAdd pos (wrapSub fmt.length 1)) 1 := by
  unfold takeRecord at h
  cases hcp : copyBytes p.log_data (pos + 3) (wrapSub fmt.length 3) with
  | error f => simp only [hcp] at h; cases h
  | ok payload =>
    simp only [hcp, Except.ok.injEq, Prod.mk.injEq] at h
    exact ⟨payload, rfl, h.1.symm, h.2.symm⟩

theorem tryRecord_ok {p p' : LogParser} {pos id k pos' : Nat}
    (h : tryRecord p pos id k = .ok (p', pos')) :
    (p' = p ∧ pos' = wrapAdd pos 1) ∨
    ∃ fmt md payload, p.fmt_messages[k]? = some fmt ∧ p.messages[k]? = some md ∧
      pos + fmt.length ≤ p.log_size ∧ md.allocated = true ∧
      isValidMessage pos id fmt.length p = .ok true ∧
      copyBytes p.log_data (pos + 3) (wrapSub fmt.length 3) = .ok payload ∧
      p' = { p with messages := p.messages.set k (addMessageData md (pos + 1) payload)
                    total_msg_count := p.total_msg_count + 1 } ∧
      pos' = wrapAdd (wrapAdd pos (wrapSub fmt.length 1)) 1 := by
  unfold tryRecord at h
  cases hf : p.fmt_messages[k]? with
  | none => simp only [hf] at h; cases h
  | some fmt =>
    cases hm : p.messages[k]? with
    | none => simp only [hf, hm] at h; cases h
    | some md =>
      simp only [hf, hm] at h
      by_cases hc : pos + fmt.length ≤ p.log_size ∧ md.allocated = true
      · rw [if_pos hc] at h
        cases hv : isValidMessage pos id fmt.length p with
        | error f => simp only [hv] at h; cases h
        | ok v =>
          cases v with
          | false =>
            simp only [hv, Except.ok.injEq, Prod.mk.injEq] at h
            exact Or.inl ⟨h.1.symm, h.2.symm⟩
          | true =>
            simp only [hv] at h
            obtain ⟨payload, hcp, h1, h2⟩ := takeRecord_ok h
            exact Or.inr ⟨fmt, md, payload, rfl, rfl, hc.1, hc.2, hv, hcp, h1, h2⟩
      · rw [if_neg hc] at h
        simp only [Except.ok.injEq, Prod.mk.injEq] at h
        exact Or.inl ⟨h.1.symm, h.2.symm⟩

theorem dispatch_ok {p p' : LogParser} {tbl : Nat → Option Nat} {pos pos' : Nat}
    (h : dispatch p tbl pos = .ok (p', pos')) :
    ∃ id, p.log_data[pos + 2]? = some id ∧
      ((tbl id = none ∧ p' = p ∧ pos' = wrapAdd pos 1) ∨
       ∃ k, tbl id = some k ∧ tryRecord p pos id k = .ok (p', pos')) := by
  unfold dispatch at h
  cases hr : readByte p.log_data (pos + 2) with
  | error f => simp only [hr] at h; cases h
  | ok id =>
    simp only [hr] at h
    refine ⟨id, readByte_ok hr, ?_⟩
    cases ht : tbl id with
    | none =>
      simp only [ht, Except.ok.injEq, Prod.mk.injEq] at h
      exact Or.inl ⟨rfl, h.1.symm, h.2.symm⟩
    | some k =>
      simp only [ht] at h
      exact Or.inr ⟨k, rfl, h⟩

theorem scanStep_ok {p p' : LogParser} {tbl : Nat → Option Nat} {pos pos' : Nat}
    (h : scanStep p tbl pos = .ok (p', pos')) :
    pos < p.log_size ∧
    ((p' = p ∧ pos' = wrapAdd pos 1) ∨
      (p.log_data[pos]? = some p.header0 ∧ p.log_data[pos + 1]? = some p.header1 ∧
        dispatch p tbl pos = .ok (p', pos'))) := by
  unfold scanStep at h
  cases hr0 : readByte p.log_data pos with
  | error f => simp only [hr0] at h; cases h
  | ok b0 =>
    simp only [hr0] at h
    refine ⟨lt_of_getElem?_eq_some (readByte_ok hr0), ?_⟩
    by_cases hb0 : b0 = p.header0
    · rw [if_pos hb0] at h
      cases hr1 : readByte p.log_data (pos + 1) with
      | error f => simp only [hr1] at h; cases h
      | ok b1 =>
        simp only [hr1] at h
        by_cases hb1 : b1 = p.header1
        · rw [if_pos hb1] at h
          exact Or.inr ⟨hb0 ▸ readByte_ok hr0, hb1 ▸ readByte_ok hr1, h⟩
        · rw [if_neg hb1] at h
          simp only [Except.ok.injEq, Prod.mk.injEq] at h
          exact Or.inl ⟨h.1.symm, h.2.symm⟩
    · rw [if_neg hb0] at h
      simp only [Except.ok.injEq, Prod.mk.injEq] at h
      exact Or.inl ⟨h.1.symm, h.2.symm⟩

/-- What one iteration of the main pass does on a log shorter than `2 ^ 64`:
it moves on by one byte, or it takes the record at `pos`, whose declared length
is at least 3, and moves past it. -/
theorem scanStep_cases {p p' : LogParser} {tbl : Nat → Option Nat} {pos pos' : Nat}
    (hlen : p.log_size < SIZE_MOD) (h : scanStep p tbl pos = .ok (p', pos')) :
    (p' = p ∧ pos' = pos + 1 ∧ pos < p.log_size) ∨
    ∃ k fmt md id, p.log_data[pos]? = some p.header0 ∧
      p.log_data[pos + 1]? = some p.header1 ∧ p.log_data[pos + 2]? = some id ∧
      tbl id = some k ∧ p.fmt_messages[k]? = some fmt ∧ p.messages[k]? = some md ∧
      md.allocated = true ∧ 3 ≤ fmt.length ∧ pos + fmt.length ≤ p.log_size ∧
      isValidMessage pos id fmt.length p = .ok true ∧
      p' = { p with
              messages := p.messages.set k (addMessageData md (pos + 1)
                ((p.log_data.drop (pos + 3)).take (fmt.length - 3)))
              total_msg_count := p.total_msg_count + 1 } ∧
      pos' = pos + fmt.length := by
  obtain ⟨hpos, hcase⟩ := scanStep_ok h
  have hstep : wrapAdd pos 1 = pos + 1 := wrapAdd_of_lt (by omega)
  rcases hcase with ⟨h1, h2⟩ | ⟨hb0, hb1, hd⟩
  · exact Or.inl ⟨h1, h2.trans hstep, hpos⟩
  · obtain ⟨id, hid, hcase2⟩ := dispatch_ok hd
    rcases hcase2 with ⟨_, h1, h2⟩ | ⟨k, hk, ht⟩
    · exact Or.inl ⟨h1, h2.trans hstep, hpos⟩
    · rcases tryRecord_ok ht with ⟨h1, h2⟩ | ⟨fmt, md, payload, hf, hm, hfit, hal, hv, hcp, h1, h2⟩
      · exact Or.inl ⟨h1, h2.trans hstep, hpos⟩
      · obtain ⟨hle, hpay⟩ := copyBytes_ok hcp
        have hsz : p.log_size = p.log_data.length := rfl
        have h3 : 3 ≤ fmt.length := by
          by_contra hc
          rw [wrapSub_of_lt (by omega)] at hle
          omega
        rw [wrapSub_of_le h3] at hpay
        refine Or.inr ⟨k, fmt, md, id, hb0, hb1, hid, hk, hf, hm, hal, h3, hfit, hv, ?_, ?_⟩
        · rw [h1, hpay]
        · have e1 : wrapSub fmt.length 1 = fmt.length - 1 := wrapSub_of_le (by omega)
          have e2 : wrapAdd pos (fmt.length - 1) = pos + (fmt.length - 1) :=
            wrapAdd_of_lt (by omega)
          have e3 : wrapAdd (pos + (fmt.length - 1)) 1 = pos + (fmt.length - 1) + 1 :=
            wrapAdd_of_lt (by omega)
          rw [h2, e1, e2, e3]
          omega

/-! ## The main pass as a whole -/

/-- A property that every iteration keeps holds when the main pass ends. -/
theorem scanLoop_inv {tbl : Nat → Option Nat} (I : LogParser → Nat → Prop)
    (hstep : ∀ p pos p' pos', I p pos → pos < wrapSub p.log_size 2 →
      scanStep p tbl pos = .ok (p', pos') → I p' pos') :
    ∀ (fuel : Nat) (p : LogParser) (pos : Nat) (R : LogParser), I p pos →
      scanLoop tbl fuel p pos = .done R → ∃ pos', I R pos' ∧ ¬ pos' < wrapSub R.log_size 2 := by
  intro fuel
  induction fuel with
  | zero =>
    intro p pos R _ h
    unfold scanLoop at h
    cases h
  | succ n ih =>
    intro p pos R hI h
    unfold scanLoop at h
    by_cases hc : pos < wrapSub p.log_size 2
    · rw [if_pos hc] at h
      cases hs : scanStep p tbl pos with
      | error f => simp only [hs] at h; cases h
      | ok r =>
        obtain ⟨p', pos'⟩ := r
        simp only [hs] at h
        exact ih p' pos' R (hstep p pos p' pos' hI hc hs) h
    · rw [if_neg hc] at h
      simp only [Run.done.injEq] at h
      subst h
      exact ⟨pos, hI, hc⟩

theorem instances_addMessageData {md : MessageData} (hl : md.indices.length = md.data.length)
    (index : Nat) (data : List Nat) :
    (addMessageData md index data).instances = md.instances ++ [(index, data)] := by
  unfold MessageData.instances addMessageData
  simp only
  rw [List.zip_append hl]
  rfl

theorem scanInv_step {log : List Nat} {h0 h1 : Nat} {fmts : List FmtMessage}
    {tbl : Nat → Option Nat} (hlen : log.length < SIZE_MOD)
    (p : LogParser) (pos : Nat) (p' : LogParser) (pos' : Nat)
    (hI : ScanInv log h0 h1 fmts tbl p pos)
    (hs : scanStep p tbl pos = .ok (p', pos')) : ScanInv log h0 h1 fmts tbl p' pos' := by
  have hlen' : p.log_size < SIZE_MOD := by
    unfold LogParser.log_size; rw [hI.log_eq]; exact hlen
  rcases scanStep_cases hlen' hs with ⟨h1', h2, _⟩ |
    ⟨k, fmt, md, id, hb0, hb1, hid, hk, hf, hm, _, h3, hfit, _, hp', hpos'⟩
  · subst h1' h2
    refine ⟨hI.log_eq, hI.h0_eq, hI.h1_eq, hI.fmts_eq, ?_⟩
    intro k md hm
    obtain ⟨a, b, c, d, e⟩ := hI.entries k md hm
    exact ⟨a, b, c, d, fun off ho => Nat.le_succ_of_le (e off ho)⟩
  · subst hp' hpos'
    refine ⟨hI.log_eq, hI.h0_eq, hI.h1_eq, hI.fmts_eq, ?_⟩
    intro k' md' hm'
    simp only [List.getElem?_set] at hm'
    by_cases hkk : k = k'
    · subst hkk
      rw [if_pos rfl, if_pos (lt_of_getElem?_eq_some hm)] at hm'
      simp only [Option.some.injEq] at hm'
      subst hm'
      obtain ⟨a, b, c, d, e⟩ := hI.entries k md hm
      refine ⟨?_, ?_, ?_, ?_, ?_⟩
      · simp only [addMessageData, List.length_append, List.length_singleton, a]
      · simp only [addMessageData, List.length_append, List.length_singleton, b]
      · intro x hx
        rw [instances_addMessageData a] at hx
        rcases List.mem_append.mp hx with hx | hx
        · exact c x hx
        · simp only [List.mem_singleton] at hx
          subst hx
          refine ⟨pos, fmt, id, rfl, hI.fmts_eq ▸ hf, ?_, ?_, ?_, hk, h3, ?_, ?_⟩
          · rw [← hI.log_eq, ← hI.h0_eq]; exact hb0
          · rw [← hI.log_eq, ← hI.h1_eq]; exact hb1
          · rw [← hI.log_eq]; exact hid
          · rw [← hI.log_eq]; exact hfit
          · rw [← hI.log_eq]
      · simp only [addMessageData]
        rw [List.pairwise_append]
        refine ⟨d, List.pairwise_singleton _ _, ?_⟩
        intro x hx y hy
        simp only [List.mem_singleton] at hy
        subst hy
        exact Nat.lt_succ_of_le (e x hx)
      · intro off ho
        simp only [addMessageData, List.mem_append, List.mem_singleton] at ho
        rcases ho with ho | ho
        · have := e off ho; omega
        · omega
    · rw [if_neg hkk] at hm'
      obtain ⟨a, b, c, d, e⟩ := hI.entries k' md' hm'
      exact ⟨a, b, c, d, fun off ho => by have := e off ho; omega⟩

/-- The invariant holds when the main pass ends, if it held when it began. -/
theorem scanLoop_scanInv {log : List Nat} {h0 h1 : Nat} {fmts : List FmtMessage}
    {tbl : Nat → Option Nat} (hlen : log.length < SIZE_MOD) (fuel : Nat)
    (p : LogParser) (pos : Nat) (R : LogParser)
    (hI : ScanInv log h0 h1 fmts tbl p pos) (h : scanLoop tbl fuel p pos = .done R) :
    ∃ pos', ScanInv log h0 h1 fmts tbl R pos' := by
  obtain ⟨pos', hR, _⟩ := scanLoop_inv (ScanInv log h0 h1 fmts tbl)
    (fun p pos p' pos' hI _ hs => scanInv_step hlen p pos p' pos' hI hs) fuel p pos R hI h
  exact ⟨pos', hR⟩

/-! ## The filter resolver and the set-up loop -/

theorem validateMessageFilter_ret {msgFilter : MsgFilter} {p : LogParser} {r : Nat}
    {validIds : List Nat} (h : validateMessageFilter msgFilter p = .ok (r, validIds)) :
    r = 1 := by
  unfold validateMessageFilter at h
  cases msgFilter with
  | absent => simp only [Except.ok.injEq, Prod.mk.injEq] at h; exact h.1.symm
  | other e => simp only [Except.ok.injEq, Prod.mk.injEq] at h; exact h.1.symm
  | cell items =>
    cases items with
    | nil => simp only [Except.ok.injEq, Prod.mk.injEq] at h; exact h.1.symm
    | cons a rest =>
      simp only at h
      cases hr : resolveNames p.fmt_messages (a :: rest) [] with
      | error f => simp only [hr] at h; cases h
      | ok v => simp only [hr, Except.ok.injEq, Prod.mk.injEq] at h; exact h.1.symm
  | numeric ids =>
    cases ids with
    | nil => simp only [Except.ok.injEq, Prod.mk.injEq] at h; exact h.1.symm
    | cons a rest =>
      simp only at h
      cases hr : resolveIds p.fmt_messages (a :: rest) [] with
      | error f => simp only [hr] at h; cases h
      | ok v => simp only [hr, Except.ok.injEq, Prod.mk.injEq] at h; exact h.1.symm

theorem validateMessageFilter_congr {msgFilter : MsgFilter} {p q : LogParser}
    (h : q.fmt_messages = p.fmt_messages) :
    validateMessageFilter msgFilter q = validateMessageFilter msgFilter p := by
  unfold validateMessageFilter
  rw [h]

theorem setupLoop_fst_fresh (validIds : List Nat) :
    ∀ (fmts : List FmtMessage) (pre : List MessageData) (tbl : Nat → Option Nat),
      (setupLoop validIds fmts pre.length
        (pre ++ List.replicate fmts.length zeroMessageData) tbl).1 =
        pre ++ fmts.map (selectInit validIds) := by
  intro fmts
  induction fmts with
  | nil => intro pre tbl; simp [setupLoop]
  | cons fmt rest ih =>
    intro pre tbl
    unfold setupLoop
    have hrep : pre ++ List.replicate (fmt :: rest).length zeroMessageData =
        pre ++ zeroMessageData :: List.replicate rest.length zeroMessageData := by
      simp [List.replicate_succ]
    by_cases hs : shouldParse validIds fmt = true
    · rw [if_pos hs, hrep]
      have hset : (pre ++ zeroMessageData :: List.replicate rest.length zeroMessageData).set
          pre.length (initMessageData fmt) =
          (pre ++ [initMessageData fmt]) ++ List.replicate rest.length zeroMessageData := by
        simp
      rw [hset]
      have hlen : pre.length + 1 = (pre ++ [initMessageData fmt]).length := by simp
      rw [hlen, ih]
      simp [selectInit, hs]
    · rw [if_neg hs, hrep]
      have hsplit : pre ++ zeroMessageData :: List.replicate rest.length zeroMessageData =
          (pre ++ [zeroMessageData]) ++ List.replicate rest.length zeroMessageData := by
        simp
      rw [hsplit]
      have hlen : pre.length + 1 = (pre ++ [zeroMessageData]).length := by simp
      rw [hlen, ih]
      simp [selectInit, hs]

theorem setupLoop_snd (validIds : List Nat) :
    ∀ (fmts : List FmtMessage) (i : Nat) (msgs : List MessageData)
      (tbl : Nat → Option Nat) (id : Nat),
      (setupLoop validIds fmts i msgs tbl).2 id =
        match lookupLast validIds fmts i id with
        | some k => some k
        | none => tbl id := by
  intro fmts
  induction fmts with
  | nil => intro i msgs tbl id; simp [setupLoop, lookupLast]
  | cons fmt rest ih =>
    intro i msgs tbl id
    unfold setupLoop lookupLast
    by_cases hs : shouldParse validIds fmt = true
    · rw [if_pos hs, ih]
      cases hl : lookupLast validIds rest (i + 1) id with
      | some k => simp
      | none =>
        by_cases hid : id = fmt.type
        · simp [hs, hid]
        · have hid' : ¬ fmt.type = id := fun h => hid h.symm
          simp [hs, hid, hid']
    · rw [if_neg hs, ih]
      cases hl : lookupLast validIds rest (i + 1) id with
      | some k => simp
      | none => simp [hs]

theorem lookupLast_some (validIds : List Nat) :
    ∀ (fmts : List FmtMessage) (i id k : Nat), lookupLast validIds fmts i id = some k →
      ∃ j fmt, k = i + j ∧ fmts[j]? = some fmt ∧ fmt.type = id ∧
        shouldParse validIds fmt = true ∧
        ∀ j' fmt', j < j' → fmts[j']? = some fmt' → fmt'.type = id →
          shouldParse validIds fmt' = false := by
  intro fmts
  induction fmts with
  | nil => intro i id k h; simp [lookupLast] at h
  | cons fmt rest ih =>
    intro i id k h
    unfold lookupLast at h
    cases hl : lookupLast validIds rest (i + 1) id with
    | some k' =>
      simp only [hl, Option.some.injEq] at h
      subst h
      obtain ⟨j, f, hk, hf, ht, hsel, hlast⟩ := ih (i + 1) id k' hl
      refine ⟨j + 1, f, by omega, by simpa using hf, ht, hsel, ?_⟩
      intro j' fmt' hj hf' ht'
      cases j' with
      | zero => omega
      | succ j'' => exact hlast j'' fmt' (by omega) (by simpa using hf') ht'
    | none =>
      simp only [hl] at h
      by_cases hc : shouldParse validIds fmt = true ∧ fmt.type = id
      · rw [if_pos hc] at h
        simp only [Option.some.injEq] at h
        subst h
        refine ⟨0, fmt, rfl, by simp, hc.2, hc.1, ?_⟩
        intro j' fmt' hj hf' ht'
        cases j' with
        | zero => omega
        | succ j'' =>
          by_contra hsel
          have hsel' : shouldParse validIds fmt' = true := by
            cases hb : shouldParse validIds fmt' with
            | true => rfl
            | false => exact absurd hb hsel
          have : ∀ (l : List FmtMessage) (i j : Nat), l[j]? = some fmt' →
              lookupLast validIds l i id ≠ none := by
            intro l
            induction l with
            | nil => intro i j hj; simp at hj
            | cons a l ihl =>
              intro i j hj
              unfold lookupLast
              cases hl2 : lookupLast validIds l (i + 1) id with
              | some k2 => simp
              | none =>
                cases j with
                | zero =>
                  simp only [List.getElem?_cons_zero, Option.some.injEq] at hj
                  subst hj
                  simp [hsel', ht']
                | succ j2 =>
                  exact absurd hl2 (ihl (i + 1) j2 (by simpa using hj))
          exact this rest (i + 1) j'' (by simpa using hf') hl
      · rw [if_neg hc] at h; cases h

theorem parseAllMessages_done {fuel : Nat} {p : LogParser} {msgFilter : MsgFilter}
    {r : Nat} {R : LogParser} (h : parseAllMessages fuel p msgFilter = .done (r, R)) :
    ∃ validIds, validateMessageFilter msgFilter p = .ok (1, validIds) ∧ r = 1 ∧
      scanLoop (setupLoop validIds p.fmt_messages 0 p.messages (fun _ => none)).2 fuel
        { p with messages :=
            (setupLoop validIds p.fmt_messages 0 p.messages (fun _ => none)).1 } 0 =
        .done R := by
  unfold parseAllMessages at h
  cases hv : validateMessageFilter msgFilter p with
  | error f => simp only [hv] at h; cases h
  | ok res =>
    obtain ⟨ret, validIds⟩ := res
    have hret := validateMessageFilter_ret hv
    subst hret
    simp only [hv] at h
    rw [if_neg (by decide)] at h
    refine ⟨validIds, rfl, ?_⟩
    cases hsc : scanLoop (setupLoop validIds p.fmt_messages 0 p.messages (fun _ => none)).2
        fuel { p with messages :=
          (setupLoop validIds p.fmt_messages 0 p.messages (fun _ => none)).1 } 0 with
    | done p' =>
      simp only [hsc, Run.done.injEq, Prod.mk.injEq] at h
      exact ⟨h.1.symm, by rw [h.2]⟩
    | fault f => simp only [hsc] at h; cases h
    | outOfFuel => simp only [hsc] at h; cases h

theorem setupLoop_snd_eq (validIds : List Nat) (fmts : List FmtMessage)
    (msgs : List MessageData) :
    (setupLoop validIds fmts 0 msgs (fun _ => none)).2 = lookupLast validIds fmts 0 := by
  funext id
  rw [setupLoop_snd]
  cases lookupLast validIds fmts 0 id <;> rfl

theorem setupLoop_fst_eq (validIds : List Nat) (fmts : List FmtMessage)
    (tbl : Nat → Option Nat) :
    (setupLoop validIds fmts 0 (List.replicate fmts.length zeroMessageData) tbl).1 =
      fmts.map (selectInit validIds) := by
  have h := setupLoop_fst_fresh validIds fmts [] tbl
  simpa using h

theorem selectInit_indices (validIds : List Nat) (fmt : FmtMessage) :
    (selectInit validIds fmt).indices = [] ∧ (selectInit validIds fmt).data = [] ∧
      (selectInit validIds fmt).count = 0 := by
  unfold selectInit
  by_cases hs : shouldParse validIds fmt = true
  · rw [if_pos hs]; exact ⟨rfl, rfl, rfl⟩
  · rw [if_neg hs]; exact ⟨rfl, rfl, rfl⟩

theorem scanInv_fresh (log : List Nat) (h0 h1 : Nat) (fmts : List FmtMessage)
    (fmtLen : Nat) (validIds : List Nat) (tbl : Nat → Option Nat) :
    ScanInv log h0 h1 fmts tbl
      { freshParser log h0 h1 fmts fmtLen with
        messages := fmts.map (selectInit validIds) } 0 := by
  refine ⟨rfl, rfl, rfl, rfl, ?_⟩
  intro k md hm
  simp only [List.getElem?_map, Option.map_eq_some'] at hm
  obtain ⟨fmt, _, hmd⟩ := hm
  obtain ⟨hi, hd, hc⟩ := selectInit_indices validIds fmt
  rw [hmd] at hi hd hc
  unfold MessageData.instances
  rw [hi, hd, hc]
  simp

/-- The result of `parseAllMessages` on a parser whose lists were empty
satisfies the invariant of the main pass, for the lookup table that the set-up
loop builds from the resolved filter. -/
theorem parseAllMessages_scanInv {fuel : Nat} {log : List Nat} {h0 h1 : Nat}
    {fmts : List FmtMessage} {fmtLen : Nat} {msgFilter : MsgFilter} {r : Nat}
    {R : LogParser} (hlen : log.length < SIZE_MOD)
    (h : parseAllMessages fuel (freshParser log h0 h1 fmts fmtLen) msgFilter = .done (r, R)) :
    ∃ validIds pos,
      validateMessageFilter msgFilter (freshParser log h0 h1 fmts fmtLen) = .ok (1, validIds) ∧
      r = 1 ∧ ScanInv log h0 h1 fmts (lookupLast validIds fmts 0) R pos := by
  obtain ⟨validIds, hv, hr, hs⟩ := parseAllMessages_done h
  have hfm : (freshParser log h0 h1 fmts fmtLen).fmt_messages = fmts := rfl
  have hms : (freshParser log h0 h1 fmts fmtLen).messages =
      List.replicate fmts.length zeroMessageData := rfl
  rw [hfm, hms, setupLoop_snd_eq, setupLoop_fst_eq] at hs
  obtain ⟨pos, hR⟩ := scanLoop_scanInv hlen fuel _ 0 R
    (scanInv_fresh log h0 h1 fmts fmtLen validIds (lookupLast validIds fmts 0)) hs
  exact ⟨validIds, pos, hv, hr, hR⟩

theorem findFmtLength_ok {p p' : LogParser} {r : Nat} (h : findFmtLength p = .ok (r, p')) :
    r = 1 ∧ ∃ len, p' = { p with fmt_length := len } := by
  unfold findFmtLength at h
  cases hl : findFmtLoop p.log_data p.header0 p.header1 (wrapSub p.log_size 5 + 1) 0 with
  | error f => simp only [hl] at h; cases h
  | ok o =>
    cases o with
    | none =>
      simp only [hl, Except.ok.injEq, Prod.mk.injEq] at h
      exact ⟨h.1.symm, 89, h.2.symm⟩
    | some len =>
      simp only [hl, Except.ok.injEq, Prod.mk.injEq] at h
      exact ⟨h.1.symm, len, h.2.symm⟩

theorem parseFmtMessages_ok {p p' : LogParser} {r : Nat} {w : Bool}
    (h : parseFmtMessages p = .ok (r, w, p')) :
    ∃ fmts, p' = { p with fmt_messages := fmts } ∧ r = if fmts.length > 0 then 1 else 0 := by
  unfold parseFmtMessages at h
  cases hl : parseFmtLoop p (wrapSub p.log_size p.fmt_length + 1) 0 [] with
  | error f => simp only [hl] at h; cases h
  | ok o =>
    obtain ⟨fmts, warned⟩ := o
    simp only [hl, Except.ok.injEq, Prod.mk.injEq] at h
    exact ⟨fmts, h.2.2.symm, h.1.symm⟩

theorem buildFormatTable_some {log : List Nat} {h0 h1 : Nat} {w : Bool} {p : LogParser}
    (h : buildFormatTable log h0 h1 = .ok (some (w, p))) :
    ∃ fmts fmtLen, p = freshParser log h0 h1 fmts fmtLen ∧ 0 < fmts.length := by
  unfold buildFormatTable at h
  cases h1' : findFmtLength (initParser log h0 h1) with
  | error f => simp only [h1'] at h; cases h
  | ok o =>
    obtain ⟨r1, p1⟩ := o
    obtain ⟨hr1, len, hp1⟩ := findFmtLength_ok h1'
    subst hr1 hp1
    simp only [h1'] at h
    rw [if_neg (by decide)] at h
    cases h2' : parseFmtMessages { initParser log h0 h1 with fmt_length := len } with
    | error f => simp only [h2'] at h; cases h
    | ok o2 =>
      obtain ⟨r2, warned, p2⟩ := o2
      obtain ⟨fmts, hp2, hr2⟩ := parseFmtMessages_ok h2'
      subst hp2
      simp only [h2'] at h
      by_cases hz : r2 = 0
      · rw [if_pos hz] at h; cases h
      · rw [if_neg hz] at h
        simp only [Except.ok.injEq, Option.some.injEq, Prod.mk.injEq] at h
        refine ⟨fmts, len, h.2.symm, ?_⟩
        by_contra hc
        rw [if_neg hc] at hr2
        exact hz hr2

/-- A successful `parse` is the main pass run on the parser that holds the
format table built from the log and lists that are all empty. -/
theorem parse_done {fuel : Nat} {log : List Nat} {h0 h1 : Nat} {msgFilter : MsgFilter}
    {R : LogParser} (h : parse fuel log h0 h1 msgFilter = .done (some R)) :
    ∃ fmts fmtLen w,
      buildFormatTable log h0 h1 = .ok (some (w, freshParser log h0 h1 fmts fmtLen)) ∧
      parseAllMessages fuel (freshParser log h0 h1 fmts fmtLen) msgFilter = .done (1, R) := by
  unfold parse at h
  cases hb : buildFormatTable log h0 h1 with
  | error f => simp only [hb] at h; cases h
  | ok o =>
    cases o with
    | none => simp only [hb] at h; cases h
    | some wp =>
      obtain ⟨w, p⟩ := wp
      obtain ⟨fmts, fmtLen, hp, _⟩ := buildFormatTable_some hb
      subst hp
      simp only [hb] at h
      cases hpa : parseAllMessages fuel (freshParser log h0 h1 fmts fmtLen) msgFilter with
      | done o2 =>
        obtain ⟨r, p'⟩ := o2
        simp only [hpa] at h
        by_cases hz : r = 0
        · rw [if_pos hz] at h; cases h
        · rw [if_neg hz] at h
          simp only [Run.done.injEq, Option.some.injEq] at h
          subst h
          obtain ⟨_, _, hr, _⟩ := parseAllMessages_done hpa
          subst hr
          exact ⟨fmts, fmtLen, w, rfl, hpa⟩
      | fault f => simp only [hpa] at h; cases h
      | outOfFuel => simp only [hpa] at h; cases h

/-! ## Evaluations on the example inputs -/

theorem exampleLog_parse :
    parse 100 exampleLog 163 149 .absent = .done (some exampleResult) := by rfl

theorem twoRecordLog_scan :
    parseAllMessages 10 (freshParser twoRecordLog 163 149 exampleFmts 89) .absent =
      .done (1, twoRecordResult) := by rfl

/-! ## Properties of the extracted instances -/

theorem exists_mem_zip_of_mem {α β : Type} :
    ∀ (l₁ : List α) (l₂ : List β), l₁.length = l₂.length → ∀ a ∈ l₁,
      ∃ b, (a, b) ∈ l₁.zip l₂ := by
  intro l₁
  induction l₁ with
  | nil => intro l₂ _ a ha; cases ha
  | cons x xs ih =>
    intro l₂ hl a ha
    cases l₂ with
    | nil => simp at hl
    | cons y ys =>
      simp only [List.length_cons, Nat.add_right_cancel_iff] at hl
      rcases List.mem_cons.mp ha with rfl | ha
      · exact ⟨y, by simp⟩
      · obtain ⟨b, hb⟩ := ih ys hl a ha
        exact ⟨b, by simp [hb]⟩

theorem framed_type {validIds : List Nat} {log : List Nat} {h0 h1 : Nat}
    {fmts : List FmtMessage} {k off : Nat} {payload : List Nat} {fmt : FmtMessage}
    (hf : fmts[k]? = some fmt)
    (h : Framed log h0 h1 fmts (lookupLast validIds fmts 0) k off payload) :
    shouldParse validIds fmt = true ∧
    ∃ pos, off = pos + 1 ∧ log[pos]? = some h0 ∧ log[pos + 1]? = some h1 ∧
      log[pos + 2]? = some fmt.type ∧ pos + fmt.length ≤ log.length ∧ 3 ≤ fmt.length ∧
      payload = (log.drop (pos + 3)).take (fmt.length - 3) := by
  obtain ⟨pos, fmt', id, ho, hf', hb0, hb1, hid, ht, h3, hfit, hp⟩ := h
  rw [hf] at hf'
  simp only [Option.some.injEq] at hf'
  subst hf'
  obtain ⟨j, f, hk, hfj, hty, hsel, _⟩ := lookupLast_some validIds fmts 0 id k ht
  have hkj : k = j := by omega
  subst hkj
  rw [hf] at hfj
  simp only [Option.some.injEq] at hfj
  subst hfj
  exact ⟨hsel, pos, ho, hb0, hb1, hty ▸ hid, hfit, h3, hp⟩

/-- C1 (scanner soundness): on a log shorter than `2 ^ 64`, every instance that
`parseAllMessages` leaves in the list of format entry `k` was taken at a
position `pos` where the log holds the two header bytes and the type id of
entry `k`, the record of the declared length (which is at least 3) ends inside
the log, the recorded offset is `pos + 1` and the payload is the
`length - 3` bytes after the 3-byte frame. -/
theorem scanner_soundness (fuel : Nat) (log : List Nat) (h0 h1 : Nat)
    (fmts : List FmtMessage) (fmtLen : Nat) (msgFilter : MsgFilter) (r : Nat)
    (R : LogParser) (k : Nat) (fmt : FmtMessage) (md : MessageData)
    (hlen : log.length < SIZE_MOD)
    (h : parseAllMessages fuel (freshParser log h0 h1 fmts fmtLen) msgFilter = .done (r, R))
    (hf : fmts[k]? = some fmt) (hm : R.messages[k]? = some md) :
    md.indices.length = md.data.length ∧
    ∀ x ∈ md.instances, ∃ pos, x.1 = pos + 1 ∧ log[pos]? = some h0 ∧
      log[pos + 1]? = some h1 ∧ log[pos + 2]? = some fmt.type ∧
      pos + fmt.length ≤ log.length ∧ 3 ≤ fmt.length ∧
      x.2 = (log.drop (pos + 3)).take (fmt.length - 3) ∧
      x.2.length = fmt.length - 3 := by
  obtain ⟨validIds, pos', _, _, hR⟩ := parseAllMessages_scanInv hlen h
  obtain ⟨hl, _, hfr, _, _⟩ := hR.entries k md hm
  refine ⟨hl, ?_⟩
  intro x hx
  obtain ⟨_, pos, ho, hb0, hb1, hid, hfit, h3, hp⟩ := framed_type hf (hfr x hx)
  refine ⟨pos, ho, hb0, hb1, hid, hfit, h3, hp, ?_⟩
  rw [hp, List.length_take, List.length_drop]
  omega

theorem scanner_soundness_witness :
    twoRecordLog.length < SIZE_MOD ∧
    parseAllMessages 10 (freshParser twoRecordLog 163 149 exampleFmts 89) .absent =
      .done (1, twoRecordResult) ∧
    ∀ x ∈ ({ msg_id := 5, indices := [1, 13],
             data := [[1, 2, 3, 4, 5, 6, 7, 8, 9], [11, 12, 13, 14, 15, 16, 17, 18, 19]],
             count := 2, capacity := 1000, msg_length := 12,
             allocated := true } : MessageData).instances,
      ∃ pos, x.1 = pos + 1 ∧ twoRecordLog[pos]? = some 163 ∧
        twoRecordLog[pos + 1]? = some 149 ∧ twoRecordLog[pos + 2]? = some 5 ∧
        pos + 12 ≤ twoRecordLog.length ∧ 3 ≤ 12 ∧
        x.2 = (twoRecordLog.drop (pos + 3)).take (12 - 3) ∧ x.2.length = 12 - 3 :=
  ⟨by decide, twoRecordLog_scan,
    (scanner_soundness 10 twoRecordLog 163 149 exampleFmts 89 .absent 1 twoRecordResult 0
      _ _ (by decide) twoRecordLog_scan rfl rfl).2⟩

/-- C3 (frame bound), as the code has it: in the result of `parse` on a log
shorter than `2 ^ 64`, every recorded offset `off` is at least 1 and, with the
declared length of the instance's format, `off + length ≤ len(log) + 1`: the
record that starts at `off - 1` ends inside the log. -/
theorem frame_bound (fuel : Nat) (log : List Nat) (h0 h1 : Nat) (msgFilter : MsgFilter)
    (R : LogParser) (k : Nat) (fmt : FmtMessage) (md : MessageData) (off : Nat)
    (hlen : log.length < SIZE_MOD)
    (h : parse fuel log h0 h1 msgFilter = .done (some R))
    (hf : R.fmt_messages[k]? = some fmt) (hm : R.messages[k]? = some md)
    (ho : off ∈ md.indices) :
    1 ≤ off ∧ off + fmt.length ≤ log.length + 1 := by
  obtain ⟨fmts, fmtLen, _, _, hp⟩ := parse_done h
  obtain ⟨validIds, pos', _, _, hR⟩ := parseAllMessages_scanInv hlen hp
  rw [hR.fmts_eq] at hf
  obtain ⟨hl, _, hfr, _, _⟩ := hR.entries k md hm
  obtain ⟨payload, hx⟩ := exists_mem_zip_of_mem md.indices md.data hl off ho
  obtain ⟨_, pos, hoff, _, _, _, hfit, _, _⟩ := framed_type hf (hfr (off, payload) hx)
  simp only at hoff
  omega

theorem frame_bound_witness :
    exampleLog.length < SIZE_MOD ∧
    parse 100 exampleLog 163 149 .absent = .done (some exampleResult) ∧
    (1 ≤ 90 ∧ 90 + 12 ≤ exampleLog.length + 1) :=
  ⟨by decide, exampleLog_parse,
    frame_bound 100 exampleLog 163 149 .absent exampleResult 0 _ _ 90 (by decide)
      exampleLog_parse rfl rfl (by decide)⟩

/-- C3 as stated fails: `parse` of the 101-byte `exampleLog` records the
offset 90 for its record of type 5, whose declared length is 12, and
`90 + 12 = 102` exceeds the length of the log. -/
theorem frame_bound_counterexample :
    ∃ R fmt md off, parse 100 exampleLog 163 149 .absent = .done (some R) ∧
      R.fmt_messages[0]? = some fmt ∧ R.messages[0]? = some md ∧ off ∈ md.indices ∧
      ¬ (off + fmt.length ≤ exampleLog.length) :=
  ⟨exampleResult, _, _, 90, exampleLog_parse, rfl, rfl, by decide, by decide⟩

/-- C4 (offset monotonicity): on a log shorter than `2 ^ 64`, in every list
of the result of `parseAllMessages` the recorded offsets increase strictly in
the order in which they were appended. -/
theorem offsets_strictly_increasing (fuel : Nat) (log : List Nat) (h0 h1 : Nat)
    (fmts : List FmtMessage) (fmtLen : Nat) (msgFilter : MsgFilter) (r : Nat)
    (R : LogParser) (k : Nat) (md : MessageData)
    (hlen : log.length < SIZE_MOD)
    (h : parseAllMessages fuel (freshParser log h0 h1 fmts fmtLen) msgFilter = .done (r, R))
    (hm : R.messages[k]? = some md) :
    md.indices.Pairwise (fun a b => a < b) := by
  obtain ⟨validIds, pos', _, _, hR⟩ := parseAllMessages_scanInv hlen h
  exact (hR.entries k md hm).2.2.2.1

theorem offsets_strictly_increasing_witness :
    twoRecordLog.length < SIZE_MOD ∧
    parseAllMessages 10 (freshParser twoRecordLog 163 149 exampleFmts 89) .absent =
      .done (1, twoRecordResult) ∧
    List.Pairwise (fun a b => a < b) [1, 13] :=
  ⟨by decide, twoRecordLog_scan,
    offsets_strictly_increasing 10 twoRecordLog 163 149 exampleFmts 89 .absent 1
      twoRecordResult 0 _ (by decide) twoRecordLog_scan rfl⟩

/-! ## The probe of the FMT record length -/

theorem memcmp3_eq {log : List Nat} {i a b c : Nat} (hi : i + 3 ≤ log.length) :
    memcmp3 log i a b c =
      .ok (decide (log[i]? = some a ∧ log[i + 1]? = some b ∧ log[i + 2]? = some c)) := by
  unfold memcmp3
  rw [if_pos hi]

/-- The loop of `findFmtLength` returns the byte after the first offset that
holds the header, `FMT_ID` and `FMT_ID` again, when its range reaches that
offset and stays four bytes away from the end of the log. -/
theorem findFmtLoop_first_match (log : List Nat) (h0 h1 i0 len : Nat)
    (hm : log[i0]? = some h0 ∧ log[i0 + 1]? = some h1 ∧ log[i0 + 2]? = some FMT_ID ∧
      log[i0 + 3]? = some FMT_ID)
    (hl : log[i0 + 4]? = some len)
    (hfirst : ∀ j, j < i0 → ¬ (log[j]? = some h0 ∧ log[j + 1]? = some h1 ∧
      log[j + 2]? = some FMT_ID ∧ log[j + 3]? = some FMT_ID)) :
    ∀ (k i : Nat), i ≤ i0 → i0 < i + k →
      findFmtLoop log h0 h1 k i = .ok (some len) := by
  have hlen : i0 + 4 < log.length := lt_of_getElem?_eq_some hl
  intro k
  induction k with
  | zero => intro i h1' h2; omega
  | succ n ih =>
    intro i hle hlt
    unfold findFmtLoop
    rw [memcmp3_eq (by omega)]
    by_cases hi : i = i0
    · subst hi
      have hd : decide (log[i]? = some h0 ∧ log[i + 1]? = some h1 ∧
          log[i + 2]? = some FMT_ID) = true := by
        simp only [decide_eq_true_eq]
        exact ⟨hm.1, hm.2.1, hm.2.2.1⟩
      rw [hd]
      simp only [readByte_of_getElem? hm.2.2.2, readByte_of_getElem? hl, if_true]
    · have hlt' : i < i0 := by omega
      cases hd : decide (log[i]? = some h0 ∧ log[i + 1]? = some h1 ∧
          log[i + 2]? = some FMT_ID) with
      | false => exact ih (i + 1) (by omega) (by omega)
      | true =>
        simp only [decide_eq_true_eq] at hd
        have hlt3 : i + 3 < log.length := by omega
        have hb : log[i + 3]? = some (log[i + 3]) := List.getElem?_eq_getElem hlt3
        simp only [readByte_of_getElem? hb]
        have hne : ¬ log[i + 3] = FMT_ID := by
          intro he
          exact hfirst i hlt' ⟨hd.1, hd.2.1, hd.2.2, by rw [hb, he]⟩
        rw [if_neg hne]
        exact ih (i + 1) (by omega) (by omega)

/-- The loop of `findFmtLength` ends without a result when no offset of its
range holds the header, `FMT_ID` and `FMT_ID` again, and the range stays four
bytes away from the end of the log. -/
theorem findFmtLoop_no_match (log : List Nat) (h0 h1 : Nat)
    (hnone : ∀ j, ¬ (log[j]? = some h0 ∧ log[j + 1]? = some h1 ∧
      log[j + 2]? = some FMT_ID ∧ log[j + 3]? = some FMT_ID)) :
    ∀ (k i : Nat), i + k + 4 ≤ log.length →
      findFmtLoop log h0 h1 k i = .ok none := by
  intro k
  induction k with
  | zero => intro i _; unfold findFmtLoop; rfl
  | succ n ih =>
    intro i hle
    unfold findFmtLoop
    rw [memcmp3_eq (by omega)]
    cases hd : decide (log[i]? = some h0 ∧ log[i + 1]? = some h1 ∧
        log[i + 2]? = some FMT_ID) with
    | false => exact ih (i + 1) (by omega)
    | true =>
      simp only [decide_eq_true_eq] at hd
      have hlt3 : i + 3 < log.length := by omega
      have hb : log[i + 3]? = some (log[i + 3]) := List.getElem?_eq_getElem hlt3
      simp only [readByte_of_getElem? hb]
      have hne : ¬ log[i + 3] = FMT_ID := by
        intro he
        exact hnone i ⟨hd.1, hd.2.1, hd.2.2, by rw [hb, he]⟩
      rw [if_neg hne]
      exact ih (i + 1) (by omega)

/-- The default of the probe on a log of at least 5 bytes: with no offset that
holds the header, `FMT_ID` and `FMT_ID` again, `findFmtLength` returns 1 and
sets `fmt_length` to 89. -/
theorem findFmtLength_default (p : LogParser) (h5 : 5 ≤ p.log_data.length)
    (hnone : ∀ j, ¬ (p.log_data[j]? = some p.header0 ∧ p.log_data[j + 1]? = some p.header1 ∧
      p.log_data[j + 2]? = some FMT_ID ∧ p.log_data[j + 3]? = some FMT_ID)) :
    findFmtLength p = .ok (1, { p with fmt_length := 89 }) := by
  unfold findFmtLength LogParser.log_size
  rw [wrapSub_of_le h5,
    findFmtLoop_no_match p.log_data p.header0 p.header1 hnone _ 0 (by omega)]

/-- C9 (default probe) fails on the empty log: the loop bound `log_size - 5`
wraps in `size_t`, and the probe reads `log_data[0 .. 2]` outside the log
instead of returning with `fmt_length = 89`. -/
theorem probe_empty_log_faults :
    findFmtLength (initParser [] 163 149) = .error .outOfRange := by rfl

/-- C10 (the probe takes the first match): when some offset `i0` with
`i0 + 4 < len(log)` holds the header, 128 and 128 again, and no smaller offset
does, `findFmtLength` returns 1 and sets `fmt_length` to the byte
`log[i0 + 4]`. -/
theorem probe_first_match (p : LogParser) (i0 len : Nat)
    (hm : p.log_data[i0]? = some p.header0 ∧ p.log_data[i0 + 1]? = some p.header1 ∧
      p.log_data[i0 + 2]? = some 128 ∧ p.log_data[i0 + 3]? = some 128)
    (hl : p.log_data[i0 + 4]? = some len)
    (hfirst : ∀ j, j < i0 → ¬ (p.log_data[j]? = some p.header0 ∧
      p.log_data[j + 1]? = some p.header1 ∧ p.log_data[j + 2]? = some 128 ∧
      p.log_data[j + 3]? = some 128)) :
    findFmtLength p = .ok (1, { p with fmt_length := len }) := by
  have hlen : i0 + 4 < p.log_data.length := lt_of_getElem?_eq_some hl
  unfold findFmtLength LogParser.log_size
  rw [wrapSub_of_le (by omega),
    findFmtLoop_first_match p.log_data p.header0 p.header1 i0 len hm hl hfirst _ 0
      (by omega) (by omega)]

theorem probe_first_match_witness :
    ((initParser [7, 163, 149, 128, 128, 42, 9] 163 149).log_data[1]? = some 163 ∧
      (initParser [7, 163, 149, 128, 128, 42, 9] 163 149).log_data[1 + 1]? = some 149 ∧
      (initParser [7, 163, 149, 128, 128, 42, 9] 163 149).log_data[1 + 2]? = some 128 ∧
      (initParser [7, 163, 149, 128, 128, 42, 9] 163 149).log_data[1 + 3]? = some 128) ∧
    (initParser [7, 163, 149, 128, 128, 42, 9] 163 149).log_data[1 + 4]? = some 42 ∧
    findFmtLength (initParser [7, 163, 149, 128, 128, 42, 9] 163 149) =
      .ok (1, { initParser [7, 163, 149, 128, 128, 42, 9] 163 149 with fmt_length := 42 }) :=
  ⟨by decide, by decide,
    probe_first_match (initParser [7, 163, 149, 128, 128, 42, 9] 163 149) 1 42
      (by decide) (by decide) (by
        intro j hj
        have hj0 : j = 0 := by omega
        subst hj0
        decide)⟩

/-! ## The table builder on short logs -/

/-- C8 (empty format table) fails on a log shorter than the probed length:
for five zero bytes the probe sets `fmt_length` to 89, the loop bound
`log_size - fmt_length` of `parseFmtMessages` wraps in `size_t`, and the
builder reads `log_data[3 .. 5]` outside the log instead of returning 0; on the
empty log the probe itself reads outside the log. -/
theorem table_builder_short_log_faults :
    findFmtLength (initParser [0, 0, 0, 0, 0] 163 149) =
      .ok (1, { initParser [0, 0, 0, 0, 0] 163 149 with fmt_length := 89 }) ∧
    parseFmtMessages { initParser [0, 0, 0, 0, 0] 163 149 with fmt_length := 89 } =
      .error .outOfRange ∧
    buildFormatTable [0, 0, 0, 0, 0] 163 149 = .error .outOfRange ∧
    buildFormatTable [] 163 149 = .error .outOfRange :=
  ⟨by rfl, by rfl, by rfl, by rfl⟩

/-! ## Filter resolution -/

theorem findByName_iff (name : List Nat) (fmt : FmtMessage) :
    ∀ (fmts : List FmtMessage), findByName name fmts = some fmt ↔ IsFirstNamed fmts name fmt := by
  intro fmts
  induction fmts with
  | nil =>
    unfold findByName IsFirstNamed
    simp
  | cons a rest ih =>
    unfold findByName
    by_cases ha : strcmpEq a.name name = true
    · rw [if_pos ha]
      constructor
      · intro h
        simp only [Option.some.injEq] at h
        subst h
        exact ⟨0, by simp, ha, fun j' _ hj _ => absurd hj (Nat.not_lt_zero _)⟩
      · rintro ⟨j, hj, _, hfirst⟩
        cases j with
        | zero => simpa using hj
        | succ j' =>
          have := hfirst 0 a (Nat.succ_pos _) (by simp)
          rw [ha] at this
          cases this
    · rw [if_neg ha, ih]
      have ha' : strcmpEq a.name name = false := by
        cases hb : strcmpEq a.name name with
        | true => exact absurd hb ha
        | false => rfl
      constructor
      · rintro ⟨j, hj, hn, hfirst⟩
        refine ⟨j + 1, by simpa using hj, hn, ?_⟩
        intro j' fmt' hlt hf'
        cases j' with
        | zero =>
          simp only [List.getElem?_cons_zero, Option.some.injEq] at hf'
          subst hf'
          exact ha'
        | succ j'' => exact hfirst j'' fmt' (by omega) (by simpa using hf')
      · rintro ⟨j, hj, hn, hfirst⟩
        cases j with
        | zero =>
          simp only [List.getElem?_cons_zero, Option.some.injEq] at hj
          subst hj
          rw [ha'] at hn
          cases hn
        | succ j' =>
          refine ⟨j', by simpa using hj, hn, ?_⟩
          intro j'' fmt' hlt hf'
          exact hfirst (j'' + 1) fmt' (by omega) (by simpa using hf')

theorem existsType_iff (msgId : Nat) :
    ∀ (fmts : List FmtMessage), existsType msgId fmts = true ↔ ∃ fmt ∈ fmts, fmt.type = msgId := by
  intro fmts
  induction fmts with
  | nil => unfold existsType; simp
  | cons a rest ih =>
    unfold existsType
    by_cases ha : a.type = msgId
    · rw [if_pos ha]
      simp only [List.mem_cons, true_iff]
      exact ⟨a, Or.inl rfl, ha⟩
    · rw [if_neg ha, ih]
      simp only [List.mem_cons, exists_eq_or_imp, ha, false_or]

theorem pushValidId_ok {validIds : List Nat} (id : Nat) (h : validIds.length < MAX_MSG_TYPES) :
    pushValidId validIds id = .ok (validIds ++ [id]) := by
  unfold pushValidId
  rw [if_pos h]

theorem resolveNames_spec (fmts : List FmtMessage) :
    ∀ (items : List (Option (List Nat))) (acc : List Nat),
      acc.length + items.length ≤ MAX_MSG_TYPES →
      ∃ validIds, resolveNames fmts items acc = .ok validIds ∧
        validIds.length ≤ acc.length + items.length ∧
        ∀ t, t ∈ validIds ↔ t ∈ acc ∨ ∃ name fmt, some name ∈ items ∧
          findByName name fmts = some fmt ∧ fmt.type = t := by
  intro items
  induction items with
  | nil =>
    intro acc _
    unfold resolveNames
    exact ⟨acc, rfl, by simp, by simp⟩
  | cons item rest ih =>
    intro acc hle
    simp only [List.length_cons] at hle
    cases item with
    | none =>
      unfold resolveNames
      obtain ⟨v, hv, hl, hmem⟩ := ih acc (by omega)
      refine ⟨v, hv, by simp only [List.length_cons]; omega, ?_⟩
      intro t
      rw [hmem t]
      simp
    | some name =>
      unfold resolveNames
      cases hf : findByName name fmts with
      | none =>
        obtain ⟨v, hv, hl, hmem⟩ := ih acc (by omega)
        refine ⟨v, hv, by simp only [List.length_cons]; omega, ?_⟩
        intro t
        rw [hmem t]
        constructor
        · rintro (h | ⟨n, f, hn, hfn, ht⟩)
          · exact Or.inl h
          · exact Or.inr ⟨n, f, List.mem_cons_of_mem _ hn, hfn, ht⟩
        · rintro (h | ⟨n, f, hn, hfn, ht⟩)
          · exact Or.inl h
          · rcases List.mem_cons.mp hn with he | hn
            · simp only [Option.some.injEq] at he
              subst he
              rw [hf] at hfn
              cases hfn
            · exact Or.inr ⟨n, f, hn, hfn, ht⟩
      | some fmt =>
        simp only
        rw [pushValidId_ok fmt.type (by omega)]
        obtain ⟨v, hv, hl, hmem⟩ := ih (acc ++ [fmt.type])
          (by simp only [List.length_append, List.length_singleton]; omega)
        simp only [List.length_append, List.length_singleton] at hl
        refine ⟨v, hv, by simp only [List.length_cons]; omega, ?_⟩
        intro t
        rw [hmem t]
        simp only [List.mem_append, List.mem_singleton]
        constructor
        · rintro ((h | h) | ⟨n, f, hn, hfn, ht⟩)
          · exact Or.inl h
          · exact Or.inr ⟨name, fmt, List.mem_cons_self _ _, hf, h.symm⟩
          · exact Or.inr ⟨n, f, List.mem_cons_of_mem _ hn, hfn, ht⟩
        · rintro (h | ⟨n, f, hn, hfn, ht⟩)
          · exact Or.inl (Or.inl h)
          · rcases List.mem_cons.mp hn with he | hn
            · simp only [Option.some.injEq] at he
              subst he
              rw [hf] at hfn
              simp only [Option.some.injEq] at hfn
              subst hfn
              exact Or.inl (Or.inr ht.symm)
            · exact Or.inr ⟨n, f, hn, hfn, ht⟩

theorem resolveIds_spec (fmts : List FmtMessage) :
    ∀ (ids : List Nat) (acc : List Nat),
      acc.length + ids.length ≤ MAX_MSG_TYPES →
      ∃ validIds, resolveIds fmts ids acc = .ok validIds ∧
        validIds.length ≤ acc.length + ids.length ∧
        ∀ t, t ∈ validIds ↔ t ∈ acc ∨ (t ∈ ids ∧ ∃ fmt ∈ fmts, fmt.type = t) := by
  intro ids
  induction ids with
  | nil =>
    intro acc _
    unfold resolveIds
    exact ⟨acc, rfl, by simp, by simp⟩
  | cons id rest ih =>
    intro acc hle
    simp only [List.length_cons] at hle
    unfold resolveIds
    by_cases he : existsType id fmts = true
    · rw [if_pos he, pushValidId_ok id (by omega)]
      simp only
      obtain ⟨v, hv, hl, hmem⟩ := ih (acc ++ [id])
        (by simp only [List.length_append, List.length_singleton]; omega)
      simp only [List.length_append, List.length_singleton] at hl
      refine ⟨v, hv, by simp only [List.length_cons]; omega, ?_⟩
      intro t
      rw [hmem t]
      simp only [List.mem_append, List.mem_singleton]
      simp only [List.mem_cons]
      constructor
      · rintro ((h | h) | ⟨hr, hd⟩)
        · exact Or.inl h
        · subst h
          exact Or.inr ⟨Or.inl rfl, (existsType_iff t fmts).mp he⟩
        · exact Or.inr ⟨Or.inr hr, hd⟩
      · rintro (h | ⟨h | h, hd⟩)
        · exact Or.inl (Or.inl h)
        · exact Or.inl (Or.inr h)
        · exact Or.inr ⟨h, hd⟩
    · rw [if_neg he]
      obtain ⟨v, hv, hl, hmem⟩ := ih acc (by omega)
      refine ⟨v, hv, by simp only [List.length_cons]; omega, ?_⟩
      intro t
      rw [hmem t]
      simp only [List.mem_cons]
      constructor
      · rintro (h | ⟨hr, hd⟩)
        · exact Or.inl h
        · exact Or.inr ⟨Or.inr hr, hd⟩
      · rintro (h | ⟨h | h, hd⟩)
        · exact Or.inl h
        · subst h
          exact absurd ((existsType_iff t fmts).mpr hd) he
        · exact Or.inr ⟨h, hd⟩

theorem shouldParse_iff {validIds : List Nat} (fmt : FmtMessage) (hne : validIds ≠ []) :
    shouldParse validIds fmt = true ↔ fmt.type ∈ validIds := by
  unfold shouldParse
  have hz : ¬ validIds.length = 0 := by
    intro h
    exact hne (List.eq_nil_of_length_eq_zero h)
  rw [if_neg hz]
  simp only [List.any_eq_true, beq_iff_eq]
  constructor
  · rintro ⟨id, hid, he⟩; exact he ▸ hid
  · intro h; exact ⟨fmt.type, h, rfl⟩

/-- C5 (filter resolution), as the code has it: an absent or empty filter
resolves to the empty list, for which every entry is selected; a name list of
at most 256 cells resolves to the type ids of, for each listed name, the first
declared format with that name; an id list of at most 256 ids resolves to the
listed ids that occur among the declared formats; and when the resolved list
is not empty the scanner selects exactly the entries whose type id is in it. -/
theorem filter_resolution (p : LogParser) :
    (validateMessageFilter .absent p = .ok (1, []) ∧
      validateMessageFilter (.cell []) p = .ok (1, []) ∧
      validateMessageFilter (.numeric []) p = .ok (1, []) ∧
      ∀ fmt : FmtMessage, shouldParse [] fmt = true) ∧
    (∀ items : List (Option (List Nat)), items.length ≤ MAX_MSG_TYPES →
      ∃ validIds, validateMessageFilter (.cell items) p = .ok (1, validIds) ∧
        ∀ t, t ∈ validIds ↔ ∃ name fmt, some name ∈ items ∧
          IsFirstNamed p.fmt_messages name fmt ∧ fmt.type = t) ∧
    (∀ ids : List Nat, ids.length ≤ MAX_MSG_TYPES →
      ∃ validIds, validateMessageFilter (.numeric ids) p = .ok (1, validIds) ∧
        ∀ t, t ∈ validIds ↔ t ∈ ids ∧ ∃ fmt ∈ p.fmt_messages, fmt.type = t) ∧
    (∀ (validIds : List Nat) (fmt : FmtMessage), validIds ≠ [] →
      (shouldParse validIds fmt = true ↔ fmt.type ∈ validIds)) := by
  refine ⟨⟨rfl, rfl, rfl, fun _ => rfl⟩, ?_, ?_, fun validIds fmt hne => shouldParse_iff fmt hne⟩
  · intro items hle
    obtain ⟨v, hv, _, hmem⟩ := resolveNames_spec p.fmt_messages items [] (by simpa using hle)
    refine ⟨v, ?_, ?_⟩
    · cases items with
      | nil =>
        unfold resolveNames at hv
        simp only [Except.ok.injEq] at hv
        subst hv
        rfl
      | cons a rest =>
        unfold validateMessageFilter
        simp only [hv]
    · intro t
      rw [hmem t]
      simp only [List.not_mem_nil, false_or]
      constructor
      · rintro ⟨n, f, hn, hf, ht⟩
        exact ⟨n, f, hn, (findByName_iff n f p.fmt_messages).mp hf, ht⟩
      · rintro ⟨n, f, hn, hf, ht⟩
        exact ⟨n, f, hn, (findByName_iff n f p.fmt_messages).mpr hf, ht⟩
  · intro ids hle
    obtain ⟨v, hv, _, hmem⟩ := resolveIds_spec p.fmt_messages ids [] (by simpa using hle)
    refine ⟨v, ?_, ?_⟩
    · cases ids with
      | nil =>
        unfold resolveIds at hv
        simp only [Except.ok.injEq] at hv
        subst hv
        rfl
      | cons a rest =>
        unfold validateMessageFilter
        simp only [hv]
    · intro t
      rw [hmem t]
      simp only [List.not_mem_nil, false_or]

theorem filter_resolution_witness :
    [some [65], some [90]].length ≤ MAX_MSG_TYPES ∧
    ∃ validIds, validateMessageFilter (.cell [some [65], some [90]])
        (freshParser [] 163 149 sameNameFmts 89) = .ok (1, validIds) ∧
      ∀ t, t ∈ validIds ↔ ∃ name fmt, some name ∈ [some [65], some [90]] ∧
        IsFirstNamed (freshParser [] 163 149 sameNameFmts 89).fmt_messages name fmt ∧
        fmt.type = t :=
  ⟨by decide,
    (filter_resolution (freshParser [] 163 149 sameNameFmts 89)).2.1
      [some [65], some [90]] (by decide)⟩

/-- C5 as stated fails in two ways.  With two declared formats named `A`, of
types 1 and 2, the name filter `[A]` resolves to `[1]` only, so the entry of
type 2, whose name is listed, is not selected.  With the single format `TEST`
of type 5, the name filter `[Z]` matches nothing and resolves to the empty
list, and the scanner then selects the entry of type 5, which is outside the
accepted set of the specification. -/
theorem filter_resolution_counterexample :
    (validateMessageFilter (.cell [some [65]]) (freshParser [] 163 149 sameNameFmts 89) =
        .ok (1, [1]) ∧
      specAccepts sameNameFmts (.cell [some [65]]) 2 = true ∧
      ∃ fmt ∈ sameNameFmts, fmt.type = 2 ∧ shouldParse [1] fmt = false) ∧
    (validateMessageFilter (.cell [some [90]]) (freshParser [] 163 149 exampleFmts 89) =
        .ok (1, []) ∧
      specAccepts exampleFmts (.cell [some [90]]) 5 = false ∧
      ∃ fmt ∈ exampleFmts, fmt.type = 5 ∧ shouldParse [] fmt = true) :=
  ⟨⟨by rfl, by decide,
      ⟨{ type := 2, length := 6, name := [65, 0, 0, 0], format := List.replicate 16 0,
         labels := List.replicate 64 0 }, by decide, rfl, by decide⟩⟩,
    ⟨by rfl, by decide,
      ⟨{ type := 5, length := 12, name := [84, 69, 83, 84], format := List.replicate 16 0,
         labels := List.replicate 64 0 }, by decide, rfl, by decide⟩⟩⟩

/-! ## Taking a record -/

theorem isValidMessage_true {p : LogParser} {pos id len : Nat}
    (hfit : pos + len ≤ p.log_size)
    (hnext : pos + len = p.log_size ∨
      (p.log_data[pos + len]? = some p.header0 ∧ p.log_data[pos + len + 1]? = some p.header1)) :
    isValidMessage pos id len p = .ok true := by
  unfold isValidMessage
  rw [if_neg (by omega)]
  simp only
  rcases hnext with he | ⟨hb0, hb1⟩
  · rw [if_pos (by omega)]
  · have hlt : pos + len + 1 < p.log_size := lt_of_getElem?_eq_some hb1
    rw [if_neg (by omega), if_pos hlt]
    simp only [readByte_of_getElem? hb0, readByte_of_getElem? hb1, if_true, decide_True]

theorem scanStep_accept {p : LogParser} {tbl : Nat → Option Nat} {pos id k : Nat}
    {fmt : FmtMessage} {md : MessageData}
    (hlen : p.log_size < SIZE_MOD)
    (hb0 : p.log_data[pos]? = some p.header0) (hb1 : p.log_data[pos + 1]? = some p.header1)
    (hid : p.log_data[pos + 2]? = some id) (hk : tbl id = some k)
    (hf : p.fmt_messages[k]? = some fmt) (hm : p.messages[k]? = some md)
    (hal : md.allocated = true) (h3 : 3 ≤ fmt.length) (hfit : pos + fmt.length ≤ p.log_size)
    (hv : isValidMessage pos id fmt.length p = .ok true) :
    scanStep p tbl pos =
      .ok ({ p with
              messages := p.messages.set k (addMessageData md (pos + 1)
                ((p.log_data.drop (pos + 3)).take (fmt.length - 3)))
              total_msg_count := p.total_msg_count + 1 },
           pos + fmt.length) := by
  have hsz : p.log_size = p.log_data.length := rfl
  have e0 : wrapSub fmt.length 3 = fmt.length - 3 := wrapSub_of_le h3
  have e1 : wrapSub fmt.length 1 = fmt.length - 1 := wrapSub_of_le (by omega)
  have e2 : wrapAdd pos (fmt.length - 1) = pos + (fmt.length - 1) := wrapAdd_of_lt (by omega)
  have e3 : wrapAdd (pos + (fmt.length - 1)) 1 = pos + fmt.length := by
    rw [wrapAdd_of_lt (by omega)]; omega
  have hcp : copyBytes p.log_data (pos + 3) (fmt.length - 3) =
      .ok ((p.log_data.drop (pos + 3)).take (fmt.length - 3)) := by
    unfold copyBytes
    rw [if_pos (by omega)]
  unfold scanStep
  simp only [readByte_of_getElem? hb0, readByte_of_getElem? hb1, if_true]
  unfold dispatch
  simp only [readByte_of_getElem? hid, hk]
  unfold tryRecord
  simp only [hf, hm]
  rw [if_pos ⟨hfit, hal⟩]
  simp only [hv]
  unfold takeRecord
  simp only [e0, e1, e2, e3, hcp]

theorem scanLoop_mono {tbl : Nat → Option Nat} {R : LogParser} :
    ∀ (fuel fuel' : Nat) (p : LogParser) (pos : Nat), fuel ≤ fuel' →
      scanLoop tbl fuel p pos = .done R → scanLoop tbl fuel' p pos = .done R := by
  intro fuel
  induction fuel with
  | zero =>
    intro fuel' p pos _ h
    unfold scanLoop at h
    cases h
  | succ n ih =>
    intro fuel' p pos hle h
    cases fuel' with
    | zero => omega
    | succ m =>
      unfold scanLoop at h ⊢
      by_cases hc : pos < wrapSub p.log_size 2
      · rw [if_pos hc] at h ⊢
        cases hs : scanStep p tbl pos with
        | error f => simp only [hs] at h; cases h
        | ok r =>
          obtain ⟨p', pos'⟩ := r
          simp only [hs] at h ⊢
          exact ih m p' pos' (by omega) h
      · rw [if_neg hc] at h ⊢
        exact h

theorem getElem?_append_cons3 (pre rest : List Nat) (a b c : Nat) :
    (pre ++ a :: b :: c :: rest)[pre.length]? = some a ∧
    (pre ++ a :: b :: c :: rest)[pre.length + 1]? = some b ∧
    (pre ++ a :: b :: c :: rest)[pre.length + 2]? = some c := by
  refine ⟨?_, ?_, ?_⟩
  · rw [List.getElem?_append_right (Nat.le_refl _)]; simp
  · rw [List.getElem?_append_right (by omega)]; simp
  · rw [List.getElem?_append_right (by omega)]; simp

theorem distinct_index {fmts : List FmtMessage}
    (hd : fmts.Pairwise (fun a b => a.type ≠ b.type)) {i j : Nat} {a b : FmtMessage}
    (hi : fmts[i]? = some a) (hj : fmts[j]? = some b) (ht : a.type = b.type) : i = j := by
  rw [List.pairwise_iff_getElem] at hd
  obtain ⟨hil, hia⟩ := List.getElem?_eq_some_iff.mp hi
  obtain ⟨hjl, hjb⟩ := List.getElem?_eq_some_iff.mp hj
  by_contra hne
  rcases Nat.lt_or_gt_of_ne hne with hlt | hgt
  · exact hd i j hil hjl hlt (by rw [hia, hjb]; exact ht)
  · exact hd j i hjl hil hgt (by rw [hia, hjb]; exact ht.symm)

theorem lookupLast_ne_none (validIds : List Nat) (fmt : FmtMessage)
    (hsel : shouldParse validIds fmt = true) :
    ∀ (l : List FmtMessage) (i j : Nat), l[j]? = some fmt →
      lookupLast validIds l i fmt.type ≠ none := by
  intro l
  induction l with
  | nil => intro i j hj; simp at hj
  | cons a l ih =>
    intro i j hj
    unfold lookupLast
    cases hl : lookupLast validIds l (i + 1) fmt.type with
    | some k => simp
    | none =>
      cases j with
      | zero =>
        simp only [List.getElem?_cons_zero, Option.some.injEq] at hj
        subst hj
        simp [hsel]
      | succ j' => exact absurd hl (ih (i + 1) j' (by simpa using hj))

theorem lookupLast_distinct {fmts : List FmtMessage}
    (hd : fmts.Pairwise (fun a b => a.type ≠ b.type)) {k : Nat} {fmt : FmtMessage}
    (hf : fmts[k]? = some fmt) : lookupLast [] fmts 0 fmt.type = some k := by
  have hsel : shouldParse [] fmt = true := rfl
  cases hl : lookupLast [] fmts 0 fmt.type with
  | none => exact absurd hl (lookupLast_ne_none [] fmt hsel fmts 0 k hf)
  | some k' =>
    obtain ⟨j, f, hk, hfj, hty, _, _⟩ := lookupLast_some [] fmts 0 fmt.type k' hl
    have : j = k := distinct_index hd hfj hf hty
    rw [hk, this, Nat.zero_add]

/-! ## Completeness on a well-formed log -/

theorem encodeRecords_cons (h0 h1 : Nat) (r : Nat × List Nat) (rest : List (Nat × List Nat)) :
    encodeRecords h0 h1 (r :: rest) = h0 :: h1 :: r.1 :: (r.2 ++ encodeRecords h0 h1 rest) := by
  rfl

theorem expectedInstances_cons (t : Nat) (r : Nat × List Nat) (rest : List (Nat × List Nat))
    (s : Nat) :
    expectedInstances t (r :: rest) s =
      if r.1 = t then (s + 1, r.2) :: expectedInstances t rest (s + 3 + r.2.length)
      else expectedInstances t rest (s + 3 + r.2.length) := by
  rfl

/-- The main pass, started at the boundary `pre.length` of a log whose
remaining bytes are the records `records`, takes each of them in turn. -/
theorem scanLoop_records (h0 h1 : Nat) (fmts : List FmtMessage) (tbl : Nat → Option Nat)
    (hdist : fmts.Pairwise (fun a b => a.type ≠ b.type))
    (htbl : ∀ (k : Nat) (fmt : FmtMessage), fmts[k]? = some fmt → tbl fmt.type = some k) :
    ∀ (records : List (Nat × List Nat)) (pre : List Nat) (p : LogParser),
      p.log_data = pre ++ encodeRecords h0 h1 records → p.header0 = h0 → p.header1 = h1 →
      p.fmt_messages = fmts → p.log_data.length < SIZE_MOD → 3 ≤ p.log_data.length →
      (∀ r ∈ records, ∃ fmt ∈ fmts, fmt.type = r.1 ∧ fmt.length = r.2.length + 3) →
      (∀ (k : Nat) (fmt : FmtMessage), fmts[k]? = some fmt →
        ∃ md, p.messages[k]? = some md ∧ md.allocated = true ∧
          md.indices.length = md.data.length) →
      ∃ R, scanLoop tbl (records.length + 1) p pre.length = .done R ∧
        R.total_msg_count = p.total_msg_count + records.length ∧
        R.messages.length = p.messages.length ∧
        ∀ (k : Nat) (fmt : FmtMessage) (md : MessageData), fmts[k]? = some fmt →
          p.messages[k]? = some md →
          ∃ md', R.messages[k]? = some md' ∧ md'.indices.length = md'.data.length ∧
            md'.instances = md.instances ++ expectedInstances fmt.type records pre.length := by
  intro records
  induction records with
  | nil =>
    intro pre p hlog _ _ _ _ h3 _ hmsgs
    refine ⟨p, ?_, by simp, rfl, ?_⟩
    · unfold scanLoop
      have hl : p.log_size = pre.length := by
        unfold LogParser.log_size
        rw [hlog]
        simp [encodeRecords]
      have h3' : 3 ≤ p.log_size := h3
      rw [wrapSub_of_le (by omega), if_neg (by omega)]
    · intro k fmt md hf hm
      obtain ⟨md0, hm0, _, hl0⟩ := hmsgs k fmt hf
      rw [hm] at hm0
      simp only [Option.some.injEq] at hm0
      subst hm0
      exact ⟨md, hm, hl0, by simp [expectedInstances]⟩
  | cons r rest ih =>
    intro pre p hlog hh0 hh1 hfm hlt h3 hdecl hmsgs
    obtain ⟨fmt, hfmem, hty, hlen⟩ := hdecl r (List.mem_cons_self _ _)
    obtain ⟨k, hfk⟩ := List.mem_iff_getElem?.mp hfmem
    obtain ⟨md, hmk, hal, hmdl⟩ := hmsgs k fmt hfk
    have hlog' : p.log_data = pre ++ h0 :: h1 :: r.1 :: (r.2 ++ encodeRecords h0 h1 rest) := by
      rw [hlog, encodeRecords_cons]
    have hpre' : p.log_data = (pre ++ h0 :: h1 :: r.1 :: r.2) ++ encodeRecords h0 h1 rest := by
      rw [hlog']; simp
    have hplen : (pre ++ h0 :: h1 :: r.1 :: r.2).length = pre.length + fmt.length := by
      simp only [List.length_append, List.length_cons]; omega
    have hsz : p.log_size = p.log_data.length := rfl
    have hfit : pre.length + fmt.length ≤ p.log_size := by
      rw [hsz, hpre', List.length_append, hplen]; omega
    obtain ⟨g0, g1, g2⟩ := getElem?_append_cons3 pre (r.2 ++ encodeRecords h0 h1 rest) h0 h1 r.1
    rw [← hlog'] at g0 g1 g2
    have hv : isValidMessage pre.length r.1 fmt.length p = .ok true := by
      apply isValidMessage_true hfit
      cases rest with
      | nil =>
        left
        rw [hsz, hpre', List.length_append, hplen]
        simp [encodeRecords]
      | cons r2 rest2 =>
        right
        obtain ⟨n0, n1, _⟩ := getElem?_append_cons3 (pre ++ h0 :: h1 :: r.1 :: r.2)
          (r2.2 ++ encodeRecords h0 h1 rest2) h0 h1 r2.1
        rw [← encodeRecords_cons, ← hpre', hplen] at n0 n1
        rw [hh0, hh1]
        exact ⟨n0, n1⟩
    have hstep := @scanStep_accept p tbl pre.length r.1 k fmt md hlt (hh0 ▸ g0) (hh1 ▸ g1) g2
      (hty ▸ htbl k fmt hfk) (hfm ▸ hfk) hmk hal (by omega) hfit hv
    have hpay : (p.log_data.drop (pre.length + 3)).take (fmt.length - 3) = r.2 := by
      have hd : p.log_data = (pre ++ [h0, h1, r.1]) ++ (r.2 ++ encodeRecords h0 h1 rest) := by
        rw [hlog']; simp
      rw [hd, List.drop_left' (by simp), hlen, Nat.add_sub_cancel, List.take_left]
    rw [hpay] at hstep
    obtain ⟨R, hR, htot, hRlen, hRm⟩ := ih (pre ++ h0 :: h1 :: r.1 :: r.2)
      { p with
        messages := p.messages.set k (addMessageData md (pre.length + 1) r.2)
        total_msg_count := p.total_msg_count + 1 }
      hpre' hh0 hh1 hfm hlt h3
      (fun r' hr' => hdecl r' (List.mem_cons_of_mem _ hr'))
      (by
        intro k' fmt' hf'
        obtain ⟨md', hm', hal', hl'⟩ := hmsgs k' fmt' hf'
        by_cases hkk : k = k'
        · subst hkk
          refine ⟨addMessageData md (pre.length + 1) r.2, ?_, hal, ?_⟩
          · exact List.getElem?_set_self (lt_of_getElem?_eq_some hmk)
          · simp only [addMessageData, List.length_append, List.length_singleton, hmdl]
        · refine ⟨md', ?_, hal', hl'⟩
          rw [List.getElem?_set_ne hkk]
          exact hm')
    rw [hplen] at hR
    refine ⟨R, ?_, ?_, ?_, ?_⟩
    · have hcond : pre.length < wrapSub p.log_size 2 := by
        rw [wrapSub_of_le (by omega)]
        omega
      rw [List.length_cons]
      unfold scanLoop
      rw [if_pos hcond]
      simp only [hstep]
      exact hR
    · rw [htot]; simp only [List.length_cons]; omega
    · rw [hRlen]; simp
    · intro k' fmt' md0 hf' hm0
      by_cases hkk : k = k'
      · subst hkk
        rw [hfk] at hf'
        simp only [Option.some.injEq] at hf'
        subst hf'
        rw [hmk] at hm0
        simp only [Option.some.injEq] at hm0
        subst hm0
        obtain ⟨md', hm', hl', hi'⟩ := hRm k fmt (addMessageData md (pre.length + 1) r.2) hfk
          (List.getElem?_set_self (lt_of_getElem?_eq_some hmk))
        refine ⟨md', hm', hl', ?_⟩
        rw [hi', instances_addMessageData hmdl, hplen]
        rw [expectedInstances_cons, if_pos hty.symm, hlen]
        simp only [List.append_assoc, List.singleton_append]
        have : pre.length + (r.2.length + 3) = pre.length + 3 + r.2.length := by omega
        rw [this]
      · obtain ⟨md', hm', hl', hi'⟩ := hRm k' fmt' md0 hf'
          (by rw [List.getElem?_set_ne hkk]; exact hm0)
        refine ⟨md', hm', hl', ?_⟩
        rw [hi', hplen]
        have hne : ¬ r.1 = fmt'.type := by
          intro he
          exact hkk (distinct_index hdist hfk hf' (hty.trans he))
        rw [expectedInstances_cons, if_neg hne, hlen]
        have : pre.length + (r.2.length + 3) = pre.length + 3 + r.2.length := by omega
        rw [this]

theorem parseAllMessages_eq {fuel : Nat} {log : List Nat} {h0 h1 : Nat}
    {fmts : List FmtMessage} {fmtLen : Nat} {msgFilter : MsgFilter} {validIds : List Nat}
    (hv : validateMessageFilter msgFilter (freshParser log h0 h1 fmts fmtLen) =
      .ok (1, validIds)) :
    parseAllMessages fuel (freshParser log h0 h1 fmts fmtLen) msgFilter =
      match scanLoop (lookupLast validIds fmts 0) fuel
          { freshParser log h0 h1 fmts fmtLen with
            messages := fmts.map (selectInit validIds) } 0 with
      | .done p' => .done (1, p')
      | .fault f => .fault f
      | .outOfFuel => .outOfFuel := by
  have hfm : (freshParser log h0 h1 fmts fmtLen).fmt_messages = fmts := rfl
  have hms : (freshParser log h0 h1 fmts fmtLen).messages =
      List.replicate fmts.length zeroMessageData := rfl
  unfold parseAllMessages
  simp only [hv]
  rw [if_neg (by decide), hfm, hms, setupLoop_snd_eq, setupLoop_fst_eq]

theorem encodeRecords_length_ge (h0 h1 : Nat) {records : List (Nat × List Nat)}
    (hne : records ≠ []) : 3 ≤ (encodeRecords h0 h1 records).length := by
  cases records with
  | nil => exact absurd rfl hne
  | cons r rest =>
    rw [encodeRecords_cons]
    simp only [List.length_cons]
    omega

/-- C2 (completeness on a well-formed log): let the format table have
pairwise distinct type ids and let the log, shorter than `2 ^ 64`, be the
concatenation of `n ≥ 1` records, each made of the two header bytes, a declared
type id and a payload that gives the record the declared length of its type.
Then with no filter, and whatever the payload bytes are, `parseAllMessages`
returns 1 for every fuel above `n`, counts `n` instances, and the list of each
format entry holds exactly the records of its type, in log order, each with
offset `s + 1` for the record that starts at `s` and with the record's
payload. -/
theorem scanner_complete (h0 h1 : Nat) (fmts : List FmtMessage) (fmtLen : Nat)
    (records : List (Nat × List Nat)) (hne : records ≠ [])
    (hdist : fmts.Pairwise (fun a b => a.type ≠ b.type))
    (hdecl : ∀ r ∈ records, ∃ fmt ∈ fmts, fmt.type = r.1 ∧ fmt.length = r.2.length + 3)
    (hlen : (encodeRecords h0 h1 records).length < SIZE_MOD) :
    ∃ R, (∀ fuel, records.length < fuel →
        parseAllMessages fuel (freshParser (encodeRecords h0 h1 records) h0 h1 fmts fmtLen)
          .absent = .done (1, R)) ∧
      R.fmt_messages = fmts ∧ R.total_msg_count = records.length ∧
      R.messages.length = fmts.length ∧
      ∀ (k : Nat) (fmt : FmtMessage), fmts[k]? = some fmt →
        ∃ md, R.messages[k]? = some md ∧ md.indices.length = md.data.length ∧
          md.instances = expectedInstances fmt.type records 0 := by
  have hv : validateMessageFilter .absent
      (freshParser (encodeRecords h0 h1 records) h0 h1 fmts fmtLen) = .ok (1, []) := rfl
  have hsel : ∀ fmt : FmtMessage, selectInit [] fmt = initMessageData fmt := fun _ => rfl
  obtain ⟨R, hR, htot, hRlen, hRm⟩ := scanLoop_records h0 h1 fmts (lookupLast [] fmts 0) hdist
    (fun k fmt hf => lookupLast_distinct hdist hf) records []
    { freshParser (encodeRecords h0 h1 records) h0 h1 fmts fmtLen with
      messages := fmts.map (selectInit []) }
    (by simp [freshParser]) rfl rfl rfl hlen (encodeRecords_length_ge h0 h1 hne) hdecl
    (by
      intro k fmt hf
      refine ⟨initMessageData fmt, ?_, rfl, rfl⟩
      simp only [List.getElem?_map, hf, Option.map_some', hsel])
  simp only [List.length_nil] at hR
  have hdone : ∀ fuel, records.length < fuel →
      parseAllMessages fuel (freshParser (encodeRecords h0 h1 records) h0 h1 fmts fmtLen)
        .absent = .done (1, R) := by
    intro fuel hf
    rw [parseAllMessages_eq hv, scanLoop_mono (records.length + 1) fuel _ 0 (by omega) hR]
  obtain ⟨_, _, _, _, hI⟩ := parseAllMessages_scanInv hlen (hdone (records.length + 1) (by omega))
  refine ⟨R, hdone, hI.fmts_eq, by simpa [freshParser] using htot, by simpa using hRlen, ?_⟩
  intro k fmt hf
  obtain ⟨md', hm', hl', hi'⟩ := hRm k fmt (initMessageData fmt) hf
    (by simp only [List.getElem?_map, hf, Option.map_some', hsel])
  refine ⟨md', hm', hl', ?_⟩
  rw [hi']
  simp [MessageData.instances, initMessageData]

theorem scanner_complete_witness :
    [(5, [1, 2, 3, 4, 5, 6, 7, 8, 9]), (5, [11, 12, 13, 14, 15, 16, 17, 18, 19])] ≠
      ([] : List (Nat × List Nat)) ∧
    exampleFmts.Pairwise (fun a b => a.type ≠ b.type) ∧
    (∀ r ∈ [(5, [1, 2, 3, 4, 5, 6, 7, 8, 9]), (5, [11, 12, 13, 14, 15, 16, 17, 18, 19])],
      ∃ fmt ∈ exampleFmts, fmt.type = r.1 ∧ fmt.length = r.2.length + 3) ∧
    (encodeRecords 163 149
      [(5, [1, 2, 3, 4, 5, 6, 7, 8, 9]),
        (5, [11, 12, 13, 14, 15, 16, 17, 18, 19])]).length < SIZE_MOD ∧
    ∃ R, (∀ fuel,
        [(5, [1, 2, 3, 4, 5, 6, 7, 8, 9]),
          (5, [11, 12, 13, 14, 15, 16, 17, 18, 19])].length < fuel →
        parseAllMessages fuel (freshParser (encodeRecords 163 149
          [(5, [1, 2, 3, 4, 5, 6, 7, 8, 9]), (5, [11, 12, 13, 14, 15, 16, 17, 18, 19])])
          163 149 exampleFmts 89) .absent = .done (1, R)) ∧
      R.fmt_messages = exampleFmts ∧ R.total_msg_count = 2 ∧
      R.messages.length = exampleFmts.length ∧
      ∀ (k : Nat) (fmt : FmtMessage), exampleFmts[k]? = some fmt →
        ∃ md, R.messages[k]? = some md ∧ md.indices.length = md.data.length ∧
          md.instances = expectedInstances fmt.type
            [(5, [1, 2, 3, 4, 5, 6, 7, 8, 9]), (5, [11, 12, 13, 14, 15, 16, 17, 18, 19])] 0 :=
  ⟨by decide, by decide, by decide, by decide,
    scanner_complete 163 149 exampleFmts 89
      [(5, [1, 2, 3, 4, 5, 6, 7, 8, 9]), (5, [11, 12, 13, 14, 15, 16, 17, 18, 19])]
      (by decide) (by decide) (by decide) (by decide)⟩

/-! ## A filtered pass against the unfiltered pass -/

set_option maxRecDepth 100000 in
theorem shadowLog_unfiltered :
    parse 200 shadowLog 163 149 .absent = .done (some shadowUnfiltered) := by rfl

set_option maxRecDepth 100000 in
theorem shadowLog_filtered :
    parse 200 shadowLog 163 149 (.cell [some [65]]) = .done (some shadowFiltered) := by rfl

theorem scanStep_messages {p p' : LogParser} {tbl : Nat → Option Nat} {pos pos' : Nat}
    (hs : scanStep p tbl pos = .ok (p', pos')) :
    p' = p ∨ ∃ k md index payload, p.messages[k]? = some md ∧
      p' = { p with messages := p.messages.set k (addMessageData md index payload)
                    total_msg_count := p.total_msg_count + 1 } := by
  obtain ⟨_, hcase⟩ := scanStep_ok hs
  rcases hcase with ⟨h1, _⟩ | ⟨_, _, hd⟩
  · exact Or.inl h1
  · obtain ⟨id, _, hcase2⟩ := dispatch_ok hd
    rcases hcase2 with ⟨_, h1, _⟩ | ⟨k, _, ht⟩
    · exact Or.inl h1
    · rcases tryRecord_ok ht with ⟨h1, _⟩ | ⟨fmt, md, payload, _, hm, _, _, _, _, h1, _⟩
      · exact Or.inl h1
      · exact Or.inr ⟨k, md, pos + 1, payload, hm, h1⟩

/-- The main pass leaves the log, the header, the format table and the probed
length as they were. -/
theorem scanLoop_frame {tbl : Nat → Option Nat} (fuel : Nat) (p : LogParser) (pos : Nat)
    (R : LogParser) (h : scanLoop tbl fuel p pos = .done R) :
    R.log_data = p.log_data ∧ R.header0 = p.header0 ∧ R.header1 = p.header1 ∧
      R.fmt_messages = p.fmt_messages ∧ R.fmt_length = p.fmt_length := by
  obtain ⟨_, hR, _⟩ := scanLoop_inv
    (fun q _ => q.log_data = p.log_data ∧ q.header0 = p.header0 ∧ q.header1 = p.header1 ∧
      q.fmt_messages = p.fmt_messages ∧ q.fmt_length = p.fmt_length)
    (by
      intro q pos q' pos' hI _ hs
      rcases scanStep_messages hs with h1 | ⟨k, md, index, payload, _, h1⟩
      · rw [h1]; exact hI
      · rw [h1]; exact hI)
    fuel p pos R ⟨rfl, rfl, rfl, rfl, rfl⟩ h
  exact hR

theorem shouldParse_type (validIds : List Nat) {a b : FmtMessage} (h : a.type = b.type) :
    shouldParse validIds a = shouldParse validIds b := by
  unfold shouldParse
  rw [h]

/-- The lookup table of a filtered pass is the table of the unfiltered pass
with the cells of the types that the filter leaves out removed. -/
theorem lookupLast_filter (validIds : List Nat) (fmts : List FmtMessage) (id : Nat) :
    (lookupLast [] fmts 0 id = none → lookupLast validIds fmts 0 id = none) ∧
    (∀ (k : Nat) (fmt : FmtMessage), lookupLast [] fmts 0 id = some k → fmts[k]? = some fmt →
      (shouldParse validIds fmt = true → lookupLast validIds fmts 0 id = some k) ∧
      (shouldParse validIds fmt = false → lookupLast validIds fmts 0 id = none)) := by
  have hall : ∀ fmt : FmtMessage, shouldParse [] fmt = true := fun _ => rfl
  constructor
  · intro h1
    cases h2 : lookupLast validIds fmts 0 id with
    | none => rfl
    | some k2 =>
      obtain ⟨j, f, _, hfj, hty, _, _⟩ := lookupLast_some validIds fmts 0 id k2 h2
      exact absurd h1 (hty ▸ lookupLast_ne_none [] f (hall f) fmts 0 j hfj)
  · intro k fmt h1 hf
    obtain ⟨j, f, hk, hfj, hty, _, hlast⟩ := lookupLast_some [] fmts 0 id k h1
    have hkj : k = j := by omega
    subst hkj
    rw [hf] at hfj
    simp only [Option.some.injEq] at hfj
    subst hfj
    constructor
    · intro hsel
      cases h2 : lookupLast validIds fmts 0 id with
      | none => exact absurd h2 (hty ▸ lookupLast_ne_none validIds fmt hsel fmts 0 k hf)
      | some k2 =>
        obtain ⟨j2, f2, hk2, hfj2, hty2, hsel2, hlast2⟩ := lookupLast_some validIds fmts 0 id k2 h2
        have h2j : k2 = j2 := by omega
        subst h2j
        have hle : ¬ k < k2 := by
          intro hlt
          have := hlast k2 f2 hlt hfj2 hty2
          rw [hall f2] at this
          cases this
        have hge : ¬ k2 < k := by
          intro hlt
          have := hlast2 k fmt hlt hf hty
          rw [hsel] at this
          cases this
        have : k2 = k := by omega
        rw [this]
    · intro hunsel
      cases h2 : lookupLast validIds fmts 0 id with
      | none => rfl
      | some k2 =>
        obtain ⟨j2, f2, _, _, hty2, hsel2, _⟩ := lookupLast_some validIds fmts 0 id k2 h2
        rw [shouldParse_type validIds (hty2.trans hty.symm), hunsel] at hsel2
        cases hsel2

/-- C7 as stated fails on `shadowLog`, whose single record of type 2 (`B`)
carries the bytes of a record of type 1 (`A`) as its payload: with no filter
the scanner takes the record of type 2 and passes over its payload, so the
list of `A` is empty; with the name filter `A` it steps through the record
byte by byte and takes the payload as an instance of `A` at offset 182. -/
theorem filtered_parse_counterexample :
    parse 200 shadowLog 163 149 .absent = .done (some shadowUnfiltered) ∧
    parse 200 shadowLog 163 149 (.cell [some [65]]) = .done (some shadowFiltered) ∧
    validateMessageFilter (.cell [some [65]]) shadowUnfiltered = .ok (1, [1]) ∧
    (∃ fmt, shadowUnfiltered.fmt_messages[0]? = some fmt ∧ shouldParse [1] fmt = true) ∧
    (shadowUnfiltered.messages[0]?.map (fun md => md.instances)) = some [] ∧
    (shadowFiltered.messages[0]?.map (fun md => md.instances)) = some [(182, [])] :=
  ⟨shadowLog_unfiltered, shadowLog_filtered, by rfl, ⟨_, rfl, by decide⟩, by rfl, by rfl⟩

/-! ## The frame-validity check -/

/-- The value of `isValidMessage` for a candidate that fits in the log: no
read leaves the log, and the candidate passes when the log ends right after
it, when a single byte follows it, or when the two bytes after it are the
header. -/
theorem isValidMessage_eq (p : LogParser) (pos id len : Nat) (hfit : pos + len ≤ p.log_size) :
    isValidMessage pos id len p =
      .ok (decide (pos + len = p.log_size ∨ pos + len + 1 = p.log_size ∨
        (p.log_data[pos + len]? = some p.header0 ∧
          p.log_data[pos + len + 1]? = some p.header1))) := by
  have hsz : p.log_size = p.log_data.length := rfl
  unfold isValidMessage
  rw [if_neg (by omega)]
  simp only
  by_cases he : pos + len ≥ p.log_size
  · rw [if_pos he]
    have : pos + len = p.log_size := by omega
    simp [this]
  · rw [if_neg he]
    by_cases h1 : pos + len + 1 < p.log_size
    · rw [if_pos h1]
      have hb0 : p.log_data[pos + len]? = some (p.log_data[pos + len]) :=
        List.getElem?_eq_getElem (by omega)
      have hb1 : p.log_data[pos + len + 1]? = some (p.log_data[pos + len + 1]) :=
        List.getElem?_eq_getElem (by omega)
      simp only [readByte_of_getElem? hb0, readByte_of_getElem? hb1]
      have hne1 : ¬ pos + len = p.log_size := by omega
      have hne2 : ¬ pos + len + 1 = p.log_size := by omega
      by_cases hh0 : p.log_data[pos + len] = p.header0
      · rw [if_pos hh0]
        simp [hb0, hb1, hh0, hne1, hne2]
      · rw [if_neg hh0]
        simp [hb0, hh0, hne1, hne2]
    · rw [if_neg h1]
      have : pos + len + 1 = p.log_size := by omega
      simp [this]

/-- C14 (frame-validity check), as the code has it: for a candidate with
`pos + len ≤ len(log)`, `isValidMessage` accepts if and only if the log ends
right after the candidate, or exactly one byte follows it, or the two bytes at
`pos + len` and `pos + len + 1` are `header0` and `header1`. -/
theorem frame_validity (p : LogParser) (pos id len : Nat) (hfit : pos + len ≤ p.log_size) :
    isValidMessage pos id len p = .ok true ↔
      (pos + len = p.log_size ∨ pos + len + 1 = p.log_size ∨
        (p.log_data[pos + len]? = some p.header0 ∧
          p.log_data[pos + len + 1]? = some p.header1)) := by
  rw [isValidMessage_eq p pos id len hfit]
  simp only [Except.ok.injEq, decide_eq_true_eq]

theorem frame_validity_witness :
    0 + 3 ≤ (initParser [163, 149, 5, 163, 149, 5] 163 149).log_size ∧
    (isValidMessage 0 5 3 (initParser [163, 149, 5, 163, 149, 5] 163 149) = .ok true ↔
      (0 + 3 = (initParser [163, 149, 5, 163, 149, 5] 163 149).log_size ∨
        0 + 3 + 1 = (initParser [163, 149, 5, 163, 149, 5] 163 149).log_size ∨
        ((initParser [163, 149, 5, 163, 149, 5] 163 149).log_data[0 + 3]? =
            some (initParser [163, 149, 5, 163, 149, 5] 163 149).header0 ∧
          (initParser [163, 149, 5, 163, 149, 5] 163 149).log_data[0 + 3 + 1]? =
            some (initParser [163, 149, 5, 163, 149, 5] 163 149).header1))) :=
  ⟨by decide, frame_validity (initParser [163, 149, 5, 163, 149, 5] 163 149) 0 5 3 (by decide)⟩

/-- C14 as stated fails when exactly one byte follows the candidate: in the
4-byte log `[163, 149, 5, 7]` the candidate of length 3 at position 0 is
accepted (line 298), although the log does not end after it and the byte at
index 4 does not exist. -/
theorem frame_validity_counterexample :
    0 + 3 ≤ (initParser [163, 149, 5, 7] 163 149).log_size ∧
    isValidMessage 0 5 3 (initParser [163, 149, 5, 7] 163 149) = .ok true ∧
    ¬ specFrameValid (initParser [163, 149, 5, 7] 163 149) 0 3 :=
  ⟨by decide, by rfl, by unfold specFrameValid; decide⟩

/-! ## The table builder -/

theorem readByte_getD {log : List Nat} {i : Nat} (h : i < log.length) :
    readByte log i = .ok (log.getD i 0) := by
  have hb : log[i]? = some (log[i]) := List.getElem?_eq_getElem h
  rw [readByte_of_getElem? hb, List.getD_eq_getElem?_getD, hb]
  rfl

theorem copyBytes_eq {log : List Nat} {start len : Nat} (h : start + len ≤ log.length) :
    copyBytes log start len = .ok ((log.drop start).take len) := by
  unfold copyBytes
  rw [if_pos h]

theorem readFmtMessage_eq {log : List Nat} {base : Nat} (h : base + 86 ≤ log.length) :
    readFmtMessage log base = .ok (rawFmtRecord log base) := by
  unfold readFmtMessage
  rw [readByte_getD (by omega), readByte_getD (by omega), copyBytes_eq (by omega),
    copyBytes_eq (by omega), copyBytes_eq (by omega)]
  rfl

theorem passesFrameCheck_eq (p : LogParser) (pos len : Nat) :
    (isValidMessage pos FMT_ID len p = .ok true → passesFrameCheck p pos len = true) ∧
    (isValidMessage pos FMT_ID len p = .ok false → passesFrameCheck p pos len = false) := by
  unfold passesFrameCheck
  constructor
  · intro h; rw [h]
  · intro h; rw [h]

/-- The loop of `parseFmtMessages` over `k` offsets from `i`, all of which
leave room for a record of `fmt_length ≥ 89` bytes: no read leaves the log, the
table is the first 256 of the entries collected so far followed by the records
of the valid FMT occurrences, and the warning is given when that list reaches
256 entries. -/
theorem parseFmtLoop_spec (p : LogParser) (h89 : 89 ≤ p.fmt_length) :
    ∀ (k i : Nat) (acc : List FmtMessage), i + k + p.fmt_length ≤ p.log_size + 1 →
      acc.length < MAX_MSG_TYPES →
      parseFmtLoop p k i acc =
        .ok ((acc ++ ((List.range' i k).filter (isFmtOccurrence p)).map
                (fun j => rawFmtRecord p.log_data (j + 3))).take MAX_MSG_TYPES,
             decide (MAX_MSG_TYPES ≤ (acc ++ ((List.range' i k).filter
               (isFmtOccurrence p)).map (fun j => rawFmtRecord p.log_data (j + 3))).length)) := by
  have hsz : p.log_size = p.log_data.length := rfl
  intro k
  induction k with
  | zero =>
    intro i acc _ hacc
    unfold parseFmtLoop
    simp only [List.range'_zero, List.filter_nil, List.map_nil, List.append_nil]
    rw [List.take_of_length_le (by omega)]
    simp only [Except.ok.injEq, Prod.mk.injEq, true_and]
    symm
    simp only [decide_eq_false_iff_not]
    omega
  | succ n ih =>
    intro i acc hle hacc
    have hfit : i + p.fmt_length ≤ p.log_size := by omega
    unfold parseFmtLoop
    rw [memcmp3_eq (by omega)]
    rw [List.range'_succ, List.filter_cons]
    cases hd : decide (p.log_data[i]? = some p.header0 ∧ p.log_data[i + 1]? = some p.header1 ∧
        p.log_data[i + 2]? = some FMT_ID) with
    | false =>
      have hocc : isFmtOccurrence p i = false := by
        unfold isFmtOccurrence; rw [hd]; rfl
      simp only [hocc]
      exact ih (i + 1) acc (by omega) hacc
    | true =>
      simp only
      rw [isValidMessage_eq p i FMT_ID p.fmt_length hfit]
      cases hv : decide (i + p.fmt_length = p.log_size ∨ i + p.fmt_length + 1 = p.log_size ∨
          (p.log_data[i + p.fmt_length]? = some p.header0 ∧
            p.log_data[i + p.fmt_length + 1]? = some p.header1)) with
      | false =>
        have hocc : isFmtOccurrence p i = false := by
          unfold isFmtOccurrence passesFrameCheck
          rw [hd, isValidMessage_eq p i FMT_ID p.fmt_length hfit, hv]; rfl
        simp only [hocc]
        exact ih (i + 1) acc (by omega) hacc
      | true =>
        have hocc : isFmtOccurrence p i = true := by
          unfold isFmtOccurrence passesFrameCheck
          rw [hd, isValidMessage_eq p i FMT_ID p.fmt_length hfit, hv]; rfl
        simp only [hocc, if_true, List.map_cons]
        rw [readFmtMessage_eq (by omega)]
        simp only
        have happ : ∀ rest : List FmtMessage,
            acc ++ rawFmtRecord p.log_data (i + 3) :: rest =
              (acc ++ [rawFmtRecord p.log_data (i + 3)]) ++ rest := by
          intro rest; simp
        rw [happ (List.map (fun j => rawFmtRecord p.log_data (j + 3))
          (List.filter (isFmtOccurrence p) (List.range' (i + 1) n)))]
        by_cases hfull : (acc ++ [rawFmtRecord p.log_data (i + 3)]).length ≥ MAX_MSG_TYPES
        · rw [if_pos hfull]
          have hl : (acc ++ [rawFmtRecord p.log_data (i + 3)]).length = MAX_MSG_TYPES := by
            simp only [List.length_append, List.length_singleton] at hfull ⊢
            omega
          rw [List.take_left' hl]
          simp only [Except.ok.injEq, Prod.mk.injEq, true_and]
          symm
          simp only [decide_eq_true_eq]
          rw [List.length_append, hl]
          omega
        · rw [if_neg hfull]
          have hl : (acc ++ [rawFmtRecord p.log_data (i + 3)]).length < MAX_MSG_TYPES := by
            omega
          exact ih (i + 1) (acc ++ [rawFmtRecord p.log_data (i + 3)]) (by omega) hl

theorem trimmed_rawFmtRecord (log : List Nat) (i : Nat) :
    (rawFmtRecord log (i + 3)).trimmed = specFmtRecord log i := by
  rfl

/-- The result of `parseFmtMessages` when `89 ≤ fmt_length ≤ log_size`. -/
theorem parseFmtMessages_spec (p : LogParser) (h89 : 89 ≤ p.fmt_length)
    (hle : p.fmt_length ≤ p.log_size) :
    parseFmtMessages p =
      .ok (if (((fmtOccurrences p).take MAX_MSG_TYPES).map
              (fun j => rawFmtRecord p.log_data (j + 3))).length > 0 then 1 else 0,
           decide (MAX_MSG_TYPES ≤ (fmtOccurrences p).length),
           { p with fmt_messages := (((fmtOccurrences p).take MAX_MSG_TYPES).map
               (fun j => rawFmtRecord p.log_data (j + 3))) }) := by
  unfold parseFmtMessages
  rw [wrapSub_of_le hle, parseFmtLoop_spec p h89 _ 0 [] (by omega) (by decide)]
  simp only [List.nil_append, List.length_map, ← List.map_take]
  rw [← List.range_eq_range']
  rfl

/-- C11 (format table contents and order): when `89 ≤ fmt_length ≤ log_size`,
`parseFmtMessages` returns a table whose entries, each string cut at its first
zero byte, are the FormatRecords of the valid FMT occurrences among the offsets
`0 .. log_size - fmt_length` (pattern `[header0, header1, 128]` and frame check
passed), in increasing order of offset and limited to the first 256, with the
fields read at `i + 3`, `i + 4`, `i + 5`, `i + 9` and `i + 25`; every offset of
the range is examined, also the ones right after a match. -/
theorem format_table_contents (p : LogParser) (h89 : 89 ≤ p.fmt_length)
    (hle : p.fmt_length ≤ p.log_size) :
    ∃ (r : Nat) (w : Bool) (fmts : List FmtMessage),
      parseFmtMessages p = .ok (r, w, { p with fmt_messages := fmts }) ∧
      fmts.map FmtMessage.trimmed = specFmtTable p := by
  refine ⟨_, _, _, parseFmtMessages_spec p h89 hle, ?_⟩
  unfold specFmtTable
  rw [List.map_map]
  apply List.map_congr_left
  intro i _
  exact trimmed_rawFmtRecord p.log_data i

theorem format_table_contents_witness :
    89 ≤ (freshParser exampleLog 163 149 [] 89).fmt_length ∧
    (freshParser exampleLog 163 149 [] 89).fmt_length ≤
      (freshParser exampleLog 163 149 [] 89).log_size ∧
    ∃ (r : Nat) (w : Bool) (fmts : List FmtMessage),
      parseFmtMessages (freshParser exampleLog 163 149 [] 89) =
        .ok (r, w, { freshParser exampleLog 163 149 [] 89 with fmt_messages := fmts }) ∧
      fmts.map FmtMessage.trimmed = specFmtTable (freshParser exampleLog 163 149 [] 89) :=
  ⟨by decide, by decide,
    format_table_contents (freshParser exampleLog 163 149 [] 89) (by decide) (by decide)⟩

/-- C20 (table-builder reads stay inside the log): when
`89 ≤ fmt_length ≤ log_size`, `parseFmtMessages` returns a result: none of its
reads (pattern comparison, look-ahead bytes of the frame check, the fields at
payload offsets 0..85) reaches the out-of-range branch. -/
theorem table_builder_reads_in_range (p : LogParser) (h89 : 89 ≤ p.fmt_length)
    (hle : p.fmt_length ≤ p.log_size) :
    ∃ r, parseFmtMessages p = .ok r ∧ ∀ f, parseFmtMessages p ≠ .error f := by
  refine ⟨_, parseFmtMessages_spec p h89 hle, ?_⟩
  intro f hf
  rw [parseFmtMessages_spec p h89 hle] at hf
  cases hf

theorem table_builder_reads_in_range_witness :
    89 ≤ (freshParser exampleLog 163 149 [] 89).fmt_length ∧
    (freshParser exampleLog 163 149 [] 89).fmt_length ≤
      (freshParser exampleLog 163 149 [] 89).log_size ∧
    ∃ r, parseFmtMessages (freshParser exampleLog 163 149 [] 89) = .ok r ∧
      ∀ f, parseFmtMessages (freshParser exampleLog 163 149 [] 89) ≠ .error f :=
  ⟨by decide, by decide,
    table_builder_reads_in_range (freshParser exampleLog 163 149 [] 89) (by decide) (by decide)⟩

theorem fullTableLog_getElem? {i : Nat} (h : i < 383) : fullTableLog[i]? = some 128 := by
  unfold fullTableLog
  rw [List.getElem?_replicate, if_pos h]

theorem fullTableParser_occurrence {i : Nat} (h : i < 256) :
    isFmtOccurrence fullTableParser i = true := by
  have hsz : fullTableParser.log_size = 383 := by
    unfold fullTableParser initParser LogParser.log_size fullTableLog
    exact List.length_replicate 383 128
  have hlog : fullTableParser.log_data = fullTableLog := rfl
  have hL : fullTableParser.fmt_length = 128 := rfl
  have hh0 : fullTableParser.header0 = 128 := rfl
  have hh1 : fullTableParser.header1 = 128 := rfl
  unfold isFmtOccurrence passesFrameCheck
  rw [isValidMessage_eq fullTableParser i FMT_ID fullTableParser.fmt_length (by rw [hsz, hL]; omega)]
  rw [hlog, hL, hh0, hh1, hsz, fullTableLog_getElem? (by omega : i < 383),
    fullTableLog_getElem? (by omega : i + 1 < 383), fullTableLog_getElem? (by omega : i + 2 < 383)]
  have hframe : i + 128 = 383 ∨ i + 128 + 1 = 383 ∨
      (fullTableLog[i + 128]? = some 128 ∧ fullTableLog[i + 128 + 1]? = some 128) := by
    by_cases h1 : i + 128 = 383
    · exact Or.inl h1
    · by_cases h2 : i + 128 + 1 = 383
      · exact Or.inr (Or.inl h2)
      · exact Or.inr (Or.inr ⟨fullTableLog_getElem? (by omega), fullTableLog_getElem? (by omega)⟩)
  rw [decide_eq_true hframe]
  rfl

theorem fullTableParser_occurrences : fmtOccurrences fullTableParser = List.range 256 := by
  have hsz : fullTableParser.log_size = 383 := by
    unfold fullTableParser initParser LogParser.log_size fullTableLog
    exact List.length_replicate 383 128
  have hL : fullTableParser.fmt_length = 128 := rfl
  unfold fmtOccurrences
  rw [hsz, hL]
  show List.filter (isFmtOccurrence fullTableParser) (List.range 256) = List.range 256
  rw [List.filter_eq_self]
  intro i hi
  exact fullTableParser_occurrence (List.mem_range.mp hi)

/-- C16 (format table cap and overflow warning), at the failing input: on the
log of 383 bytes 128 with header `(128, 128)` there are exactly 256 valid FMT
occurrences (not more than 256), all 256 are in the table, and the build
succeeds with the warning raised. -/
theorem overflow_warning_at_256_occurrences :
    (fmtOccurrences fullTableParser).length = 256 ∧
    findFmtLength (initParser fullTableLog 128 128) = .ok (1, fullTableParser) ∧
    ∃ p, buildFormatTable fullTableLog 128 128 = .ok (some (true, p)) ∧
      p.fmt_messages.length = 256 := by
  have hsz : fullTableParser.log_size = 383 := by
    unfold fullTableParser initParser LogParser.log_size fullTableLog
    exact List.length_replicate 383 128
  have hL : fullTableParser.fmt_length = 128 := rfl
  have hprobe : findFmtLength (initParser fullTableLog 128 128) = .ok (1, fullTableParser) := by
    have hsz0 : (initParser fullTableLog 128 128).log_size = 383 := by
      unfold initParser LogParser.log_size fullTableLog
      exact List.length_replicate 383 128
    have hd : (initParser fullTableLog 128 128).log_data = fullTableLog := rfl
    have hh0 : (initParser fullTableLog 128 128).header0 = 128 := rfl
    have hh1 : (initParser fullTableLog 128 128).header1 = 128 := rfl
    have hloop : findFmtLoop fullTableLog 128 128 (wrapSub 383 5 + 1) 0 = .ok (some 128) :=
      findFmtLoop_first_match fullTableLog 128 128 0 128
        ⟨fullTableLog_getElem? (by omega), fullTableLog_getElem? (by omega),
          fullTableLog_getElem? (by omega), fullTableLog_getElem? (by omega)⟩
        (fullTableLog_getElem? (by omega)) (by intro j hj; omega) _ 0 (Nat.le_refl 0) (by omega)
    unfold findFmtLength
    rw [hsz0, hd, hh0, hh1, hloop]
    rfl
  have hlen : (fmtOccurrences fullTableParser).length = 256 := by
    rw [fullTableParser_occurrences, List.length_range]
  have htab := parseFmtMessages_spec fullTableParser (by rw [hL]; omega) (by rw [hsz, hL]; omega)
  have hcount : (((fmtOccurrences fullTableParser).take MAX_MSG_TYPES).map
      (fun j => rawFmtRecord fullTableParser.log_data (j + 3))).length = 256 := by
    rw [List.length_map, List.length_take, hlen]
    rfl
  rw [hcount, hlen] at htab
  refine ⟨hlen, hprobe, ?_⟩
  unfold buildFormatTable
  rw [hprobe]
  simp only [Nat.one_ne_zero, if_false]
  rw [htab]
  exact ⟨_, rfl, by simpa using hcount⟩

/-! ## The total count -/

theorem sum_map_set {α : Type} (f : α → Nat) :
    ∀ (l : List α) (k : Nat) (a b : α), l[k]? = some a →
      ((l.set k b).map f).sum + f a = (l.map f).sum + f b := by
  intro l
  induction l with
  | nil => intro k a b h; simp at h
  | cons x rest ih =>
    intro k a b h
    cases k with
    | zero =>
      simp only [List.getElem?_cons_zero, Option.some.injEq] at h
      subst h
      simp only [List.set_cons_zero, List.map_cons, List.sum_cons]
      omega
    | succ n =>
      simp only [List.getElem?_cons_succ] at h
      have := ih n a b h
      simp only [List.set_cons_succ, List.map_cons, List.sum_cons]
      omega

theorem countInv_step {p p' : LogParser} {tbl : Nat → Option Nat} {pos pos' : Nat}
    (hI : CountInv p) (hs : scanStep p tbl pos = .ok (p', pos')) : CountInv p' := by
  rcases scanStep_messages hs with h | ⟨k, md, index, payload, hm, h⟩
  · rw [h]; exact hI
  · obtain ⟨htot, hall⟩ := hI
    have hmd := hall md (List.getElem?_mem hm)
    have hinst := instances_addMessageData hmd.1 index payload
    subst h
    constructor
    · show p.total_msg_count + 1 =
        ((p.messages.set k (addMessageData md index payload)).map
          (fun md => md.instances.length)).sum
      have hsum := sum_map_set (fun md : MessageData => md.instances.length) p.messages k md
        (addMessageData md index payload) hm
      simp only [hinst, List.length_append, List.length_singleton] at hsum
      omega
    · intro md' hmem
      have hmem' : md' ∈ p.messages.set k (addMessageData md index payload) := hmem
      rcases List.mem_or_eq_of_mem_set hmem' with h1 | h1
      · exact hall md' h1
      · subst h1
        constructor
        · show (md.indices ++ [index]).length = (md.data ++ [payload]).length
          simp only [List.length_append, List.length_singleton]
          omega
        · rw [hinst]
          show md.count + 1 = (md.instances ++ [(index, payload)]).length
          simp only [List.length_append, List.length_singleton]
          omega

theorem countInv_fresh (log : List Nat) (h0 h1 : Nat) (fmts : List FmtMessage)
    (fmtLen : Nat) (validIds : List Nat) :
    CountInv { freshParser log h0 h1 fmts fmtLen with
               messages := fmts.map (selectInit validIds) } := by
  have hz : ∀ fmt : FmtMessage, (selectInit validIds fmt).instances = [] := by
    intro fmt
    unfold MessageData.instances
    rw [(selectInit_indices validIds fmt).1]
    rfl
  constructor
  · show 0 = ((fmts.map (selectInit validIds)).map (fun md => md.instances.length)).sum
    rw [List.map_map]
    symm
    apply List.sum_eq_zero
    intro x hx
    obtain ⟨fmt, _, hfx⟩ := List.mem_map.mp hx
    rw [← hfx]
    show (selectInit validIds fmt).instances.length = 0
    rw [hz fmt]
    rfl
  · intro md hmem
    have hmem' : md ∈ fmts.map (selectInit validIds) := hmem
    obtain ⟨fmt, _, hfx⟩ := List.mem_map.mp hmem'
    subst hfx
    obtain ⟨hi, hd, hc⟩ := selectInit_indices validIds fmt
    rw [hz fmt, hi, hd, hc]
    exact ⟨rfl, rfl⟩

/-- C15 (total count): in the result of `parseAllMessages`, `total_msg_count`
is the sum over the format-table entries of the number of instances in the
entry's list; each list has one entry per format, and its `count` is the number
of its instances. -/
theorem total_count_is_sum (fuel : Nat) (log : List Nat) (h0 h1 : Nat)
    (fmts : List FmtMessage) (fmtLen : Nat) (msgFilter : MsgFilter) (r : Nat)
    (R : LogParser)
    (h : parseAllMessages fuel (freshParser log h0 h1 fmts fmtLen) msgFilter = .done (r, R)) :
    R.total_msg_count = (R.messages.map (fun md => md.instances.length)).sum ∧
    ∀ md ∈ R.messages, md.count = md.instances.length := by
  obtain ⟨validIds, _, _, hscan⟩ := parseAllMessages_done h
  have hfst : (setupLoop validIds (freshParser log h0 h1 fmts fmtLen).fmt_messages 0
      (freshParser log h0 h1 fmts fmtLen).messages (fun _ => none)).1 =
      fmts.map (selectInit validIds) := setupLoop_fst_eq validIds fmts _
  rw [hfst] at hscan
  obtain ⟨_, hR, _⟩ := scanLoop_inv (fun p _ => CountInv p)
    (fun p pos p' pos' hI _ hs => countInv_step hI hs) fuel _ 0 R
    (countInv_fresh log h0 h1 fmts fmtLen validIds) hscan
  exact ⟨hR.1, fun md hmd => (hR.2 md hmd).2⟩

theorem total_count_is_sum_witness :
    parseAllMessages 10 (freshParser twoRecordLog 163 149 exampleFmts 89) .absent =
      .done (1, twoRecordResult) ∧
    twoRecordResult.total_msg_count =
      (twoRecordResult.messages.map (fun md => md.instances.length)).sum ∧
    ∀ md ∈ twoRecordResult.messages, md.count = md.instances.length :=
  ⟨twoRecordLog_scan,
    total_count_is_sum 10 twoRecordLog 163 149 exampleFmts 89 .absent 1 twoRecordResult
      twoRecordLog_scan⟩

/-! ## The recorded offset -/

/-- C13 (what `byte_offset` locates), as the code has it: on a log shorter than
`2 ^ 64`, every offset recorded in the list of format entry `k` is at least 1
and is the position of the second header byte of the instance's frame: the log
holds `header0` at `off - 1`, `header1` at `off`, and the type id of entry `k`
at `off + 1`. -/
theorem byte_offset_locates_header1 (fuel : Nat) (log : List Nat) (h0 h1 : Nat)
    (fmts : List FmtMessage) (fmtLen : Nat) (msgFilter : MsgFilter) (r : Nat)
    (R : LogParser) (k : Nat) (fmt : FmtMessage) (md : MessageData)
    (hlen : log.length < SIZE_MOD)
    (h : parseAllMessages fuel (freshParser log h0 h1 fmts fmtLen) msgFilter = .done (r, R))
    (hf : fmts[k]? = some fmt) (hm : R.messages[k]? = some md) :
    ∀ off ∈ md.indices, 1 ≤ off ∧ log[off - 1]? = some h0 ∧ log[off]? = some h1 ∧
      log[off + 1]? = some fmt.type := by
  obtain ⟨validIds, pos', _, _, hR⟩ := parseAllMessages_scanInv hlen h
  obtain ⟨hl, _, hfr, _, _⟩ := hR.entries k md hm
  intro off ho
  obtain ⟨payload, hx⟩ := exists_mem_zip_of_mem md.indices md.data hl off ho
  obtain ⟨_, pos, hop, hb0, hb1, hid, _, _, _⟩ := framed_type hf (hfr (off, payload) hx)
  have hop' : off = pos + 1 := hop
  subst hop'
  exact ⟨by omega, hb0, hb1, hid⟩

theorem byte_offset_locates_header1_witness :
    twoRecordLog.length < SIZE_MOD ∧
    parseAllMessages 10 (freshParser twoRecordLog 163 149 exampleFmts 89) .absent =
      .done (1, twoRecordResult) ∧
    ∀ off ∈ [1, 13], 1 ≤ off ∧ twoRecordLog[off - 1]? = some 163 ∧
      twoRecordLog[off]? = some 149 ∧ twoRecordLog[off + 1]? = some 5 :=
  ⟨by decide, twoRecordLog_scan,
    byte_offset_locates_header1 10 twoRecordLog 163 149 exampleFmts 89 .absent 1
      twoRecordResult 0 _ _ (by decide) twoRecordLog_scan rfl rfl⟩

/-- C13 as stated fails on `exampleLog`: the one instance of type 5 is recorded
at offset 90, where the log holds the second header byte 149, not the type id 5
(which stands at offset 91). -/
theorem byte_offset_counterexample :
    ∃ R fmt md off, parse 100 exampleLog 163 149 .absent = .done (some R) ∧
      R.fmt_messages[0]? = some fmt ∧ R.messages[0]? = some md ∧ off ∈ md.indices ∧
      fmt.type = 5 ∧ exampleLog[off]? = some 149 ∧ exampleLog[off + 1]? = some 5 ∧
      ¬ (exampleLog[off]? = some fmt.type) :=
  ⟨exampleResult, _, _, 90, exampleLog_parse, rfl, rfl, by decide, rfl, by decide, by decide,
    by decide⟩

/-! ## Duplicate type ids -/

theorem validatedInv_step {log : List Nat} {h0 h1 : Nat} {fmts : List FmtMessage}
    {tbl : Nat → Option Nat} (hlen : log.length < SIZE_MOD)
    (p : LogParser) (pos : Nat) (p' : LogParser) (pos' : Nat)
    (hI : ScanInv log h0 h1 fmts tbl p pos) (hV : ValidatedInv log h0 h1 fmts p)
    (hs : scanStep p tbl pos = .ok (p', pos')) : ValidatedInv log h0 h1 fmts p' := by
  have hlen' : p.log_size < SIZE_MOD := by
    unfold LogParser.log_size; rw [hI.log_eq]; exact hlen
  rcases scanStep_cases hlen' hs with ⟨h1', _, _⟩ |
    ⟨k, fmt, md, id, _, _, _, _, hf, hm, _, _, _, hv, hp', _⟩
  · subst h1'; exact hV
  · subst hp'
    intro k' md' fmt' hm' hf' off ho
    have hm2 : (p.messages.set k (addMessageData md (pos + 1)
        ((p.log_data.drop (pos + 3)).take (fmt.length - 3))))[k']? = some md' := hm'
    by_cases hkk : k = k'
    · subst hkk
      rw [List.getElem?_set_self (lt_of_getElem?_eq_some hm)] at hm2
      simp only [Option.some.injEq] at hm2
      subst hm2
      rw [hI.fmts_eq, hf'] at hf
      simp only [Option.some.injEq] at hf
      subst hf
      have ho' : off ∈ md.indices ++ [pos + 1] := ho
      rcases List.mem_append.mp ho' with ho1 | ho1
      · exact hV k md fmt' hm hf' off ho1
      · simp only [List.mem_singleton] at ho1
        refine ⟨pos, ho1, ?_⟩
        have hc : isValidMessage pos fmt'.type fmt'.length (initParser log h0 h1) =
            isValidMessage pos fmt'.type fmt'.length p :=
          @isValidMessage_congr p (initParser log h0 h1) hI.log_eq.symm
            hI.h0_eq.symm hI.h1_eq.symm pos fmt'.type fmt'.length
        rw [hc]
        exact hv
    · rw [List.getElem?_set_ne hkk] at hm2
      exact hV k' md' fmt' hm2 hf' off ho

theorem parseAllMessages_validated {fuel : Nat} {log : List Nat} {h0 h1 : Nat}
    {fmts : List FmtMessage} {fmtLen : Nat} {msgFilter : MsgFilter} {r : Nat}
    {R : LogParser} (hlen : log.length < SIZE_MOD)
    (h : parseAllMessages fuel (freshParser log h0 h1 fmts fmtLen) msgFilter = .done (r, R)) :
    ∃ validIds pos,
      validateMessageFilter msgFilter (freshParser log h0 h1 fmts fmtLen) = .ok (1, validIds) ∧
      ScanInv log h0 h1 fmts (lookupLast validIds fmts 0) R pos ∧
      ValidatedInv log h0 h1 fmts R := by
  obtain ⟨validIds, hv, _, hs⟩ := parseAllMessages_done h
  have hfm : (freshParser log h0 h1 fmts fmtLen).fmt_messages = fmts := rfl
  have hms : (freshParser log h0 h1 fmts fmtLen).messages =
      List.replicate fmts.length zeroMessageData := rfl
  rw [hfm, hms, setupLoop_snd_eq, setupLoop_fst_eq] at hs
  have hfresh : ValidatedInv log h0 h1 fmts
      { freshParser log h0 h1 fmts fmtLen with messages := fmts.map (selectInit validIds) } := by
    intro k md fmt hm _ off ho
    have hm2 : (fmts.map (selectInit validIds))[k]? = some md := hm
    simp only [List.getElem?_map, Option.map_eq_some'] at hm2
    obtain ⟨fmt', _, hmd⟩ := hm2
    rw [← hmd, (selectInit_indices validIds fmt').1] at ho
    cases ho
  obtain ⟨pos, hR, _⟩ := scanLoop_inv
    (fun p pos => ScanInv log h0 h1 fmts (lookupLast validIds fmts 0) p pos ∧
      ValidatedInv log h0 h1 fmts p)
    (fun p pos p' pos' hI _ hs =>
      ⟨scanInv_step hlen p pos p' pos' hI.1 hs, validatedInv_step hlen p pos p' pos' hI.1 hI.2 hs⟩)
    fuel _ 0 R
    ⟨scanInv_fresh log h0 h1 fmts fmtLen validIds (lookupLast validIds fmts 0), hfresh⟩ hs
  exact ⟨validIds, pos, hv, hR.1, hR.2⟩

/-- The cell of the lookup table for the type of a selected format that no
later selected format shares holds the index of that format. -/
theorem lookupLast_last {validIds : List Nat} {fmts : List FmtMessage} {k : Nat}
    {fk : FmtMessage} (hfk : fmts[k]? = some fk) (hsel : shouldParse validIds fk = true)
    (hlast : ∀ (k' : Nat) (fmt' : FmtMessage), k < k' → fmts[k']? = some fmt' →
      fmt'.type = fk.type → shouldParse validIds fmt' = false) :
    lookupLast validIds fmts 0 fk.type = some k := by
  cases hl : lookupLast validIds fmts 0 fk.type with
  | none => exact absurd hl (lookupLast_ne_none validIds fk hsel fmts 0 k hfk)
  | some k0 =>
    obtain ⟨j, f, hk0, hfj, hty, hselj, hlater⟩ := lookupLast_some validIds fmts 0 fk.type k0 hl
    have hk0' : k0 = j := by omega
    subst hk0'
    rcases Nat.lt_trichotomy k0 k with hlt | heq | hgt
    · have := hlater k fk hlt hfk rfl
      rw [hsel] at this
      cases this
    · rw [heq]
    · have := hlast k0 f hgt hfj hty
      rw [hselj] at this
      cases this

/-- C17 (last-write-wins dispatch on duplicate type ids): on a log shorter than
`2 ^ 64`, let entries `j < k` of the format table have the same type id, with
`k` selected and the last selected entry of that id.  Then the lookup table the
set-up loop builds maps the id to `k`; the list of entry `j` is empty in the
result; every instance in the list of entry `k` stands at a frame with that id,
was validated with the record length of entry `k`, fits in the log with that
length and has a payload of that length less 3; and every instance of any list
whose frame holds that id is in the list of entry `k`. -/
theorem last_write_wins (fuel : Nat) (log : List Nat) (h0 h1 : Nat)
    (fmts : List FmtMessage) (fmtLen : Nat) (msgFilter : MsgFilter) (validIds : List Nat)
    (r : Nat) (R : LogParser) (j k : Nat) (fj fk : FmtMessage)
    (hlen : log.length < SIZE_MOD)
    (hv : validateMessageFilter msgFilter (freshParser log h0 h1 fmts fmtLen) =
      .ok (1, validIds))
    (h : parseAllMessages fuel (freshParser log h0 h1 fmts fmtLen) msgFilter = .done (r, R))
    (hfj : fmts[j]? = some fj) (hfk : fmts[k]? = some fk) (hjk : j < k)
    (hty : fj.type = fk.type) (hsel : shouldParse validIds fk = true)
    (hlast : ∀ (k' : Nat) (fmt' : FmtMessage), k < k' → fmts[k']? = some fmt' →
      fmt'.type = fk.type → shouldParse validIds fmt' = false) :
    (setupLoop validIds fmts 0 (List.replicate fmts.length zeroMessageData)
      (fun _ => none)).2 fk.type = some k ∧
    (∀ md, R.messages[j]? = some md → md.indices = [] ∧ md.instances = []) ∧
    (∀ md, R.messages[k]? = some md → ∀ x ∈ md.instances, ∃ pos, x.1 = pos + 1 ∧
      log[pos]? = some h0 ∧ log[pos + 1]? = some h1 ∧ log[pos + 2]? = some fk.type ∧
      isValidMessage pos fk.type fk.length (initParser log h0 h1) = .ok true ∧
      pos + fk.length ≤ log.length ∧
      x.2 = (log.drop (pos + 3)).take (fk.length - 3)) ∧
    (∀ (k' : Nat) (md : MessageData), R.messages[k']? = some md → ∀ x ∈ md.instances,
      log[x.1 + 1]? = some fk.type → k' = k) := by
  obtain ⟨validIds', pos', hv', hR, hV⟩ := parseAllMessages_validated hlen h
  rw [hv] at hv'
  simp only [Except.ok.injEq, Prod.mk.injEq, true_and] at hv'
  subst hv'
  have htbl := lookupLast_last hfk hsel hlast
  have hown : ∀ (k' : Nat) (md : MessageData), R.messages[k']? = some md →
      ∀ x ∈ md.instances, log[x.1 + 1]? = some fk.type → k' = k := by
    intro k' md hm x hx hid
    obtain ⟨_, _, hfr, _, _⟩ := hR.entries k' md hm
    obtain ⟨pos, fmt, id, ho, _, _, _, hid', ht, _, _, _⟩ := hfr x hx
    rw [ho, hid'] at hid
    simp only [Option.some.injEq] at hid
    rw [hid, htbl] at ht
    simp only [Option.some.injEq] at ht
    exact ht.symm
  refine ⟨?_, ?_, ?_, hown⟩
  · rw [setupLoop_snd_eq]; exact htbl
  · intro md hm
    obtain ⟨hl, _, hfr, _, _⟩ := hR.entries j md hm
    have hnil : md.indices = [] := by
      cases hi : md.indices with
      | nil => rfl
      | cons off rest =>
        obtain ⟨payload, hx⟩ := exists_mem_zip_of_mem md.indices md.data hl off
          (by rw [hi]; exact List.mem_cons_self off rest)
        obtain ⟨_, pos, ho, _, _, hid, _, _, _⟩ := framed_type hfj (hfr (off, payload) hx)
        have ho' : off = pos + 1 := ho
        have := hown j md hm (off, payload) hx (by
          show log[off + 1]? = some fk.type
          rw [ho', ← hty]; exact hid)
        omega
    refine ⟨hnil, ?_⟩
    unfold MessageData.instances
    rw [hnil]
    rfl
  · intro md hm x hx
    obtain ⟨hl, _, hfr, _, _⟩ := hR.entries k md hm
    obtain ⟨_, pos, ho, hb0, hb1, hid, hfit, _, hp⟩ := framed_type hfk (hfr x hx)
    have hmem : x.1 ∈ md.indices := (List.of_mem_zip hx).1
    obtain ⟨pos2, ho2, hval⟩ := hV k md fk hm hfk x.1 hmem
    have hpp : pos2 = pos := by omega
    subst hpp
    exact ⟨pos2, ho, hb0, hb1, hid, hval, hfit, hp⟩

theorem dupFmts_scan :
    parseAllMessages 10 (freshParser twoRecordLog 163 149 dupFmts 89) .absent =
      .done (1, dupResult) := by rfl

theorem last_write_wins_witness :
    twoRecordLog.length < SIZE_MOD ∧
    (setupLoop [] dupFmts 0 (List.replicate dupFmts.length zeroMessageData)
      (fun _ => none)).2 5 = some 1 ∧
    (∀ md, dupResult.messages[0]? = some md → md.indices = [] ∧ md.instances = []) ∧
    (∀ md, dupResult.messages[1]? = some md → ∀ x ∈ md.instances, ∃ pos, x.1 = pos + 1 ∧
      twoRecordLog[pos]? = some 163 ∧ twoRecordLog[pos + 1]? = some 149 ∧
      twoRecordLog[pos + 2]? = some 5 ∧
      isValidMessage pos 5 12 (initParser twoRecordLog 163 149) = .ok true ∧
      pos + 12 ≤ twoRecordLog.length ∧
      x.2 = (twoRecordLog.drop (pos + 3)).take (12 - 3)) ∧
    (∀ (k' : Nat) (md : MessageData), dupResult.messages[k']? = some md →
      ∀ x ∈ md.instances, twoRecordLog[x.1 + 1]? = some 5 → k' = 1) :=
  ⟨by decide,
    last_write_wins 10 twoRecordLog 163 149 dupFmts 89 .absent [] 1 dupResult 0 1 _ _
      (by decide) rfl dupFmts_scan rfl rfl (by decide) rfl rfl
      (by
        intro k' fmt' hk hf
        have := lt_of_getElem?_eq_some hf
        have hl : dupFmts.length = 2 := rfl
        omega)⟩

/-! ## Extracted records do not overlap -/

theorem disjointInv_step {log : List Nat} {h0 h1 : Nat} {fmts : List FmtMessage}
    {tbl : Nat → Option Nat} (hlen : log.length < SIZE_MOD)
    (p : LogParser) (pos : Nat) (p' : LogParser) (pos' : Nat)
    (hI : ScanInv log h0 h1 fmts tbl p pos) (hD : DisjointInv fmts p pos)
    (hs : scanStep p tbl pos = .ok (p', pos')) : DisjointInv fmts p' pos' := by
  have hlen' : p.log_size < SIZE_MOD := by
    unfold LogParser.log_size; rw [hI.log_eq]; exact hlen
  obtain ⟨hend, hpw, hcross⟩ := hD
  rcases scanStep_cases hlen' hs with ⟨h1', h2, _⟩ |
    ⟨k, fmt, md, id, _, _, _, _, hf, hm, _, _, _, _, hp', hpos'⟩
  · subst h1' h2
    refine ⟨?_, hpw, hcross⟩
    intro k md fmt hm hf off ho
    have := hend k md fmt hm hf off ho
    omega
  · subst hp' hpos'
    rw [hI.fmts_eq] at hf
    have hset : ∀ (k' : Nat) (md' : MessageData),
        (p.messages.set k (addMessageData md (pos + 1)
          ((p.log_data.drop (pos + 3)).take (fmt.length - 3))))[k']? = some md' →
        (k' = k ∧ md'.indices = md.indices ++ [pos + 1]) ∨
        (k' ≠ k ∧ p.messages[k']? = some md') := by
      intro k' md' hm'
      by_cases hkk : k = k'
      · subst hkk
        rw [List.getElem?_set_self (lt_of_getElem?_eq_some hm)] at hm'
        simp only [Option.some.injEq] at hm'
        subst hm'
        exact Or.inl ⟨rfl, rfl⟩
      · rw [List.getElem?_set_ne hkk] at hm'
        exact Or.inr ⟨fun h => hkk h.symm, hm'⟩
    have hold : ∀ (k' : Nat) (md' : MessageData) (fmt' : FmtMessage),
        p.messages[k']? = some md' → fmts[k']? = some fmt' → ∀ off ∈ md'.indices,
        1 ≤ off ∧ off + fmt'.length ≤ pos + 1 := by
      intro k' md' fmt' hm' hf' off ho
      have := hend k' md' fmt' hm' hf' off ho
      omega
    refine ⟨?_, ?_, ?_⟩
    · intro k' md' fmt' hm' hf' off ho
      rcases hset k' md' hm' with ⟨hk, hind⟩ | ⟨_, hm2⟩
      · subst hk
        rw [hf] at hf'
        simp only [Option.some.injEq] at hf'
        subst hf'
        rw [hind] at ho
        rcases List.mem_append.mp ho with ho1 | ho1
        · have := hend k' md fmt hm hf off ho1
          omega
        · simp only [List.mem_singleton] at ho1
          omega
      · have := hend k' md' fmt' hm2 hf' off ho
        omega
    · intro k' md' fmt' hm' hf'
      rcases hset k' md' hm' with ⟨hk, hind⟩ | ⟨_, hm2⟩
      · subst hk
        rw [hf] at hf'
        simp only [Option.some.injEq] at hf'
        subst hf'
        rw [hind, List.pairwise_append]
        refine ⟨hpw k' md fmt hm hf, List.pairwise_singleton _ _, ?_⟩
        intro a ha b hb
        simp only [List.mem_singleton] at hb
        have := hold k' md fmt hm hf a ha
        omega
      · exact hpw k' md' fmt' hm2 hf'
    · intro k1 k2 md1 md2 fmt1 fmt2 hne hm1 hm2 hf1 hf2 off1 ho1 off2 ho2
      rcases hset k1 md1 hm1 with ⟨hk1, hind1⟩ | ⟨hk1, hm1'⟩
      · rcases hset k2 md2 hm2 with ⟨hk2, _⟩ | ⟨_, hm2'⟩
        · omega
        · subst hk1
          rw [hf] at hf1
          simp only [Option.some.injEq] at hf1
          subst hf1
          rw [hind1] at ho1
          rcases List.mem_append.mp ho1 with ho1' | ho1'
          · exact hcross k1 k2 md md2 fmt fmt2 hne hm hm2' hf hf2 off1 ho1' off2 ho2
          · simp only [List.mem_singleton] at ho1'
            have := hold k2 md2 fmt2 hm2' hf2 off2 ho2
            right; omega
      · rcases hset k2 md2 hm2 with ⟨hk2, hind2⟩ | ⟨_, hm2'⟩
        · subst hk2
          rw [hf] at hf2
          simp only [Option.some.injEq] at hf2
          subst hf2
          rw [hind2] at ho2
          rcases List.mem_append.mp ho2 with ho2' | ho2'
          · exact hcross k1 k2 md1 md fmt1 fmt hne hm1' hm hf1 hf off1 ho1 off2 ho2'
          · simp only [List.mem_singleton] at ho2'
            have := hold k1 md1 fmt1 hm1' hf1 off1 ho1
            left; omega
        · exact hcross k1 k2 md1 md2 fmt1 fmt2 hne hm1' hm2' hf1 hf2 off1 ho1 off2 ho2

theorem parseAllMessages_disjoint {fuel : Nat} {log : List Nat} {h0 h1 : Nat}
    {fmts : List FmtMessage} {fmtLen : Nat} {msgFilter : MsgFilter} {r : Nat}
    {R : LogParser} (hlen : log.length < SIZE_MOD)
    (h : parseAllMessages fuel (freshParser log h0 h1 fmts fmtLen) msgFilter = .done (r, R)) :
    ∃ pos, DisjointInv fmts R pos := by
  obtain ⟨validIds, hv, _, hs⟩ := parseAllMessages_done h
  have hfm : (freshParser log h0 h1 fmts fmtLen).fmt_messages = fmts := rfl
  have hms : (freshParser log h0 h1 fmts fmtLen).messages =
      List.replicate fmts.length zeroMessageData := rfl
  rw [hfm, hms, setupLoop_snd_eq, setupLoop_fst_eq] at hs
  have hnil : ∀ (k : Nat) (md : MessageData),
      (fmts.map (selectInit validIds))[k]? = some md → md.indices = [] := by
    intro k md hm
    simp only [List.getElem?_map, Option.map_eq_some'] at hm
    obtain ⟨fmt', _, hmd⟩ := hm
    rw [← hmd]
    exact (selectInit_indices validIds fmt').1
  have hfresh : DisjointInv fmts
      { freshParser log h0 h1 fmts fmtLen with messages := fmts.map (selectInit validIds) }
      0 := by
    refine ⟨?_, ?_, ?_⟩
    · intro k md fmt hm _ off ho
      rw [hnil k md hm] at ho
      cases ho
    · intro k md fmt hm _
      rw [hnil k md hm]
      exact List.Pairwise.nil
    · intro k1 k2 md1 md2 fmt1 fmt2 _ hm1 _ _ _ off1 ho1
      rw [hnil k1 md1 hm1] at ho1
      cases ho1
  obtain ⟨pos, hR, _⟩ := scanLoop_inv
    (fun p pos => ScanInv log h0 h1 fmts (lookupLast validIds fmts 0) p pos ∧
      DisjointInv fmts p pos)
    (fun p pos p' pos' hI _ hs =>
      ⟨scanInv_step hlen p pos p' pos' hI.1 hs, disjointInv_step hlen p pos p' pos' hI.1 hI.2 hs⟩)
    fuel _ 0 R
    ⟨scanInv_fresh log h0 h1 fmts fmtLen validIds (lookupLast validIds fmts 0), hfresh⟩ hs
  exact ⟨pos, hR.2⟩

/-- C19 (extracted records never overlap): on a log shorter than `2 ^ 64`, take
two distinct instances of the result of `parseAllMessages`, cell `i1` of the
list of entry `k1` and cell `i2` of the list of entry `k2`, recorded at `off1`
and `off2`.  Their records start at `off1 - 1` and `off2 - 1`, and one ends at
or before the start of the other; the one with the smaller offset, which was
extracted first, is the one that ends first. -/
theorem records_never_overlap (fuel : Nat) (log : List Nat) (h0 h1 : Nat)
    (fmts : List FmtMessage) (fmtLen : Nat) (msgFilter : MsgFilter) (r : Nat)
    (R : LogParser) (k1 k2 : Nat) (md1 md2 : MessageData) (fmt1 fmt2 : FmtMessage)
    (i1 i2 off1 off2 : Nat)
    (hlen : log.length < SIZE_MOD)
    (h : parseAllMessages fuel (freshParser log h0 h1 fmts fmtLen) msgFilter = .done (r, R))
    (hm1 : R.messages[k1]? = some md1) (hm2 : R.messages[k2]? = some md2)
    (hf1 : fmts[k1]? = some fmt1) (hf2 : fmts[k2]? = some fmt2)
    (ho1 : md1.indices[i1]? = some off1) (ho2 : md2.indices[i2]? = some off2)
    (hne : k1 ≠ k2 ∨ i1 ≠ i2) :
    1 ≤ off1 ∧ 1 ≤ off2 ∧
    (off1 - 1 + fmt1.length ≤ off2 - 1 ∨ off2 - 1 + fmt2.length ≤ off1 - 1) ∧
    (off1 < off2 → off1 - 1 + fmt1.length ≤ off2 - 1) := by
  obtain ⟨pos, hend, hpw, hcross⟩ := parseAllMessages_disjoint hlen h
  have hmem1 : off1 ∈ md1.indices := List.getElem?_mem ho1
  have hmem2 : off2 ∈ md2.indices := List.getElem?_mem ho2
  have hb1 := hend k1 md1 fmt1 hm1 hf1 off1 hmem1
  have hb2 := hend k2 md2 fmt2 hm2 hf2 off2 hmem2
  have hdis : off1 + fmt1.length ≤ off2 ∨ off2 + fmt2.length ≤ off1 := by
    by_cases hk : k1 = k2
    · subst hk
      rw [hm1] at hm2
      simp only [Option.some.injEq] at hm2
      subst hm2
      rw [hf1] at hf2
      simp only [Option.some.injEq] at hf2
      subst hf2
      have hi : i1 ≠ i2 := by
        rcases hne with hne | hne
        · exact absurd rfl hne
        · exact hne
      have hp := List.pairwise_iff_getElem.mp (hpw k1 md1 fmt1 hm1 hf1)
      obtain ⟨hl1, he1⟩ := List.getElem?_eq_some.mp ho1
      obtain ⟨hl2, he2⟩ := List.getElem?_eq_some.mp ho2
      rcases Nat.lt_or_gt_of_ne hi with hlt | hgt
      · left
        have := hp i1 i2 hl1 hl2 hlt
        rw [he1, he2] at this
        exact this
      · right
        have := hp i2 i1 hl2 hl1 hgt
        rw [he1, he2] at this
        exact this
    · exact hcross k1 k2 md1 md2 fmt1 fmt2 hk hm1 hm2 hf1 hf2 off1 hmem1 off2 hmem2
  refine ⟨hb1.1, hb2.1, ?_, ?_⟩
  · rcases hdis with hd | hd
    · left; omega
    · right; omega
  · intro hlt
    rcases hdis with hd | hd
    · omega
    · omega

theorem records_never_overlap_witness :
    twoRecordLog.length < SIZE_MOD ∧
    parseAllMessages 10 (freshParser twoRecordLog 163 149 exampleFmts 89) .absent =
      .done (1, twoRecordResult) ∧
    1 ≤ 1 ∧ 1 ≤ 13 ∧ (1 - 1 + 12 ≤ 13 - 1 ∨ 13 - 1 + 12 ≤ 1 - 1) ∧
    (1 < 13 → 1 - 1 + 12 ≤ 13 - 1) :=
  ⟨by decide, twoRecordLog_scan,
    records_never_overlap 10 twoRecordLog 163 149 exampleFmts 89 .absent 1 twoRecordResult
      0 0 _ _ { type := 5, length := 12, name := [84, 69, 83, 84], format := List.replicate 16 0,
                labels := List.replicate 64 0 }
      { type := 5, length := 12, name := [84, 69, 83, 84], format := List.replicate 16 0,
        labels := List.replicate 64 0 } 0 1 1 13
      (by decide) twoRecordLog_scan rfl rfl rfl rfl rfl rfl (Or.inr (by decide))⟩

/-! ## Declared record lengths below 3 -/

set_option maxRecDepth 100000 in
theorem zeroLenLog_parse : parse 100 zeroLenLog 163 149 .absent = .fault .outOfRange := by rfl

/-- C18 (the scan always terminates and reports success) fails when a selected
format declares a record length below 3: the record is accepted, `data_len =
length - 3` wraps in `size_t`, and the copy of about `2 ^ 64` bytes cannot be
served, so the main pass does not report success, with any fuel.  Shown for
the lengths 0, 1 and 2, and for the log `zeroLenLog`, whose own FMT record
declares the length 0. -/
theorem short_record_length_faults (fuel : Nat) :
    parseAllMessages (fuel + 1)
      (freshParser [163, 149, 5, 1, 2, 3] 163 149 (shortLenFmts 5 0) 89) .absent =
        .fault .outOfRange ∧
    parseAllMessages (fuel + 1)
      (freshParser [7, 7, 7, 7, 7, 7] 7 7 (shortLenFmts 7 1) 89) .absent =
        .fault .outOfRange ∧
    parseAllMessages (fuel + 1)
      (freshParser [163, 149, 163, 149, 163, 149] 163 149 (shortLenFmts 163 2) 89) .absent =
        .fault .outOfRange ∧
    parseAllMessages 0
      (freshParser [163, 149, 5, 1, 2, 3] 163 149 (shortLenFmts 5 0) 89) .absent =
        .outOfFuel ∧
    parse 100 zeroLenLog 163 149 .absent = .fault .outOfRange :=
  ⟨by rfl, by rfl, by rfl, by rfl, zeroLenLog_parse⟩

/-! ## The round-trip scenario -/

theorem scanLoop_succ (tbl : Nat → Option Nat) (fuel : Nat) (p : LogParser) (pos : Nat) :
    scanLoop tbl (fuel + 1) p pos =
      if pos < wrapSub p.log_size 2 then
        match scanStep p tbl pos with
        | .error f => .fault f
        | .ok (p', pos') => scanLoop tbl fuel p' pos'
      else .done p := rfl

theorem scanStep_skip {p : LogParser} {tbl : Nat → Option Nat} {pos b : Nat}
    (hb : p.log_data[pos]? = some b) (hne : b ≠ p.header0) (hlt : pos + 1 < SIZE_MOD) :
    scanStep p tbl pos = .ok (p, pos + 1) := by
  unfold scanStep
  simp only [readByte_of_getElem? hb]
  rw [if_neg hne, wrapAdd_of_lt hlt]

theorem scanStep_unknown {p : LogParser} {tbl : Nat → Option Nat} {pos id : Nat}
    (hb0 : p.log_data[pos]? = some p.header0) (hb1 : p.log_data[pos + 1]? = some p.header1)
    (hid : p.log_data[pos + 2]? = some id) (ht : tbl id = none) (hlt : pos + 1 < SIZE_MOD) :
    scanStep p tbl pos = .ok (p, pos + 1) := by
  unfold scanStep
  simp only [readByte_of_getElem? hb0, readByte_of_getElem? hb1, if_true]
  unfold dispatch
  simp only [readByte_of_getElem? hid, ht]
  rw [wrapAdd_of_lt hlt]

/-- The main pass over `n` positions at which it only moves on by one byte. -/
theorem scanLoop_skips {tbl : Nat → Option Nat} (p : LogParser) :
    ∀ (n fuel pos : Nat), pos + n ≤ wrapSub p.log_size 2 →
      (∀ i, pos ≤ i → i < pos + n → scanStep p tbl i = .ok (p, i + 1)) →
      scanLoop tbl (fuel + n) p pos = scanLoop tbl fuel p (pos + n) := by
  intro n
  induction n with
  | zero => intro fuel pos _ _; rfl
  | succ m ih =>
    intro fuel pos hle hstep
    have e1 : fuel + (m + 1) = (fuel + m) + 1 := by omega
    have e2 : pos + (m + 1) = pos + 1 + m := by omega
    rw [e1, scanLoop_succ, if_pos (by omega), hstep pos (Nat.le_refl pos) (by omega), e2]
    exact ih fuel (pos + 1) (by omega) (fun i h1 h2 => hstep i (by omega) (by omega))

theorem roundTripLog_length {pad payload : List Nat} (hpad : pad.length = 80)
    (hpay : payload.length = 9) : (roundTripLog pad payload).length = 101 := by
  unfold roundTripLog
  simp only [List.length_append, List.length_cons, List.length_nil, hpad, hpay]

theorem roundTripLog_frame {pad payload : List Nat} (hpad : pad.length = 80) :
    (roundTripLog pad payload)[89]? = some 163 ∧ (roundTripLog pad payload)[90]? = some 149 ∧
      (roundTripLog pad payload)[91]? = some 5 := by
  have h := getElem?_append_cons3 ([163, 149, 128, 5, 12, 84, 69, 83, 84] ++ pad) payload 163 149 5
  have hl : ([163, 149, 128, 5, 12, 84, 69, 83, 84] ++ pad).length = 89 := by
    simp only [List.length_append, List.length_cons, List.length_nil, hpad]
  have he : roundTripLog pad payload =
      ([163, 149, 128, 5, 12, 84, 69, 83, 84] ++ pad) ++ 163 :: 149 :: 5 :: payload := by
    unfold roundTripLog; simp
  rw [hl] at h
  rw [he]
  exact h

/-- The byte 163 stands only at the offsets 0 and 89 of the round-trip log. -/
theorem roundTripLog_header {pad payload : List Nat} (hpad : pad.length = 80)
    (hp : ∀ b ∈ pad ++ payload, b ≠ 163) (i : Nat)
    (h : (roundTripLog pad payload)[i]? = some 163) : i = 0 ∨ i = 89 := by
  have he : roundTripLog pad payload =
      [163, 149, 128, 5, 12, 84, 69, 83, 84] ++ (pad ++ ([163, 149, 5] ++ payload)) := by
    unfold roundTripLog; simp
  rw [he] at h
  by_cases h9 : i < 9
  · rw [List.getElem?_append_left (by simpa using h9)] at h
    interval_cases i
    · left; rfl
    all_goals simp at h
  · rw [List.getElem?_append_right (by simpa using h9)] at h
    simp only [List.length_cons, List.length_nil] at h
    by_cases h89 : i - 9 < 80
    · rw [List.getElem?_append_left (by omega)] at h
      exact absurd rfl (hp 163 (List.mem_append_left _ (List.getElem?_mem h)))
    · rw [List.getElem?_append_right (by omega), hpad] at h
      by_cases h92 : i - (0 + 1 + 1 + 1 + 1 + 1 + 1 + 1 + 1 + 1) - 80 < 3
      · rw [List.getElem?_append_left (by simpa using h92)] at h
        have hi : i = 89 ∨ i = 90 ∨ i = 91 := by omega
        rcases hi with hi | hi | hi
        · right; exact hi
        · subst hi; simp at h
        · subst hi; simp at h
      · rw [List.getElem?_append_right (by simpa using h92)] at h
        exact absurd rfl (hp 163 (List.mem_append_right _ (List.getElem?_mem h)))

/-- The probe and the table builder on the round-trip log: the probe finds no
`[163, 149, 128, 128]` and keeps the default 89, and the builder takes the one
FMT record at offset 0. -/
theorem roundTripLog_build {pad payload : List Nat} (hpad : pad.length = 80)
    (hpay : payload.length = 9) (hp : ∀ b ∈ pad ++ payload, b ≠ 163) :
    buildFormatTable (roundTripLog pad payload) 163 149 =
      .ok (some (false, freshParser (roundTripLog pad payload) 163 149
        [rawFmtRecord (roundTripLog pad payload) 3] 89)) := by
  have hlen := roundTripLog_length hpad hpay
  obtain ⟨g89, g90, _⟩ := @roundTripLog_frame pad payload hpad
  have hprobe : findFmtLength (initParser (roundTripLog pad payload) 163 149) =
      .ok (1, { initParser (roundTripLog pad payload) 163 149 with fmt_length := 89 }) := by
    apply findFmtLength_default
    · show 5 ≤ (roundTripLog pad payload).length
      omega
    · intro j hj
      have hj0 : (roundTripLog pad payload)[j]? = some 163 := hj.1
      have hj3 : (roundTripLog pad payload)[j + 3]? = some 128 := hj.2.2.2
      rcases roundTripLog_header hpad hp j hj0 with h0 | h0
      · subst h0
        have : (roundTripLog pad payload)[0 + 3]? = some 5 := rfl
        rw [this] at hj3
        simp at hj3
      · subst h0
        have hj2 : (roundTripLog pad payload)[89 + 2]? = some 128 := hj.2.2.1
        have : (roundTripLog pad payload)[89 + 2]? = some 5 := (roundTripLog_frame hpad).2.2
        rw [this] at hj2
        simp at hj2
  have hfit : 0 + 89 ≤
      ({ initParser (roundTripLog pad payload) 163 149 with fmt_length := 89 } :
        LogParser).log_size := by
    show 0 + 89 ≤ (roundTripLog pad payload).length
    omega
  have hocc0 : isFmtOccurrence
      { initParser (roundTripLog pad payload) 163 149 with fmt_length := 89 } 0 = true := by
    have hpass := (passesFrameCheck_eq
      { initParser (roundTripLog pad payload) 163 149 with fmt_length := 89 } 0 89).1
      (isValidMessage_true hfit (Or.inr ⟨g89, g90⟩))
    unfold isFmtOccurrence
    simp only [Bool.and_eq_true, decide_eq_true_eq]
    exact ⟨⟨rfl, rfl, rfl⟩, hpass⟩
  have hoccs : ∀ i, 1 ≤ i → i < 13 → isFmtOccurrence
      { initParser (roundTripLog pad payload) 163 149 with fmt_length := 89 } i = false := by
    intro i h1 h13
    unfold isFmtOccurrence
    simp only [Bool.and_eq_false_imp, decide_eq_true_eq]
    intro hpat
    have := roundTripLog_header hpad hp i hpat.1
    omega
  have hocc : fmtOccurrences
      { initParser (roundTripLog pad payload) 163 149 with fmt_length := 89 } = [0] := by
    unfold fmtOccurrences
    have h13 : ({ initParser (roundTripLog pad payload) 163 149 with fmt_length := 89 } :
        LogParser).log_size - ({ initParser (roundTripLog pad payload) 163 149 with
          fmt_length := 89 } : LogParser).fmt_length + 1 = 12 + 1 := by
      show (roundTripLog pad payload).length - 89 + 1 = 12 + 1
      omega
    rw [h13, List.range_succ_eq_map, List.filter_cons, hocc0, if_pos rfl]
    congr 1
    rw [List.filter_eq_nil_iff]
    intro a ha
    obtain ⟨i, hi, hia⟩ := List.mem_map.mp ha
    subst hia
    rw [hoccs (i + 1) (by omega) (by have := List.mem_range.mp hi; omega)]
    simp
  have htab := parseFmtMessages_spec
    { initParser (roundTripLog pad payload) 163 149 with fmt_length := 89 }
    (Nat.le_refl 89) (by
      show 89 ≤ (roundTripLog pad payload).length
      omega)
  rw [hocc] at htab
  unfold buildFormatTable
  rw [hprobe]
  simp only [Nat.one_ne_zero, if_false]
  rw [htab]
  rfl

/-- The main pass on the round-trip log: the FMT record is stepped through
byte by byte, the record at offset 89 is taken, and the pass ends. -/
theorem roundTripLog_scan {pad payload : List Nat} (hpad : pad.length = 80)
    (hpay : payload.length = 9) (hp : ∀ b ∈ pad ++ payload, b ≠ 163) (fuel : Nat) :
    scanLoop (lookupLast [] [rawFmtRecord (roundTripLog pad payload) 3] 0) (fuel + 91)
      { freshParser (roundTripLog pad payload) 163 149
          [rawFmtRecord (roundTripLog pad payload) 3] 89 with
        messages := [rawFmtRecord (roundTripLog pad payload) 3].map (selectInit []) } 0 =
      .done
        { freshParser (roundTripLog pad payload) 163 149
            [rawFmtRecord (roundTripLog pad payload) 3] 89 with
          messages := [addMessageData
            (initMessageData (rawFmtRecord (roundTripLog pad payload) 3)) 90 payload]
          total_msg_count := 1 } := by
  have hlen := roundTripLog_length hpad hpay
  obtain ⟨g89, g90, g91⟩ := @roundTripLog_frame pad payload hpad
  generalize hp0 : ({ freshParser (roundTripLog pad payload) 163 149
      [rawFmtRecord (roundTripLog pad payload) 3] 89 with
      messages := [rawFmtRecord (roundTripLog pad payload) 3].map (selectInit []) } :
      LogParser) = p0
  have hlog : p0.log_data = roundTripLog pad payload := by rw [← hp0]; rfl
  have hh0 : p0.header0 = 163 := by rw [← hp0]; rfl
  have hh1 : p0.header1 = 149 := by rw [← hp0]; rfl
  have hfm : p0.fmt_messages = [rawFmtRecord (roundTripLog pad payload) 3] := by rw [← hp0]; rfl
  have hms : p0.messages = [initMessageData (rawFmtRecord (roundTripLog pad payload) 3)] := by
    rw [← hp0]; rfl
  have htot : p0.total_msg_count = 0 := by rw [← hp0]; rfl
  have hsz : p0.log_size = 101 := by
    unfold LogParser.log_size; rw [hlog, hlen]
  have hlt : p0.log_size < SIZE_MOD := by rw [hsz]; decide
  have hw : wrapSub p0.log_size 2 = 99 := by rw [hsz]; exact wrapSub_of_le (by omega)
  have hskip : ∀ i, 0 ≤ i → i < 0 + 89 →
      scanStep p0 (lookupLast [] [rawFmtRecord (roundTripLog pad payload) 3] 0) i =
        .ok (p0, i + 1) := by
    intro i _ hi
    have hi1 : i + 1 < SIZE_MOD := by
      have : (90 : Nat) < SIZE_MOD := by decide
      omega
    by_cases h0 : i = 0
    · subst h0
      apply @scanStep_unknown p0 _ 0 128
      · rw [hlog, hh0]; rfl
      · rw [hlog, hh1]; rfl
      · rw [hlog]; rfl
      · rfl
      · exact hi1
    · have hil : i < (roundTripLog pad payload).length := by omega
      apply @scanStep_skip p0 _ i ((roundTripLog pad payload)[i])
      · rw [hlog]; exact List.getElem?_eq_getElem hil
      · rw [hh0]
        intro hb
        have := roundTripLog_header hpad hp i
          (by rw [List.getElem?_eq_getElem hil, hb])
        omega
      · exact hi1
  have e1 : fuel + 91 = (fuel + 2) + 89 := by omega
  rw [e1, scanLoop_skips p0 89 (fuel + 2) 0 (by rw [hw]; omega) hskip]
  have hfl : (rawFmtRecord (roundTripLog pad payload) 3).length = 12 := rfl
  have hfit : 89 + (rawFmtRecord (roundTripLog pad payload) 3).length ≤ p0.log_size := by
    rw [hfl, hsz]
  have hacc := @scanStep_accept p0 (lookupLast [] [rawFmtRecord (roundTripLog pad payload) 3] 0)
    89 5 0 (rawFmtRecord (roundTripLog pad payload) 3)
    (initMessageData (rawFmtRecord (roundTripLog pad payload) 3)) hlt
    (by rw [hlog, hh0]; exact g89) (by rw [hlog, hh1]; exact g90) (by rw [hlog]; exact g91)
    rfl (by rw [hfm]; rfl) (by rw [hms]; rfl) rfl (by rw [hfl]; omega) hfit
    (isValidMessage_true hfit (Or.inl (by rw [hfl, hsz])))
  have hpayload : (p0.log_data.drop (89 + 3)).take
      ((rawFmtRecord (roundTripLog pad payload) 3).length - 3) = payload := by
    have hd : roundTripLog pad payload =
        ([163, 149, 128, 5, 12, 84, 69, 83, 84] ++ pad ++ [163, 149, 5]) ++ payload := rfl
    rw [hlog, hfl, hd, List.drop_left' (by
      simp only [List.length_append, List.length_cons, List.length_nil, hpad])]
    exact List.take_of_length_le (by omega)
  rw [hpayload, hfl, hms, htot] at hacc
  have e2 : fuel + 2 = (fuel + 1) + 1 := by omega
  rw [e2, scanLoop_succ, if_pos (by rw [hw]; omega), hacc]
  simp only
  rw [scanLoop_succ, if_neg (by
    show ¬ 89 + 12 < wrapSub p0.log_size 2
    rw [hw]; omega)]
  rw [← hp0]
  rfl

/-- C12 (round-trip scenario), with the FMT record of 89 bytes that the layout
needs: for the 101-byte log made of `[0xA3, 0x95, 128, 5, 12, 'T', 'E', 'S',
'T']`, 80 more bytes and the record `[0xA3, 0x95, 5]` with 9 payload bytes,
none of these 89 bytes being `0xA3`, with header `(0xA3, 0x95)`, no filter and
fuel for the 91 iterations, `parse` succeeds; its format table has exactly one
entry, named `TEST`, of type 5 and record length 12, and its one instance is
recorded at offset 90 with the 9 payload bytes. -/
theorem round_trip (pad payload : List Nat) (fuel : Nat) (hpad : pad.length = 80)
    (hpay : payload.length = 9) (hp : ∀ b ∈ pad ++ payload, b ≠ 163) (hfuel : 91 ≤ fuel) :
    ∃ R fmt md, parse fuel (roundTripLog pad payload) 163 149 .absent = .done (some R) ∧
      R.fmt_messages = [fmt] ∧ cstr fmt.name = [84, 69, 83, 84] ∧ fmt.length = 12 ∧
      fmt.type = 5 ∧ R.messages = [md] ∧ md.instances = [(90, payload)] ∧
      R.total_msg_count = 1 := by
  obtain ⟨f, hf⟩ : ∃ f, fuel = f + 91 := ⟨fuel - 91, by omega⟩
  subst hf
  refine ⟨{ freshParser (roundTripLog pad payload) 163 149
              [rawFmtRecord (roundTripLog pad payload) 3] 89 with
            messages := [addMessageData
              (initMessageData (rawFmtRecord (roundTripLog pad payload) 3)) 90 payload]
            total_msg_count := 1 },
    rawFmtRecord (roundTripLog pad payload) 3,
    addMessageData (initMessageData (rawFmtRecord (roundTripLog pad payload) 3)) 90 payload,
    ?_, rfl, rfl, rfl, rfl, rfl, rfl, rfl⟩
  unfold parse
  rw [roundTripLog_build hpad hpay hp]
  simp only
  rw [@parseAllMessages_eq (f + 91) (roundTripLog pad payload) 163 149
    [rawFmtRecord (roundTripLog pad payload) 3] 89 .absent [] rfl,
    roundTripLog_scan hpad hpay hp f]
  rfl

theorem round_trip_witness :
    (List.replicate 80 0).length = 80 ∧ [1, 2, 3, 4, 5, 6, 7, 8, 9].length = 9 ∧
    (∀ b ∈ List.replicate 80 0 ++ [1, 2, 3, 4, 5, 6, 7, 8, 9], b ≠ 163) ∧ 91 ≤ 100 ∧
    ∃ R fmt md,
      parse 100 (roundTripLog (List.replicate 80 0) [1, 2, 3, 4, 5, 6, 7, 8, 9]) 163 149
        .absent = .done (some R) ∧
      R.fmt_messages = [fmt] ∧ cstr fmt.name = [84, 69, 83, 84] ∧ fmt.length = 12 ∧
      fmt.type = 5 ∧ R.messages = [md] ∧
      md.instances = [(90, [1, 2, 3, 4, 5, 6, 7, 8, 9])] ∧ R.total_msg_count = 1 :=
  ⟨by decide, by decide, by decide, by decide,
    round_trip (List.replicate 80 0) [1, 2, 3, 4, 5, 6, 7, 8, 9] 100 (by decide) (by decide)
      (by decide) (by decide)⟩

/-- C12 as stated fails: on the 24-byte log of the specification (padding
zero, payload 1..9) the probe keeps the default length 89, the one candidate at
offset 0 fails the frame check because 89 bytes do not fit in the log, the loop
bound `log_size - fmt_length` wraps in `size_t`, and the table builder reads
outside the log; no format record is built and `parse` does not succeed. -/
theorem round_trip_counterexample :
    (specRoundTripLog [0, 0, 0, 0] [1, 2, 3, 4, 5, 6, 7, 8, 9]).length = 24 ∧
    findFmtLength (initParser (specRoundTripLog [0, 0, 0, 0] [1, 2, 3, 4, 5, 6, 7, 8, 9])
        163 149) =
      .ok (1, { initParser (specRoundTripLog [0, 0, 0, 0] [1, 2, 3, 4, 5, 6, 7, 8, 9])
        163 149 with fmt_length := 89 }) ∧
    isValidMessage 0 FMT_ID 89
      { initParser (specRoundTripLog [0, 0, 0, 0] [1, 2, 3, 4, 5, 6, 7, 8, 9]) 163 149 with
        fmt_length := 89 } = .ok false ∧
    buildFormatTable (specRoundTripLog [0, 0, 0, 0] [1, 2, 3, 4, 5, 6, 7, 8, 9]) 163 149 =
      .error .outOfRange ∧
    parse 100 (specRoundTripLog [0, 0, 0, 0] [1, 2, 3, 4, 5, 6, 7, 8, 9]) 163 149 .absent =
      .fault .outOfRange :=
  ⟨by rfl, by rfl, by rfl, by rfl, by rfl⟩

/-! ## Termination of the main pass -/

/-- On a log shorter than `2 ^ 64` the main pass never runs out of fuel when it
is given one unit more than the bytes left: every iteration that returns moves
`pos` forward, since an accepted record has a length of at least 3. -/
theorem scanLoop_terminates {tbl : Nat → Option Nat} :
    ∀ (fuel : Nat) (p : LogParser) (pos : Nat), p.log_size < SIZE_MOD →
      p.log_size ≤ pos + fuel → scanLoop tbl (fuel + 1) p pos ≠ .outOfFuel := by
  intro fuel
  induction fuel with
  | zero =>
    intro p pos hlt hle
    rw [scanLoop_succ]
    by_cases hc : pos < wrapSub p.log_size 2
    · rw [if_pos hc]
      cases hs : scanStep p tbl pos with
      | error f => simp only; intro h; cases h
      | ok r =>
        obtain ⟨p', pos'⟩ := r
        have := (scanStep_ok hs).1
        omega
    · rw [if_neg hc]; intro h; cases h
  | succ n ih =>
    intro p pos hlt hle
    rw [scanLoop_succ]
    by_cases hc : pos < wrapSub p.log_size 2
    · rw [if_pos hc]
      cases hs : scanStep p tbl pos with
      | error f => simp only; intro h; cases h
      | ok r =>
        obtain ⟨p', pos'⟩ := r
        simp only
        have hsz : p'.log_size = p.log_size ∧ pos < pos' := by
          rcases scanStep_cases hlt hs with ⟨h1, h2, _⟩ | ⟨k, fmt, md, id, _, _, _, _, _, _, _, h3,
            _, _, hp', hpos'⟩
          · rw [h1, h2]; exact ⟨rfl, by omega⟩
          · rw [hp', hpos']; exact ⟨rfl, by omega⟩
        exact ih p' pos' (by rw [hsz.1]; exact hlt) (by rw [hsz.1]; omega)
    · rw [if_neg hc]; intro h; cases h

/-! ## Filter containment -/

/-- Every id that the loop over a name filter adds is the type of the first
format named by some cell, whatever the number of cells. -/
theorem resolveNames_sound (fmts : List FmtMessage) :
    ∀ (items : List (Option (List Nat))) (acc v : List Nat),
      resolveNames fmts items acc = .ok v →
      ∀ t ∈ v, t ∈ acc ∨ ∃ name fmt, some name ∈ items ∧
        findByName name fmts = some fmt ∧ fmt.type = t := by
  intro items
  induction items with
  | nil =>
    intro acc v h t ht
    unfold resolveNames at h
    simp only [Except.ok.injEq] at h
    subst h
    exact Or.inl ht
  | cons item rest ih =>
    intro acc v h t ht
    cases item with
    | none =>
      unfold resolveNames at h
      rcases ih acc v h t ht with h1 | ⟨name, fmt, hn, hf, hty⟩
      · exact Or.inl h1
      · exact Or.inr ⟨name, fmt, List.mem_cons_of_mem _ hn, hf, hty⟩
    | some nm =>
      unfold resolveNames at h
      cases hfind : findByName nm fmts with
      | none =>
        simp only [hfind] at h
        rcases ih acc v h t ht with h1 | ⟨name, fmt, hn, hf, hty⟩
        · exact Or.inl h1
        · exact Or.inr ⟨name, fmt, List.mem_cons_of_mem _ hn, hf, hty⟩
      | some f =>
        simp only [hfind] at h
        unfold pushValidId at h
        by_cases hc : acc.length < MAX_MSG_TYPES
        · rw [if_pos hc] at h
          simp only at h
          rcases ih (acc ++ [f.type]) v h t ht with h1 | ⟨name, fmt, hn, hf, hty⟩
          · rcases List.mem_append.mp h1 with h2 | h2
            · exact Or.inl h2
            · simp only [List.mem_singleton] at h2
              exact Or.inr ⟨nm, f, List.mem_cons_self _ _, hfind, h2.symm⟩
          · exact Or.inr ⟨name, fmt, List.mem_cons_of_mem _ hn, hf, hty⟩
        · rw [if_neg hc] at h
          simp only at h
          cases h

/-- Every id that the loop over an id filter adds is a listed id that some
format declares, whatever the number of ids. -/
theorem resolveIds_sound (fmts : List FmtMessage) :
    ∀ (ids : List Nat) (acc v : List Nat), resolveIds fmts ids acc = .ok v →
      ∀ t ∈ v, t ∈ acc ∨ (t ∈ ids ∧ existsType t fmts = true) := by
  intro ids
  induction ids with
  | nil =>
    intro acc v h t ht
    unfold resolveIds at h
    simp only [Except.ok.injEq] at h
    subst h
    exact Or.inl ht
  | cons id rest ih =>
    intro acc v h t ht
    unfold resolveIds at h
    by_cases he : existsType id fmts = true
    · rw [if_pos he] at h
      unfold pushValidId at h
      by_cases hc : acc.length < MAX_MSG_TYPES
      · rw [if_pos hc] at h
        simp only at h
        rcases ih (acc ++ [id]) v h t ht with h1 | ⟨h1, h2⟩
        · rcases List.mem_append.mp h1 with h2 | h2
          · exact Or.inl h2
          · simp only [List.mem_singleton] at h2
            subst h2
            exact Or.inr ⟨List.mem_cons_self _ _, he⟩
        · exact Or.inr ⟨List.mem_cons_of_mem _ h1, h2⟩
      · rw [if_neg hc] at h
        simp only at h
        cases h
    · rw [if_neg he] at h
      rcases ih acc v h t ht with h1 | ⟨h1, h2⟩
      · exact Or.inl h1
      · exact Or.inr ⟨List.mem_cons_of_mem _ h1, h2⟩

/-- Every id that the resolver returns is in the accepted-type set of the
specification. -/
theorem validIds_specAccepts {msgFilter : MsgFilter} {p : LogParser} {validIds : List Nat}
    (hv : validateMessageFilter msgFilter p = .ok (1, validIds)) :
    ∀ t ∈ validIds, specAccepts p.fmt_messages msgFilter t = true := by
  intro t ht
  cases msgFilter with
  | absent =>
    simp only [validateMessageFilter, Except.ok.injEq, Prod.mk.injEq, true_and] at hv
    subst hv; cases ht
  | other e =>
    simp only [validateMessageFilter, Except.ok.injEq, Prod.mk.injEq, true_and] at hv
    subst hv; cases ht
  | cell items =>
    cases items with
    | nil =>
      simp only [validateMessageFilter, Except.ok.injEq, Prod.mk.injEq, true_and] at hv
      subst hv; cases ht
    | cons a rest =>
      simp only [validateMessageFilter] at hv
      cases hr : resolveNames p.fmt_messages (a :: rest) [] with
      | error f => simp only [hr] at hv; cases hv
      | ok v =>
        simp only [hr, Except.ok.injEq, Prod.mk.injEq, true_and] at hv
        subst hv
        rcases resolveNames_sound p.fmt_messages (a :: rest) [] v hr t ht with h1 |
          ⟨name, fmt, hn, hf, hty⟩
        · cases h1
        · obtain ⟨j, hj, hs, _⟩ := (findByName_iff name fmt p.fmt_messages).mp hf
          unfold specAccepts
          simp only [List.isEmpty_cons, Bool.false_eq_true, if_false, List.any_eq_true,
            Bool.and_eq_true, beq_iff_eq]
          exact ⟨fmt, List.getElem?_mem hj, hty, some name, hn, hs⟩
  | numeric ids =>
    cases ids with
    | nil =>
      simp only [validateMessageFilter, Except.ok.injEq, Prod.mk.injEq, true_and] at hv
      subst hv; cases ht
    | cons a rest =>
      simp only [validateMessageFilter] at hv
      cases hr : resolveIds p.fmt_messages (a :: rest) [] with
      | error f => simp only [hr] at hv; cases hv
      | ok v =>
        simp only [hr, Except.ok.injEq, Prod.mk.injEq, true_and] at hv
        subst hv
        rcases resolveIds_sound p.fmt_messages (a :: rest) [] v hr t ht with h1 | ⟨h1, h2⟩
        · cases h1
        · obtain ⟨fmt, hfm, hty⟩ := (existsType_iff t p.fmt_messages).mp h2
          unfold specAccepts declaredType
          simp only [List.isEmpty_cons, Bool.false_eq_true, if_false, List.any_eq_true,
            Bool.and_eq_true, beq_iff_eq]
          exact ⟨⟨t, h1, rfl⟩, fmt, hfm, hty⟩

/-- For an absent or empty filter the specification accepts every declared
type. -/
theorem specAccepts_of_absentOrEmpty {msgFilter : MsgFilter} {fmts : List FmtMessage}
    {fmt : FmtMessage} (he : msgFilter.isAbsentOrEmpty = true) (hf : fmt ∈ fmts) :
    specAccepts fmts msgFilter fmt.type = true := by
  have hd : declaredType fmts fmt.type = true := by
    unfold declaredType
    simp only [List.any_eq_true, beq_iff_eq]
    exact ⟨fmt, hf, rfl⟩
  cases msgFilter with
  | absent => exact hd
  | other e => exact hd
  | cell items =>
    have he' : items.isEmpty = true := he
    unfold specAccepts
    simp only [he', if_true]
    exact hd
  | numeric ids =>
    have he' : ids.isEmpty = true := he
    unfold specAccepts
    simp only [he', if_true]
    exact hd

set_option maxRecDepth 100000 in
theorem exampleLog_named :
    parse 100 exampleLog 163 149 (.cell [some [84, 69, 83, 84]]) =
      .done (some exampleResult) := by rfl

set_option maxRecDepth 100000 in
theorem exampleLog_unmatched :
    parse 100 exampleLog 163 149 (.cell [some [90]]) = .done (some exampleResult) := by rfl

/-- C6 (filter containment), as the code has it: in the result of `parse` on a
log shorter than `2 ^ 64`, the filter resolver returns a list `validIds` for the
format table of the result, and every format entry whose list is not empty is
selected for that list; when the list is not empty the entry's type id is in
it, and when the list is not empty or the filter is absent or empty the type id
is in the accepted-type set of the specification. -/
theorem filter_containment (fuel : Nat) (log : List Nat) (h0 h1 : Nat)
    (msgFilter : MsgFilter) (R : LogParser)
    (hlen : log.length < SIZE_MOD)
    (h : parse fuel log h0 h1 msgFilter = .done (some R)) :
    ∃ validIds, validateMessageFilter msgFilter R = .ok (1, validIds) ∧
      ∀ (k : Nat) (fmt : FmtMessage) (md : MessageData), R.fmt_messages[k]? = some fmt →
        R.messages[k]? = some md → md.indices ≠ [] →
        shouldParse validIds fmt = true ∧
        (validIds ≠ [] → fmt.type ∈ validIds) ∧
        (validIds ≠ [] ∨ msgFilter.isAbsentOrEmpty = true →
          specAccepts R.fmt_messages msgFilter fmt.type = true) := by
  obtain ⟨fmts, fmtLen, _, _, hp⟩ := parse_done h
  obtain ⟨validIds, pos', hv, _, hR⟩ := parseAllMessages_scanInv hlen hp
  have hvR : validateMessageFilter msgFilter R = .ok (1, validIds) := by
    rw [← hv]
    exact validateMessageFilter_congr hR.fmts_eq
  refine ⟨validIds, hvR, ?_⟩
  intro k fmt md hf hm hne
  have hfR : fmt ∈ R.fmt_messages := List.getElem?_mem hf
  rw [hR.fmts_eq] at hf
  obtain ⟨hl, _, hfr, _, _⟩ := hR.entries k md hm
  obtain ⟨off, ho⟩ := List.exists_mem_of_ne_nil _ hne
  obtain ⟨payload, hx⟩ := exists_mem_zip_of_mem md.indices md.data hl off ho
  obtain ⟨hsel, _⟩ := framed_type hf (hfr (off, payload) hx)
  refine ⟨hsel, fun hne' => (shouldParse_iff fmt hne').mp hsel, ?_⟩
  rintro (hne' | hemp)
  · exact validIds_specAccepts hvR fmt.type ((shouldParse_iff fmt hne').mp hsel)
  · exact specAccepts_of_absentOrEmpty hemp hfR

theorem filter_containment_witness :
    exampleLog.length < SIZE_MOD ∧
    parse 100 exampleLog 163 149 (.cell [some [84, 69, 83, 84]]) =
      .done (some exampleResult) ∧
    ∃ validIds, validateMessageFilter (.cell [some [84, 69, 83, 84]]) exampleResult =
        .ok (1, validIds) ∧
      ∀ (k : Nat) (fmt : FmtMessage) (md : MessageData),
        exampleResult.fmt_messages[k]? = some fmt →
        exampleResult.messages[k]? = some md → md.indices ≠ [] →
        shouldParse validIds fmt = true ∧
        (validIds ≠ [] → fmt.type ∈ validIds) ∧
        (validIds ≠ [] ∨
            (MsgFilter.cell [some [84, 69, 83, 84]]).isAbsentOrEmpty = true →
          specAccepts exampleResult.fmt_messages (.cell [some [84, 69, 83, 84]])
            fmt.type = true) :=
  ⟨by decide, exampleLog_named,
    filter_containment 100 exampleLog 163 149 (.cell [some [84, 69, 83, 84]]) exampleResult
      (by decide) exampleLog_named⟩

/-- C6 as stated fails on `exampleLog` with the name filter `[Z]`: the name
matches no declared format, the resolver returns the empty list, the scanner
reads it as no filter (line 177) and extracts the instance of type 5, which is
not in the resolved list and not in the accepted-type set of the
specification. -/
theorem filter_containment_counterexample :
    parse 100 exampleLog 163 149 (.cell [some [90]]) = .done (some exampleResult) ∧
    validateMessageFilter (.cell [some [90]]) exampleResult = .ok (1, []) ∧
    ∃ fmt md, exampleResult.fmt_messages[0]? = some fmt ∧
      exampleResult.messages[0]? = some md ∧ md.indices ≠ [] ∧ fmt.type = 5 ∧
      fmt.type ∉ ([] : List Nat) ∧
      specAccepts exampleResult.fmt_messages (.cell [some [90]]) fmt.type = false :=
  ⟨exampleLog_unmatched, by rfl, _, _, rfl, rfl, by decide, rfl, by decide, by decide⟩

/-! ## A filtered pass against the unfiltered pass: the simulation -/

theorem filterRel_take {validIds : List Nat} {p q : LogParser} (hrel : FilterRel validIds p q)
    {k : Nat} {fmt : FmtMessage} {md : MessageData} (hf : p.fmt_messages[k]? = some fmt)
    (hsel : shouldParse validIds fmt = true) (hm : p.messages[k]? = some md) (v : MessageData) :
    FilterRel validIds
      { p with messages := p.messages.set k v, total_msg_count := p.total_msg_count + 1 }
      { q with messages := q.messages.set k v, total_msg_count := q.total_msg_count + 1 } := by
  have hmq : q.messages[k]? = some md := (hrel.sel k fmt hf hsel).trans hm
  refine ⟨hrel.log_eq, hrel.h0_eq, hrel.h1_eq, hrel.fmts_eq, hrel.fmt_length_eq, ?_, ?_, ?_⟩
  · show (q.messages.set k v).length = q.fmt_messages.length
    rw [List.length_set]
    exact hrel.len_eq
  · intro k' fmt' hf' hsel'
    show (q.messages.set k v)[k']? = (p.messages.set k v)[k']?
    by_cases hkk : k = k'
    · subst hkk
      rw [List.getElem?_set_self (lt_of_getElem?_eq_some hmq),
        List.getElem?_set_self (lt_of_getElem?_eq_some hm)]
    · rw [List.getElem?_set_ne hkk, List.getElem?_set_ne hkk]
      exact hrel.sel k' fmt' hf' hsel'
  · intro k' fmt' hf' hunsel'
    show (q.messages.set k v)[k']? = some zeroMessageData
    have hkk : k ≠ k' := by
      intro he
      subst he
      have hf0 : p.fmt_messages[k]? = some fmt := hf
      have hf1 : p.fmt_messages[k]? = some fmt' := hf'
      rw [hf0] at hf1
      simp only [Option.some.injEq] at hf1
      subst hf1
      rw [hsel] at hunsel'
      cases hunsel'
    rw [List.getElem?_set_ne hkk]
    exact hrel.unsel k' fmt' hf' hunsel'

/-- A record that only the unfiltered pass takes, for an entry that the filter
leaves out, keeps the relation. -/
theorem filterRel_drop {validIds : List Nat} {p q : LogParser} (hrel : FilterRel validIds p q)
    {k : Nat} {fmt : FmtMessage} (hf : p.fmt_messages[k]? = some fmt)
    (hunsel : shouldParse validIds fmt = false) (v : MessageData) :
    FilterRel validIds
      { p with messages := p.messages.set k v, total_msg_count := p.total_msg_count + 1 }
      q := by
  refine ⟨hrel.log_eq, hrel.h0_eq, hrel.h1_eq, hrel.fmts_eq, hrel.fmt_length_eq, hrel.len_eq,
    ?_, ?_⟩
  · intro k' fmt' hf' hsel'
    show q.messages[k']? = (p.messages.set k v)[k']?
    have hkk : k ≠ k' := by
      intro he
      subst he
      have hf0 : p.fmt_messages[k]? = some fmt := hf
      have hf1 : p.fmt_messages[k]? = some fmt' := hf'
      rw [hf0] at hf1
      simp only [Option.some.injEq] at hf1
      subst hf1
      rw [hunsel] at hsel'
      cases hsel'
    rw [List.getElem?_set_ne hkk]
    exact hrel.sel k' fmt' hf' hsel'
  · intro k' fmt' hf' hunsel'
    exact hrel.unsel k' fmt' hf' hunsel'

theorem tryRecord_lockstep {validIds : List Nat} {p q p' : LogParser} {pos id k pos' : Nat}
    {fmt : FmtMessage} (hrel : FilterRel validIds p q)
    (hf : p.fmt_messages[k]? = some fmt) (hsel : shouldParse validIds fmt = true)
    (hs : tryRecord p pos id k = .ok (p', pos')) :
    ∃ q', tryRecord q pos id k = .ok (q', pos') ∧ FilterRel validIds p' q' := by
  have hsz : q.log_size = p.log_size := by
    unfold LogParser.log_size; rw [hrel.log_eq]
  have hvq : ∀ len, isValidMessage pos id len q = isValidMessage pos id len p :=
    fun len => isValidMessage_congr hrel.log_eq hrel.h0_eq hrel.h1_eq pos id len
  unfold tryRecord at hs ⊢
  rw [hrel.fmts_eq, hrel.sel k fmt hf hsel]
  cases hm : p.messages[k]? with
  | none => simp only [hf, hm] at hs; cases hs
  | some md =>
    simp only [hf, hm] at hs ⊢
    rw [hsz, hvq]
    by_cases hc : pos + fmt.length ≤ p.log_size ∧ md.allocated = true
    · rw [if_pos hc] at hs ⊢
      cases hv : isValidMessage pos id fmt.length p with
      | error f => simp only [hv] at hs; cases hs
      | ok v =>
        cases v with
        | false =>
          simp only [hv, Except.ok.injEq, Prod.mk.injEq] at hs ⊢
          exact ⟨q, ⟨rfl, hs.2⟩, hs.1 ▸ hrel⟩
        | true =>
          simp only [hv] at hs ⊢
          obtain ⟨payload, hcp, h1, h2⟩ := takeRecord_ok hs
          refine ⟨{ q with messages := q.messages.set k (addMessageData md (pos + 1) payload)
                           total_msg_count := q.total_msg_count + 1 }, ?_, ?_⟩
          · unfold takeRecord
            rw [hrel.log_eq]
            simp only [hcp, h2]
          · rw [h1]
            exact filterRel_take hrel hf hsel hm _
    · rw [if_neg hc] at hs ⊢
      simp only [Except.ok.injEq, Prod.mk.injEq] at hs ⊢
      exact ⟨q, ⟨rfl, hs.2⟩, hs.1 ▸ hrel⟩

theorem dispatch_lockstep {validIds : List Nat} {p q p' : LogParser}
    {tbl1 tbl2 : Nat → Option Nat} {pos pos' : Nat} (hrel : FilterRel validIds p q)
    (hnone : ∀ id, tbl1 id = none → tbl2 id = none)
    (hsome : ∀ (id k : Nat) (fmt : FmtMessage), tbl1 id = some k →
      p.fmt_messages[k]? = some fmt →
      (shouldParse validIds fmt = true → tbl2 id = some k) ∧
      (shouldParse validIds fmt = false → tbl2 id = none))
    (hkeep : ∀ (id k : Nat) (fmt : FmtMessage), p.log_data[pos + 2]? = some id →
      tbl1 id = some k → p.fmt_messages[k]? = some fmt → shouldParse validIds fmt = false →
      p'.total_msg_count = p.total_msg_count)
    (hs : dispatch p tbl1 pos = .ok (p', pos')) :
    ∃ q', dispatch q tbl2 pos = .ok (q', pos') ∧ FilterRel validIds p' q' := by
  unfold dispatch at hs ⊢
  rw [hrel.log_eq]
  cases hr : readByte p.log_data (pos + 2) with
  | error f => simp only [hr] at hs; cases hs
  | ok id =>
    simp only [hr] at hs ⊢
    cases ht : tbl1 id with
    | none =>
      simp only [ht, Except.ok.injEq, Prod.mk.injEq] at hs
      simp only [hnone id ht, Except.ok.injEq, Prod.mk.injEq]
      exact ⟨q, ⟨rfl, hs.2⟩, hs.1 ▸ hrel⟩
    | some k =>
      simp only [ht] at hs
      cases hf : p.fmt_messages[k]? with
      | none =>
        unfold tryRecord at hs
        simp only [hf] at hs
        cases hs
      | some fmt =>
        cases hsel : shouldParse validIds fmt with
        | true =>
          simp only [(hsome id k fmt ht hf).1 hsel]
          exact tryRecord_lockstep hrel hf hsel hs
        | false =>
          simp only [(hsome id k fmt ht hf).2 hsel, Except.ok.injEq, Prod.mk.injEq]
          rcases tryRecord_ok hs with ⟨h1, h2⟩ | ⟨fmt', md, payload, _, hm, _, _, _, _, h1, _⟩
          · exact ⟨q, ⟨rfl, h2.symm⟩, h1 ▸ hrel⟩
          · exfalso
            have htot := hkeep id k fmt (readByte_ok hr) ht hf hsel
            rw [h1] at htot
            have htot' : p.total_msg_count + 1 = p.total_msg_count := htot
            omega

/-- One iteration in which the unfiltered pass takes no record of an entry
that the filter leaves out: the filtered pass does the same. -/
theorem scanStep_lockstep {validIds : List Nat} {p q p' : LogParser}
    {tbl1 tbl2 : Nat → Option Nat} {pos pos' : Nat} (hrel : FilterRel validIds p q)
    (hnone : ∀ id, tbl1 id = none → tbl2 id = none)
    (hsome : ∀ (id k : Nat) (fmt : FmtMessage), tbl1 id = some k →
      p.fmt_messages[k]? = some fmt →
      (shouldParse validIds fmt = true → tbl2 id = some k) ∧
      (shouldParse validIds fmt = false → tbl2 id = none))
    (hkeep : ∀ (id k : Nat) (fmt : FmtMessage), p.log_data[pos + 2]? = some id →
      tbl1 id = some k → p.fmt_messages[k]? = some fmt → shouldParse validIds fmt = false →
      p'.total_msg_count = p.total_msg_count)
    (hs : scanStep p tbl1 pos = .ok (p', pos')) :
    ∃ q', scanStep q tbl2 pos = .ok (q', pos') ∧ FilterRel validIds p' q' := by
  unfold scanStep at hs ⊢
  rw [hrel.log_eq, hrel.h0_eq, hrel.h1_eq]
  cases hr0 : readByte p.log_data pos with
  | error f => simp only [hr0] at hs; cases hs
  | ok b0 =>
    simp only [hr0] at hs ⊢
    by_cases hb0 : b0 = p.header0
    · rw [if_pos hb0] at hs ⊢
      cases hr1 : readByte p.log_data (pos + 1) with
      | error f => simp only [hr1] at hs; cases hs
      | ok b1 =>
        simp only [hr1] at hs ⊢
        by_cases hb1 : b1 = p.header1
        · rw [if_pos hb1] at hs ⊢
          exact dispatch_lockstep hrel hnone hsome hkeep hs
        · rw [if_neg hb1] at hs ⊢
          simp only [Except.ok.injEq, Prod.mk.injEq] at hs ⊢
          exact ⟨q, ⟨rfl, hs.2⟩, hs.1 ▸ hrel⟩
    · rw [if_neg hb0] at hs ⊢
      simp only [Except.ok.injEq, Prod.mk.injEq] at hs ⊢
      exact ⟨q, ⟨rfl, hs.2⟩, hs.1 ▸ hrel⟩

/-- An offset recorded during the main pass is still recorded when the pass
ends. -/
theorem scanLoop_keeps {tbl : Nat → Option Nat} (k off : Nat) (fuel : Nat) (p : LogParser)
    (pos : Nat) (R : LogParser) (h : scanLoop tbl fuel p pos = .done R)
    (hne : ∃ md, p.messages[k]? = some md ∧ off ∈ md.indices) :
    ∃ md, R.messages[k]? = some md ∧ off ∈ md.indices := by
  obtain ⟨_, hR, _⟩ := scanLoop_inv
    (fun q _ => ∃ md, q.messages[k]? = some md ∧ off ∈ md.indices)
    (by
      intro q pos q' pos' hI _ hs
      obtain ⟨md, hm, hmem⟩ := hI
      rcases scanStep_messages hs with h1 | ⟨k', md', index, payload, hm', h1⟩
      · rw [h1]; exact ⟨md, hm, hmem⟩
      · rw [h1]
        by_cases hkk : k' = k
        · subst hkk
          rw [hm] at hm'
          simp only [Option.some.injEq] at hm'
          subst hm'
          refine ⟨addMessageData md index payload,
            List.getElem?_set_self (lt_of_getElem?_eq_some hm), ?_⟩
          show off ∈ md.indices ++ [index]
          exact List.mem_append_left _ hmem
        · exact ⟨md, by rw [List.getElem?_set_ne hkk]; exact hm, hmem⟩)
    fuel p pos R hne h
  exact hR

theorem scanStep_skip1 {p : LogParser} {tbl : Nat → Option Nat} {pos b : Nat}
    (hb0 : p.log_data[pos]? = some p.header0) (hb1 : p.log_data[pos + 1]? = some b)
    (hne : b ≠ p.header1) (hlt : pos + 1 < SIZE_MOD) :
    scanStep p tbl pos = .ok (p, pos + 1) := by
  unfold scanStep
  simp only [readByte_of_getElem? hb0, readByte_of_getElem? hb1, if_true]
  rw [if_neg hne, wrapAdd_of_lt hlt]

/-- One iteration at a frame whose record does not fit in the log or fails
the frame check: the pass moves on by one byte. -/
theorem scanStep_reject {p : LogParser} {tbl : Nat → Option Nat} {pos id k : Nat}
    {fmt : FmtMessage} {md : MessageData}
    (hb0 : p.log_data[pos]? = some p.header0) (hb1 : p.log_data[pos + 1]? = some p.header1)
    (hid : p.log_data[pos + 2]? = some id) (hk : tbl id = some k)
    (hf : p.fmt_messages[k]? = some fmt) (hm : p.messages[k]? = some md)
    (hrej : pos + fmt.length ≤ p.log_size → isValidMessage pos id fmt.length p ≠ .ok true)
    (hlt : pos + 1 < SIZE_MOD) :
    scanStep p tbl pos = .ok (p, pos + 1) := by
  unfold scanStep
  simp only [readByte_of_getElem? hb0, readByte_of_getElem? hb1, if_true]
  unfold dispatch
  simp only [readByte_of_getElem? hid, hk]
  unfold tryRecord
  simp only [hf, hm]
  by_cases hc : pos + fmt.length ≤ p.log_size ∧ md.allocated = true
  · rw [if_pos hc]
    have hrej' := hrej hc.1
    have hveq := isValidMessage_eq p pos id fmt.length hc.1
    cases hd : decide (pos + fmt.length = p.log_size ∨ pos + fmt.length + 1 = p.log_size ∨
        (p.log_data[pos + fmt.length]? = some p.header0 ∧
          p.log_data[pos + fmt.length + 1]? = some p.header1)) with
    | true =>
      rw [hd] at hveq
      exact absurd hveq hrej'
    | false =>
      rw [hd] at hveq
      simp only [hveq]
      rw [wrapAdd_of_lt hlt]
  · rw [if_neg hc, wrapAdd_of_lt hlt]

/-- The main pass over `m` positions at each of which, while the loop runs, it
only moves on by one byte. -/
theorem scanLoop_skips_end {tbl : Nat → Option Nat} (q : LogParser) :
    ∀ (m fuel i : Nat),
      (∀ j, i ≤ j → j < i + m → j < wrapSub q.log_size 2 → scanStep q tbl j = .ok (q, j + 1)) →
      scanLoop tbl (fuel + 1 + m) q i = scanLoop tbl (fuel + 1) q (i + m) := by
  intro m
  induction m with
  | zero => intro fuel i _; rfl
  | succ m ih =>
    intro fuel i hstep
    have e1 : fuel + 1 + (m + 1) = (fuel + 1 + m) + 1 := by omega
    have e2 : i + (m + 1) = i + 1 + m := by omega
    rw [e1, scanLoop_succ]
    by_cases hc : i < wrapSub q.log_size 2
    · rw [if_pos hc, hstep i (Nat.le_refl i) (by omega) hc, e2]
      exact ih fuel (i + 1) (fun j h1 h2 h3 => hstep j (by omega) (by omega) h3)
    · rw [if_neg hc, scanLoop_succ, if_neg (by omega)]

/-- The result of the main pass does not depend on the fuel, once there is
enough of it. -/
theorem scanLoop_det {tbl : Nat → Option Nat} {R : LogParser} :
    ∀ (f1 f2 : Nat) (p : LogParser) (pos : Nat), scanLoop tbl f1 p pos = .done R →
      scanLoop tbl f2 p pos ≠ .outOfFuel → scanLoop tbl f2 p pos = .done R := by
  intro f1
  induction f1 with
  | zero =>
    intro f2 p pos h _
    unfold scanLoop at h
    cases h
  | succ n ih =>
    intro f2 p pos h hne
    cases f2 with
    | zero => exact absurd rfl hne
    | succ m =>
      rw [scanLoop_succ] at h hne ⊢
      by_cases hc : pos < wrapSub p.log_size 2
      · rw [if_pos hc] at h hne ⊢
        cases hs : scanStep p tbl pos with
        | error f => simp only [hs] at h; cases h
        | ok r =>
          obtain ⟨p', pos'⟩ := r
          simp only [hs] at h hne ⊢
          exact ih m p' pos' h hne
      · rw [if_neg hc] at h ⊢
        exact h

/-- The filtered pass against the unfiltered pass.  Where the unfiltered pass
takes a record of an entry that the filter leaves out, the filtered pass steps
through that record byte by byte; when it accepts no record at a position
inside such a record, it arrives at the end of the record in a related state,
and so it ends in a parser related to the result of the unfiltered pass. -/
theorem scanLoop_filtered {validIds : List Nat} {fmts : List FmtMessage} {log : List Nat}
    {h0 h1 : Nat} {tbl1 tbl2 : Nat → Option Nat} {R0 : LogParser}
    (hlen : log.length < SIZE_MOD)
    (hnone : ∀ id, tbl1 id = none → tbl2 id = none)
    (hsome : ∀ (id k : Nat) (fmt : FmtMessage), tbl1 id = some k → fmts[k]? = some fmt →
      (shouldParse validIds fmt = true → tbl2 id = some k) ∧
      (shouldParse validIds fmt = false → tbl2 id = none))
    (htbl2 : ∀ (id k : Nat), tbl2 id = some k →
      ∃ fmt, fmts[k]? = some fmt ∧ fmt.type = id ∧ shouldParse validIds fmt = true)
    (hclean : ∀ (k : Nat) (fmt : FmtMessage) (md : MessageData) (off j id k' : Nat)
      (fmt' : FmtMessage), fmts[k]? = some fmt → shouldParse validIds fmt = false →
      R0.messages[k]? = some md → off ∈ md.indices → off ≤ j → j + 1 < off + fmt.length →
      log[j]? = some h0 → log[j + 1]? = some h1 → log[j + 2]? = some id →
      fmts[k']? = some fmt' → fmt'.type = id → shouldParse validIds fmt' = true →
      j + fmt'.length ≤ log.length →
      isValidMessage j id fmt'.length (initParser log h0 h1) ≠ .ok true) :
    ∀ (fuel : Nat) (p q : LogParser) (pos : Nat), FilterRel validIds p q →
      p.fmt_messages = fmts → p.log_data = log → p.header0 = h0 → p.header1 = h1 →
      scanLoop tbl1 fuel p pos = .done R0 →
      ∃ fuel' R, scanLoop tbl2 fuel' q pos = .done R ∧ FilterRel validIds R0 R := by
  intro fuel
  induction fuel with
  | zero =>
    intro p q pos _ _ _ _ _ h
    unfold scanLoop at h
    cases h
  | succ n ih =>
    intro p q pos hrel hfm hlog hh0 hh1 h
    have hsz : q.log_size = p.log_size := by
      unfold LogParser.log_size; rw [hrel.log_eq]
    have hszl : p.log_size = log.length := by
      unfold LogParser.log_size; rw [hlog]
    have hlt : p.log_size < SIZE_MOD := by rw [hszl]; exact hlen
    rw [scanLoop_succ] at h
    by_cases hc : pos < wrapSub p.log_size 2
    · rw [if_pos hc] at h
      cases hs : scanStep p tbl1 pos with
      | error f => simp only [hs] at h; cases h
      | ok r =>
        obtain ⟨p', pos'⟩ := r
        simp only [hs] at h
        have hinv : p'.fmt_messages = fmts ∧ p'.log_data = log ∧ p'.header0 = h0 ∧
            p'.header1 = h1 := by
          rcases scanStep_messages hs with e | ⟨k, md, index, payload, _, e⟩
          · rw [e]; exact ⟨hfm, hlog, hh0, hh1⟩
          · rw [e]; exact ⟨hfm, hlog, hh0, hh1⟩
        have hsome' : ∀ (id k : Nat) (fmt : FmtMessage), tbl1 id = some k →
            p.fmt_messages[k]? = some fmt →
            (shouldParse validIds fmt = true → tbl2 id = some k) ∧
            (shouldParse validIds fmt = false → tbl2 id = none) :=
          fun id k fmt ht hf => hsome id k fmt ht (hfm ▸ hf)
        have hcont : ∀ q', scanStep q tbl2 pos = .ok (q', pos') → FilterRel validIds p' q' →
            ∃ fuel' R, scanLoop tbl2 fuel' q pos = .done R ∧ FilterRel validIds R0 R := by
          intro q' hq hrel'
          obtain ⟨fuel', R, hR, hrelR⟩ := ih p' q' pos' hrel' hinv.1 hinv.2.1 hinv.2.2.1
            hinv.2.2.2 h
          refine ⟨fuel' + 1, R, ?_, hrelR⟩
          rw [scanLoop_succ, hsz, if_pos hc, hq]
          exact hR
        rcases scanStep_cases hlt hs with ⟨e1, _, _⟩ |
          ⟨k, fmt, md, id, hb0, hb1, hid, hk, hf, hm, _, h3, hfit, _, e1, e2⟩
        · obtain ⟨q', hq, hrel'⟩ := scanStep_lockstep hrel hnone hsome'
            (fun _ _ _ _ _ _ _ => by rw [e1]) hs
          exact hcont q' hq hrel'
        · have hf' : fmts[k]? = some fmt := hfm ▸ hf
          cases hsel : shouldParse validIds fmt with
          | true =>
            obtain ⟨q', hq, hrel'⟩ := scanStep_lockstep hrel hnone hsome'
              (fun id2 k2 fmt2 hid2 hk2 hf2 hun2 => by
                exfalso
                rw [hid] at hid2
                simp only [Option.some.injEq] at hid2
                subst hid2
                rw [hk] at hk2
                simp only [Option.some.injEq] at hk2
                subst hk2
                rw [hf] at hf2
                simp only [Option.some.injEq] at hf2
                subst hf2
                rw [hsel] at hun2
                cases hun2) hs
            exact hcont q' hq hrel'
          | false =>
            have hrel' : FilterRel validIds p' q := by
              rw [e1]; exact filterRel_drop hrel hf hsel _
            obtain ⟨fuel', R, hR, hrelR⟩ := ih p' q pos' hrel' hinv.1 hinv.2.1 hinv.2.2.1
              hinv.2.2.2 h
            obtain ⟨f, hf1⟩ : ∃ f, fuel' = f + 1 := by
              cases fuel' with
              | zero => unfold scanLoop at hR; cases hR
              | succ f => exact ⟨f, rfl⟩
            subst hf1
            obtain ⟨mdR, hmR, hoR⟩ := scanLoop_keeps k (pos + 1) n p' pos' R0 h
              ⟨addMessageData md (pos + 1) ((p.log_data.drop (pos + 3)).take (fmt.length - 3)),
                by rw [e1]; exact List.getElem?_set_self (lt_of_getElem?_eq_some hm),
                by
                  show pos + 1 ∈ md.indices ++ [pos + 1]
                  exact List.mem_append_right _ (List.mem_singleton.mpr rfl)⟩
            have hql : q.log_data = log := hrel.log_eq.trans hlog
            have hq0h : q.header0 = h0 := hrel.h0_eq.trans hh0
            have hq1h : q.header1 = h1 := hrel.h1_eq.trans hh1
            have hqf : q.fmt_messages = fmts := hrel.fmts_eq.trans hfm
            have hq0 : scanStep q tbl2 pos = .ok (q, pos + 1) :=
              @scanStep_unknown q tbl2 pos id
                (by rw [hrel.log_eq, hrel.h0_eq]; exact hb0)
                (by rw [hrel.log_eq, hrel.h1_eq]; exact hb1)
                (by rw [hrel.log_eq]; exact hid)
                ((hsome id k fmt hk hf').2 hsel) (by omega)
            have hw : wrapSub q.log_size 2 = log.length - 2 := by
              rw [hsz, hszl]; exact wrapSub_of_le (by omega)
            have hint : ∀ j, pos + 1 ≤ j → j < pos + 1 + (fmt.length - 1) →
                j < wrapSub q.log_size 2 → scanStep q tbl2 j = .ok (q, j + 1) := by
              intro j hj1 hj2 hj3
              rw [hw] at hj3
              have hjs : j + 1 < SIZE_MOD := by omega
              have hl0 : j < log.length := by omega
              have hl1 : j + 1 < log.length := by omega
              have hl2 : j + 2 < log.length := by omega
              obtain ⟨b0, e0⟩ : ∃ b, log[j]? = some b := ⟨_, List.getElem?_eq_getElem hl0⟩
              obtain ⟨b1, e1'⟩ : ∃ b, log[j + 1]? = some b := ⟨_, List.getElem?_eq_getElem hl1⟩
              obtain ⟨b2, e2'⟩ : ∃ b, log[j + 2]? = some b := ⟨_, List.getElem?_eq_getElem hl2⟩
              have g0 : q.log_data[j]? = some b0 := by rw [hql]; exact e0
              have g1 : q.log_data[j + 1]? = some b1 := by rw [hql]; exact e1'
              have g2 : q.log_data[j + 2]? = some b2 := by rw [hql]; exact e2'
              by_cases c0 : b0 = q.header0
              · rw [c0] at g0
                by_cases c1 : b1 = q.header1
                · rw [c1] at g1
                  cases ht : tbl2 b2 with
                  | none => exact scanStep_unknown g0 g1 g2 ht hjs
                  | some k2 =>
                    obtain ⟨fmt2, hf2, hty2, hsel2⟩ := htbl2 _ k2 ht
                    have hk2 : k2 < q.messages.length := by
                      rw [hrel.len_eq, hqf]; exact lt_of_getElem?_eq_some hf2
                    refine scanStep_reject g0 g1 g2 ht (by rw [hqf]; exact hf2)
                      (List.getElem?_eq_getElem hk2) ?_ hjs
                    intro hfit2
                    have hcl := hclean k fmt mdR (pos + 1) j b2 k2 fmt2 hf' hsel hmR hoR
                      hj1 (by omega)
                      (by rw [e0, c0, hq0h]) (by rw [e1', c1, hq1h]) e2'
                      hf2 hty2 hsel2 (by rw [← hszl, ← hsz]; exact hfit2)
                    rw [@isValidMessage_congr (initParser log h0 h1) q hql hq0h hq1h j
                      b2 fmt2.length]
                    exact hcl
                · exact scanStep_skip1 g0 g1 c1 hjs
              · exact scanStep_skip g0 c0 hjs
            refine ⟨f + 1 + (fmt.length - 1) + 1, R, ?_, hrelR⟩
            rw [scanLoop_succ, hsz, if_pos hc, hq0]
            simp only
            rw [scanLoop_skips_end q (fmt.length - 1) f (pos + 1) hint]
            have e3 : pos + 1 + (fmt.length - 1) = pos' := by rw [e2]; omega
            rw [e3]
            exact hR
    · rw [if_neg hc] at h
      simp only [Run.done.injEq] at h
      subst h
      refine ⟨0 + 1, q, ?_, hrel⟩
      rw [scanLoop_succ, hsz, if_neg hc]

set_option maxRecDepth 100000 in
theorem mixedLog_parse :
    parse 200 mixedLog 163 149 .absent = .done (some mixedUnfiltered) := by rfl

/-- C7 (filtering against the unfiltered parse), as the code has it.  On a log
shorter than `2 ^ 64`, let `parse` with no filter return `R0`, and assume that
at no position inside a record that `R0` holds for an entry the filter leaves
out (after the record's first byte) there stands a frame that the scanner would
accept for a selected format: the two header bytes, the type id of a selected
format, a record of its length that fits in the log and passes the frame check.
Then `parse` with the filter returns, for every fuel above `len(log)`, one
result with the same format table, in which every selected entry is identical
(offsets and payloads) to the unfiltered one and every other entry is the zero
entry, whose lists are empty. -/
theorem filtered_parse_agrees (fuel : Nat) (log : List Nat) (h0 h1 : Nat)
    (msgFilter : MsgFilter) (R0 : LogParser) (validIds : List Nat)
    (hlen : log.length < SIZE_MOD)
    (h : parse fuel log h0 h1 .absent = .done (some R0))
    (hv : validateMessageFilter msgFilter R0 = .ok (1, validIds))
    (hclean : ∀ (k : Nat) (fmt : FmtMessage) (md : MessageData) (off j id k' : Nat)
      (fmt' : FmtMessage), R0.fmt_messages[k]? = some fmt → shouldParse validIds fmt = false →
      R0.messages[k]? = some md → off ∈ md.indices → off ≤ j → j + 1 < off + fmt.length →
      log[j]? = some h0 → log[j + 1]? = some h1 → log[j + 2]? = some id →
      R0.fmt_messages[k']? = some fmt' → fmt'.type = id → shouldParse validIds fmt' = true →
      j + fmt'.length ≤ log.length →
      isValidMessage j id fmt'.length (initParser log h0 h1) ≠ .ok true) :
    ∃ R, (∀ fuel', log.length < fuel' → parse fuel' log h0 h1 msgFilter = .done (some R)) ∧
      R.fmt_messages = R0.fmt_messages ∧
      ∀ (k : Nat) (fmt : FmtMessage), R0.fmt_messages[k]? = some fmt →
        (shouldParse validIds fmt = true → R.messages[k]? = R0.messages[k]?) ∧
        (shouldParse validIds fmt = false → R.messages[k]? = some zeroMessageData) := by
  obtain ⟨fmts, fmtLen, w, hb, hp⟩ := parse_done h
  have hv0 : validateMessageFilter .absent (freshParser log h0 h1 fmts fmtLen) =
      .ok (1, []) := rfl
  rw [parseAllMessages_eq hv0] at hp
  cases hsc : scanLoop (lookupLast [] fmts 0) fuel
      { freshParser log h0 h1 fmts fmtLen with messages := fmts.map (selectInit []) } 0 with
  | fault f => simp only [hsc] at hp; cases hp
  | outOfFuel => simp only [hsc] at hp; cases hp
  | done p' =>
    simp only [hsc, Run.done.injEq, Prod.mk.injEq, true_and] at hp
    subst hp
    have hfr := (scanLoop_frame fuel _ 0 p' hsc).2.2.2.1
    have hfm : p'.fmt_messages = fmts := hfr
    have hv' : validateMessageFilter msgFilter (freshParser log h0 h1 fmts fmtLen) =
        .ok (1, validIds) := by
      rw [← hv]
      exact validateMessageFilter_congr hfm.symm
    have hrel0 : FilterRel validIds
        { freshParser log h0 h1 fmts fmtLen with messages := fmts.map (selectInit []) }
        { freshParser log h0 h1 fmts fmtLen with
          messages := fmts.map (selectInit validIds) } := by
      refine ⟨rfl, rfl, rfl, rfl, rfl, ?_, ?_, ?_⟩
      · show (fmts.map (selectInit validIds)).length = fmts.length
        exact List.length_map _ _
      · intro k fmt hf hsel
        have hf' : fmts[k]? = some fmt := hf
        show (fmts.map (selectInit validIds))[k]? = (fmts.map (selectInit []))[k]?
        simp only [List.getElem?_map, hf', Option.map_some', selectInit, hsel, if_true]
        rfl
      · intro k fmt hf hunsel
        have hf' : fmts[k]? = some fmt := hf
        show (fmts.map (selectInit validIds))[k]? = some zeroMessageData
        simp only [List.getElem?_map, hf', Option.map_some', selectInit, hunsel]
        rfl
    obtain ⟨fuel2, R, hR, hrel⟩ := @scanLoop_filtered validIds fmts log h0 h1
      (lookupLast [] fmts 0) (lookupLast validIds fmts 0) p' hlen
      (fun id => (lookupLast_filter validIds fmts id).1)
      (fun id k fmt ht hf => (lookupLast_filter validIds fmts id).2 k fmt ht hf)
      (fun id k ht => by
        obtain ⟨j, f, hk, hfj, hty, hsel, _⟩ := lookupLast_some validIds fmts 0 id k ht
        have hkj : k = j := by omega
        subst hkj
        exact ⟨f, hfj, hty, hsel⟩)
      (fun k fmt md off j id k' fmt' hf hun hm ho hj1 hj2 hb0 hb1 hid hf2 hty hsel hfit =>
        hclean k fmt md off j id k' fmt' (hfm ▸ hf) hun hm ho hj1 hj2 hb0 hb1 hid
          (hfm ▸ hf2) hty hsel hfit)
      fuel _ _ 0 hrel0 rfl rfl rfl rfl hsc
    refine ⟨R, ?_, hrel.fmts_eq, fun k fmt hf => ⟨hrel.sel k fmt hf, hrel.unsel k fmt hf⟩⟩
    intro fuel' hfuel
    obtain ⟨g, hg⟩ : ∃ g, fuel' = g + 1 := ⟨fuel' - 1, by omega⟩
    subst hg
    have hne := @scanLoop_terminates (lookupLast validIds fmts 0) g
      { freshParser log h0 h1 fmts fmtLen with messages := fmts.map (selectInit validIds) } 0
      hlen (by
        show log.length ≤ 0 + g
        omega)
    have hdone := scanLoop_det fuel2 (g + 1) _ 0 hR hne
    unfold parse
    simp only [hb]
    rw [parseAllMessages_eq hv', hdone]
    rfl

set_option maxRecDepth 100000 in
theorem filtered_parse_agrees_witness :
    mixedLog.length < SIZE_MOD ∧
    parse 200 mixedLog 163 149 .absent = .done (some mixedUnfiltered) ∧
    validateMessageFilter (.cell [some [65]]) mixedUnfiltered = .ok (1, [1]) ∧
    ∃ R, (∀ fuel', mixedLog.length < fuel' →
        parse fuel' mixedLog 163 149 (.cell [some [65]]) = .done (some R)) ∧
      R.fmt_messages = mixedUnfiltered.fmt_messages ∧
      ∀ (k : Nat) (fmt : FmtMessage), mixedUnfiltered.fmt_messages[k]? = some fmt →
        (shouldParse [1] fmt = true → R.messages[k]? = mixedUnfiltered.messages[k]?) ∧
        (shouldParse [1] fmt = false → R.messages[k]? = some zeroMessageData) :=
  ⟨by decide, mixedLog_parse, by rfl,
    filtered_parse_agrees 200 mixedLog 163 149 (.cell [some [65]]) mixedUnfiltered [1]
      (by decide) mixedLog_parse (by rfl) (by
        intro k fmt md off j id k' fmt' hf hun hm ho hj1 hj2 hb0 _ _ _ _ _ _
        cases k with
        | zero =>
          have hf' : some (shadowFmts[0]) = some fmt := hf
          simp only [Option.some.injEq] at hf'
          subst hf'
          exact absurd hun (by decide)
        | succ k1 =>
          cases k1 with
          | zero =>
            have hf' : some (shadowFmts[1]) = some fmt := hf
            simp only [Option.some.injEq] at hf'
            subst hf'
            have hm' : some (mixedUnfiltered.messages[1]) = some md := hm
            simp only [Option.some.injEq] at hm'
            subst hm'
            have ho' : off ∈ [182] := ho
            simp only [List.mem_singleton] at ho'
            subst ho'
            have hj2' : j + 1 < 182 + 6 := hj2
            have hj : j = 182 ∨ j = 183 ∨ j = 184 ∨ j = 185 ∨ j = 186 := by omega
            rcases hj with hj | hj | hj | hj | hj <;> subst hj <;>
              exact absurd hb0 (by decide)
          | succ k2 =>
            have hl := lt_of_getElem?_eq_some hf
            have hl2 : mixedUnfiltered.fmt_messages.length = 2 := rfl
            omega)⟩

end Ardupilog
